import Mathlib

/-!
# Texas hold'em hand evaluation: a verification development

A shallow embedding of `poker/card.go` and `poker/hand.go`.

Modelling conventions.

* `Suit`, `Rank` and `HandVal` are Go `int` enumerations declared with `iota`; they are
  embedded as inductive types together with their integer value (`toNat`).  Every
  comparison or arithmetic step of the source is done on that integer value.
* A Go `string` is embedded as a Lean `String` (so only valid UTF-8 strings are covered);
  `len(s)` and `s[i]` are taken on the UTF-8 bytes of the string (`goBytes`).
* A slice is a `List`.  Reading a slice outside of its bounds panics in Go; such a read is
  embedded as `none` in the `Option` monad.
  A `nil` slice and an empty slice are both the empty list.
* `*Card` and `*Hand` are embedded as values: a `nil` pointer is not a card or a hand.
* `fmt.Errorf` values are embedded as the constructors of `PokerError`, one per message.
* `map[Rank]int` is embedded as a partial function `Rank → Option Nat`.
* The loop of `findBestFive` is embedded with a fuel; `findBestFive` is proved to return on
  every hand of seven cards (`findBestFive_spec`), and `Evaluate` on every hand
  (`Evaluate_isSome`).

The file has three parts: the definitions (the embedding of the source, the notions of the
specification, the auxiliary definitions of the proofs), the lemmas, and the claims.
-/

namespace Poker

/-! ## card.go -/

/-- Suit of a playing card (`type Suit int`). -/
inductive Suit where
  | Hearts
  | Diamonds
  | Clubs
  | Spades
  deriving DecidableEq

/-- Rank of a playing card (`type Rank int`). -/
inductive Rank where
  | Two
  | Three
  | Four
  | Five
  | Six
  | Seven
  | Eight
  | Nine
  | Ten
  | Jack
  | Queen
  | King
  | Ace
  deriving DecidableEq

open Suit (Hearts Diamonds Clubs Spades)

open Rank (Two Three Four Five Six Seven Eight Nine Ten Jack Queen King Ace)

/-- Integer value of a suit (`iota`). -/
def Suit.toNat : Suit → Nat
  | Hearts => 0
  | Diamonds => 1
  | Clubs => 2
  | Spades => 3

/-- Integer value of a rank (`iota`): `Two = 0`, ..., `Ace = 12`. -/
def Rank.toNat : Rank → Nat
  | Two => 0
  | Three => 1
  | Four => 2
  | Five => 3
  | Six => 4
  | Seven => 5
  | Eight => 6
  | Nine => 7
  | Ten => 8
  | Jack => 9
  | Queen => 10
  | King => 11
  | Ace => 12

/-- Method `func (s Suit) String() string`. -/
def Suit.String : Suit → String
  | Hearts => "H"
  | Diamonds => "D"
  | Clubs => "C"
  | Spades => "S"

/-- Method `func (r Rank) String() string`. -/
def Rank.String : Rank → String
  | Two => "2"
  | Three => "3"
  | Four => "4"
  | Five => "5"
  | Six => "6"
  | Seven => "7"
  | Eight => "8"
  | Nine => "9"
  | Ten => "T"
  | Jack => "J"
  | Queen => "Q"
  | King => "K"
  | Ace => "A"

/-- A playing card (`type Card struct`). -/
structure Card where
  Suit : Poker.Suit
  Rank : Poker.Rank
  deriving DecidableEq

/-- The errors built with `fmt.Errorf` in `card.go` and `hand.go`, one constructor per
message, carrying the formatted argument. -/
inductive PokerError where
  | invalidCardFormat (s : String)
  | invalidSuit (b : Nat)
  | invalidRank (b : Nat)
  | handSize (n : Nat)
  | duplicateCard (key : String)
  deriving DecidableEq

/-- UTF-8 encoding of one code point, as a list of byte values. -/
def utf8Bytes (c : Char) : List Nat :=
  let v := c.toNat
  if v < 0x80 then [v]
  else if v < 0x800 then [0xC0 + v / 64, 0x80 + v % 64]
  else if v < 0x10000 then [0xE0 + v / 4096, 0x80 + (v / 64) % 64, 0x80 + v % 64]
  else [0xF0 + v / 262144, 0x80 + (v / 4096) % 64, 0x80 + (v / 64) % 64, 0x80 + v % 64]

/-- The bytes of a Go string: `len(s)` is the length of this list and `s[i]` its `i`-th
element. -/
def goBytes (s : String) : List Nat :=
  s.data.flatMap utf8Bytes

/-- The `switch s[0]` of `NewCard`; `none` is the `default` branch. -/
def suitOfByte (b : Nat) : Option Suit :=
  if b = 'H'.toNat then some Hearts
  else if b = 'D'.toNat then some Diamonds
  else if b = 'C'.toNat then some Clubs
  else if b = 'S'.toNat then some Spades
  else none

/-- The `switch s[1]` of `NewCard`; `none` is the `default` branch. -/
def rankOfByte (b : Nat) : Option Rank :=
  if b = '2'.toNat then some Two
  else if b = '3'.toNat then some Three
  else if b = '4'.toNat then some Four
  else if b = '5'.toNat then some Five
  else if b = '6'.toNat then some Six
  else if b = '7'.toNat then some Seven
  else if b = '8'.toNat then some Eight
  else if b = '9'.toNat then some Nine
  else if b = 'T'.toNat then some Ten
  else if b = 'J'.toNat then some Jack
  else if b = 'Q'.toNat then some Queen
  else if b = 'K'.toNat then some King
  else if b = 'A'.toNat then some Ace
  else none

/-- Function `NewCard`: parses a two-byte token such as `H2` or `SQ`. -/
def NewCard (s : String) : Except PokerError Card :=
  match goBytes s with
  | [b0, b1] =>
    match suitOfByte b0 with
    | none => .error (.invalidSuit b0)
    | some suit =>
      match rankOfByte b1 with
      | none => .error (.invalidRank b1)
      | some rank => .ok { Suit := suit, Rank := rank }
  | _ => .error (.invalidCardFormat s)

/-- Method `func (c *Card) String() string`. -/
def Card.String (c : Card) : String :=
  c.Suit.String ++ c.Rank.String

/-! ## hand.go -/

/-- Value of a poker hand (`type HandVal int`). -/
inductive HandVal where
  | HighCard
  | OnePair
  | TwoPair
  | ThreeOfAKind
  | Straight
  | Flush
  | FullHouse
  | FourOfAKind
  | StraightFlush
  | RoyalFlush
  deriving DecidableEq

open HandVal (HighCard OnePair TwoPair ThreeOfAKind Straight Flush FullHouse FourOfAKind
  StraightFlush RoyalFlush)

/-- Integer value of a hand value (`iota`). -/
def HandVal.toNat : HandVal → Nat
  | HighCard => 0
  | OnePair => 1
  | TwoPair => 2
  | ThreeOfAKind => 3
  | Straight => 4
  | Flush => 5
  | FullHouse => 6
  | FourOfAKind => 7
  | StraightFlush => 8
  | RoyalFlush => 9

/-- A collection of cards (`type Hand struct`). -/
structure Hand where
  Cards : List Card
  deriving DecidableEq

/-- White space as defined by Go's `unicode.IsSpace`. -/
def isSpace (c : Char) : Bool :=
  let v := c.toNat
  (9 ≤ v && v ≤ 13) || v = 0x20 || v = 0x85 || v = 0xA0 || v = 0x1680
    || (0x2000 ≤ v && v ≤ 0x200A) || v = 0x2028 || v = 0x2029 || v = 0x202F
    || v = 0x205F || v = 0x3000

/-- Scan of `strings.Fields`: `cur` is the field being read, in reverse. -/
def fieldsAux : List Char → List Char → List String
  | [], cur => if cur.isEmpty then [] else [String.mk cur.reverse]
  | c :: cs, cur =>
    if isSpace c then
      if cur.isEmpty then fieldsAux cs [] else String.mk cur.reverse :: fieldsAux cs []
    else fieldsAux cs (c :: cur)

/-- Library function `strings.Fields`: the maximal runs of non-space characters. -/
def Fields (s : String) : List String :=
  fieldsAux s.data []

/-- The `for _, part := range parts` loop of `NewHand`.  `cards` is `hand.Cards` so far and
`seen` holds the keys of the `seen` map. -/
def NewHandLoop : List String → List Card → List String → Except PokerError Hand
  | [], cards, _ => .ok { Cards := cards }
  | part :: rest, cards, seen =>
    match NewCard part with
    | .error err => .error err
    | .ok card =>
      let key := card.String
      if seen.contains key then .error (.duplicateCard key)
      else NewHandLoop rest (cards ++ [card]) (key :: seen)

/-- Function `NewHand`: builds a hand from a space-separated string of cards. -/
def NewHand (s : String) : Except PokerError Hand :=
  let parts := Fields s
  if parts.length < 5 ∨ parts.length > 7 then .error (.handSize parts.length)
  else NewHandLoop parts [] []

/-- Library function `sort.Slice(x, less)` on a slice of integer-valued elements, with the
relation `r a b` standing for `¬ less(b, a)`.  The comparators used by the source are strict
total orders on the integer values, so the sorted slice is the same for every sorting
algorithm; insertion sort is used here. -/
def sortSlice {α : Type} (r : α → α → Prop) [DecidableRel r] (l : List α) : List α :=
  l.insertionSort r

/-- The ranks of the cards of a hand, in card order (the `ranks[i] = card.Rank` loops). -/
def Hand.ranks (h : Hand) : List Rank :=
  h.Cards.map Card.Rank

/-- The ranks sorted descending: `sort.Slice(ranks, ranks[i] > ranks[j])`. -/
def sortDescending (l : List Rank) : List Rank :=
  sortSlice (fun a b => b.toNat ≤ a.toNat) l

/-- The ranks sorted ascending: `sort.Slice(ranks, ranks[i] < ranks[j])`. -/
def sortAscending (l : List Rank) : List Rank :=
  sortSlice (fun a b => a.toNat ≤ b.toNat) l

/-- Method `isFlush`; `none` is the panic of `h.Cards[0]` on an empty hand. -/
def isFlush (h : Hand) : Option Bool :=
  match h.Cards with
  | [] => none
  | c0 :: rest => some (rest.all fun card => decide (card.Suit = c0.Suit))

/-- The loop `for i := 0; i < len(ranks)-1; i++` of `isStraight`, computing `isStandard`. -/
def isStandardLoop : List Rank → Bool
  | a :: b :: rest => if b.toNat ≠ a.toNat + 1 then false else isStandardLoop (b :: rest)
  | _ => true

/-- Method `isStraight`; `none` is an index panic (`ranks[len(ranks)-1]` on an empty hand,
`ranks[4]` on a hand of fewer than five cards). -/
def isStraight (h : Hand) : Option (Bool × Rank) :=
  let ranks := sortAscending h.ranks
  if isStandardLoop ranks then
    match ranks.getLast? with
    | none => none
    | some high => some (true, high)
  else
    match ranks[4]? with
    | none => none
    | some r4 =>
      if r4 = Ace ∧ ranks[0]? = some Two ∧ ranks[1]? = some Three ∧ ranks[2]? = some Four
          ∧ ranks[3]? = some Five then
        some (true, Five)
      else some (false, Two)

/-- Method `getRankCounts`: the map built by `counts[card.Rank]++`. -/
def getRankCounts (h : Hand) : Rank → Option Nat :=
  h.Cards.foldl
    (fun counts card r => if r = card.Rank then some ((counts r).getD 0 + 1) else counts r)
    (fun _ => none)

/-- The ranks from `Ace` down to `Two`: the values of `for r := Ace; r >= Two; r--`. -/
def ranksHighToLow : List Rank :=
  [Ace, King, Queen, Jack, Ten, Nine, Eight, Seven, Six, Five, Four, Three, Two]

/-- Function `contains`. -/
def contains (slice : List Rank) (r : Rank) : Bool :=
  slice.any fun v => decide (v = r)

/-- Method `getKickers` (its receiver is not used): the ranks matching the target counts,
followed by the remaining ranks. -/
def getKickers (rankCounts : Rank → Option Nat) (targetCounts : List Nat) : List Rank :=
  let result := targetCounts.foldl
    (fun result target =>
      ranksHighToLow.foldl
        (fun result r =>
          match rankCounts r with
          | some count => if count = target then result ++ [r] else result
          | none => result)
        result)
    []
  ranksHighToLow.foldl
    (fun result r =>
      match rankCounts r with
      | some count =>
        if count > 0 then
          if !contains result r then result ++ List.replicate count r else result
        else result
      | none => result)
    result

/-- The slice `counts` of `evaluateFive`: the values of the map, sorted descending.  The map
is ranged over in an unspecified order in Go; the slice is sorted right after, so the order
of the traversal does not show in it. -/
def sortedCounts (rankCounts : Rank → Option Nat) : List Nat :=
  sortSlice (fun a b => b ≤ a) (ranksHighToLow.filterMap rankCounts)

/-- Method `evaluateFive`: evaluates a standard 5-card hand. -/
def evaluateFive (h : Hand) : Option (HandVal × List Rank) := do
  let ranks := sortDescending h.ranks
  let flush ← isFlush h
  let (straight, straightHighCard) ← isStraight h
  if flush && straight then
    if straightHighCard = Ace then some (RoyalFlush, [Ace])
    else some (StraightFlush, [straightHighCard])
  else
    let rankCounts := getRankCounts h
    let counts := sortedCounts rankCounts
    let c0 ← counts[0]?
    if c0 = 4 then some (FourOfAKind, getKickers rankCounts [4])
    else if c0 = 3 ∧ counts.length > 1 ∧ counts[1]? = some 2 then
      some (FullHouse, getKickers rankCounts [3, 2])
    else if flush then some (Flush, ranks)
    else if straight then some (Straight, [straightHighCard])
    else if c0 = 3 then some (ThreeOfAKind, getKickers rankCounts [3])
    else if c0 = 2 ∧ counts.length > 1 ∧ counts[1]? = some 2 then
      some (TwoPair, getKickers rankCounts [2, 2])
    else if c0 = 2 then some (OnePair, getKickers rankCounts [2])
    else some (HighCard, ranks)

/-- The scan of `compareKickers` over the common length: the decision at the first index
where the two slices differ, if any. -/
def firstDifference : List (Rank × Rank) → Option Int
  | [] => none
  | (a, b) :: rest =>
    if a.toNat > b.toNat then some 1
    else if a.toNat < b.toNat then some (-1)
    else firstDifference rest

/-- Function `compareKickers`. -/
def compareKickers (k1 k2 : List Rank) : Int :=
  match firstDifference (k1.zip k2) with
  | some res => res
  | none =>
    if k1.length > k2.length then 1
    else if k1.length < k2.length then -1
    else 0

/-- The running best of `findBestFive` after one more candidate `(val, kickers)`. -/
def updateBest (best : HandVal × List Rank) (cand : HandVal × List Rank) :
    HandVal × List Rank :=
  if cand.1.toNat > best.1.toNat then cand
  else if cand.1 = best.1 then
    if compareKickers cand.2 best.2 > 0 then (best.1, cand.2) else best
  else best

/-- The scan `i := k - 1; for i >= 0 && indices[i] == n-k+i { i-- }`.  The argument is
`i + 1`; the result `none` stands for `i < 0`.  The slice `indices` keeps its `k` elements
throughout, so the read of `indices[i]` with `i < k` is in range. -/
def rightmostIncrementable (n k : Nat) (indices : List Nat) : Nat → Option Nat
  | 0 => none
  | i + 1 =>
    if indices.getD i 0 = n - k + i then rightmostIncrementable n k indices i else some i

/-- The loop `for j := i + 1; j < k; j++ { indices[j] = indices[j-1] + 1 }`, with `count`
the number of iterations left. -/
def resetFollowing (indices : List Nat) (j : Nat) : Nat → List Nat
  | 0 => indices
  | count + 1 => resetFollowing (indices.set j (indices.getD (j - 1) 0 + 1)) (j + 1) count

/-- The "generate next combination" step of `findBestFive`; `none` is the `break`. -/
def nextCombination (n k : Nat) (indices : List Nat) : Option (List Nat) :=
  match rightmostIncrementable n k indices k with
  | none => none
  | some i => some (resetFollowing (indices.set i (indices.getD i 0 + 1)) (i + 1) (k - (i + 1)))

/-- The loop `for i, idx := range indices { subHand.Cards[i] = h.Cards[idx] }` that builds
the 5-card sub-hand; `none` is the panic of `h.Cards[idx]` on an index out of range. -/
def subHandCards (cards : List Card) : List Nat → Option (List Card)
  | [] => some []
  | idx :: rest =>
    match cards[idx]? with
    | none => none
    | some card =>
      match subHandCards cards rest with
      | none => none
      | some others => some (card :: others)

/-- The `for` loop of `findBestFive`, run for at most `fuel` iterations.  `none` is an index
panic (`h.Cards[idx]`), a panic of `evaluateFive`, or the exhaustion of the fuel. -/
def findBestFiveLoop (h : Hand) :
    Nat → List Nat → HandVal × List Rank → Option (HandVal × List Rank)
  | 0, _, _ => none
  | fuel + 1, indices, best => do
    let subHand ← subHandCards h.Cards indices
    let cand ← evaluateFive { Cards := subHand }
    let best := updateBest best cand
    match nextCombination 7 5 indices with
    | none => some best
    | some indices => findBestFiveLoop h fuel indices best

/-- Method `findBestFive`: the best 5-card combination out of 7 cards.  The loop visits the
21 combinations of 5 indices among 7, so 21 iterations are enough. -/
def findBestFive (h : Hand) : Option (HandVal × List Rank) :=
  findBestFiveLoop h 21 [0, 1, 2, 3, 4] (HighCard, [])

/-- Method `Evaluate`: the value of the hand and its kickers. -/
def Evaluate (h : Hand) : Option (HandVal × List Rank) :=
  if h.Cards.length = 5 then evaluateFive h
  else if h.Cards.length = 7 then findBestFive h
  else some (HighCard, [])

/-- Method `Compare`: `1` if `h` beats `other`, `-1` if it loses, `0` on a tie. -/
def Compare (h other : Hand) : Option Int := do
  let (val1, kickers1) ← Evaluate h
  let (val2, kickers2) ← Evaluate other
  if val1.toNat > val2.toNat then some 1
  else if val1.toNat < val2.toNat then some (-1)
  else some (compareKickers kickers1 kickers2)

/-! ## Notions of the specification

The notions below are not translated from the source: they state, in the words of the
specification, what the claims are about. -/

/-- Descending order on ranks, the order `sortDescending` sorts by. -/
abbrev rankGe : Rank → Rank → Prop := fun a b => b.toNat ≤ a.toNat

/-- Ascending order on ranks, the order `sortAscending` sorts by. -/
abbrev rankLe : Rank → Rank → Prop := fun a b => a.toNat ≤ b.toNat

/-- Strictly descending order on ranks. -/
abbrev rankGt : Rank → Rank → Prop := fun a b => b.toNat < a.toNat

/-- Descending order on counts, the order `sortedCounts` sorts by. -/
abbrev natGe : Nat → Nat → Prop := fun a b => b ≤ a

/-- All the cards of the hand share one suit. -/
def SameSuit (h : Hand) : Prop :=
  ∀ c ∈ h.Cards, ∀ c' ∈ h.Cards, c.Suit = c'.Suit

instance (h : Hand) : Decidable (SameSuit h) := by
  unfold SameSuit
  infer_instance

/-- The ranks `l` form a straight whose high rank is `high`, in the words of the
specification: sorted ascending each rank is one more than its predecessor, the high rank
being the maximum; or the ranks are Two, Three, Four, Five and Ace (the wheel), the high
rank being Five. -/
def IsStraightWithHigh (l : List Rank) (high : Rank) : Prop :=
  (∃ a b c d e : Rank, l.Perm [a, b, c, d, e] ∧ b.toNat = a.toNat + 1
      ∧ c.toNat = b.toNat + 1 ∧ d.toNat = c.toNat + 1 ∧ e.toNat = d.toNat + 1 ∧ high = e)
    ∨ (l.Perm [Two, Three, Four, Five, Ace] ∧ high = Five)

/-- The numbers of cards per rank of a hand, from the largest to the smallest: the
"descending multiset of rank counts" of the classification table. -/
def rankCountsDescending (l : List Rank) : List Nat :=
  (l.dedup.map fun r => l.count r).insertionSort natGe

/-- The candidate `c` is not better than `r`: lower category, or same category and kickers
that do not compare greater. -/
def notBetter (c r : HandVal × List Rank) : Prop :=
  c.1.toNat < r.1.toNat ∨ (c.1 = r.1 ∧ compareKickers c.2 r.2 ≤ 0)

/-- The outcome `r` of the comparison of two kicker sequences in the words of the
specification: the first index of the common length at which the sequences differ decides,
the higher rank giving `1`; when they agree on the common length the longer sequence wins,
and sequences of equal lengths tie. -/
def KickerOutcome (k1 k2 : List Rank) (r : Int) : Prop :=
  (∃ (i : Nat) (x y : Rank), k1[i]? = some x ∧ k2[i]? = some y ∧ (∀ j, j < i → k1[j]? = k2[j]?) ∧ x ≠ y
      ∧ r = if y.toNat < x.toNat then 1 else -1)
    ∨ ((∀ j, j < k1.length → j < k2.length → k1[j]? = k2[j]?)
      ∧ r = if k2.length < k1.length then 1 else if k1.length < k2.length then -1 else 0)

/-- The order of the ranks in a tie-break tuple: the rank of the larger group first, and the
higher rank first among groups of one size. -/
def groupBefore (l : List Rank) (x y : Rank) : Prop :=
  l.count y < l.count x ∨ (l.count y = l.count x ∧ y.toNat ≤ x.toNat)

instance (l : List Rank) : DecidableRel (groupBefore l) := fun x y => by
  unfold groupBefore
  infer_instance

/-- The tie-break tuple of a hand in the words of the claim: each rank of the hand once,
first the ranks of the groups (larger group first, higher rank first between two pairs), then
the leftover ranks from high to low. -/
def tieBreakTuple (l : List Rank) : List Rank :=
  l.dedup.insertionSort (groupBefore l)

/-- The sign of the lexicographic comparison of two tuples of ranks. -/
def lexSign : List Rank → List Rank → Int
  | [], [] => 0
  | [], _ :: _ => -1
  | _ :: _, [] => 1
  | a :: as, b :: bs =>
    if b.toNat < a.toNat then 1 else if a.toNat < b.toNat then -1 else lexSign as bs

/-! ## Auxiliary definitions of the proofs -/

/-- The map that `getRankCounts` builds, read off the list of ranks: a rank is a key of the
map when it occurs, and is then bound to its number of occurrences. -/
def countMap (l : List Rank) : Rank → Option Nat :=
  fun r => if l.count r = 0 then none else some (l.count r)

/-- The test of the second loop of `getKickers`: the rank is a key of the map with a positive
count and is not among the ranks `res` found by the first loop. -/
def keepsRank (rc : Rank → Option Nat) (res : List Rank) (r : Rank) : Bool :=
  match rc r with
  | some count => decide (count > 0) && !contains res r
  | none => false

/-- The shape of the ranks of a five-card hand: which ranks occur and how many times. -/
inductive Shape where
  | five (x : Rank)
  | quads (q k : Rank)
  | fullHouse (t p : Rank)
  | trips (t x y : Rank)
  | twoPair (p q k : Rank)
  | pair (p x y z : Rank)
  | noPair (a b c d e : Rank)

/-- The ranks of a shape, groups first. -/
def Shape.ranks : Shape → List Rank
  | .five x => [x, x, x, x, x]
  | .quads q k => [q, q, q, q, k]
  | .fullHouse t p => [t, t, t, p, p]
  | .trips t x y => [t, t, t, x, y]
  | .twoPair p q k => [p, p, q, q, k]
  | .pair p x y z => [p, p, x, y, z]
  | .noPair a b c d e => [a, b, c, d, e]

/-- The side conditions of a shape: its ranks are different, and ranks that play the same
role are listed from high to low. -/
def Shape.WF : Shape → Prop
  | .five _ => True
  | .quads q k => q ≠ k
  | .fullHouse t p => t ≠ p
  | .trips t x y => t ≠ x ∧ t ≠ y ∧ rankGt x y
  | .twoPair p q k => rankGt p q ∧ k ≠ p ∧ k ≠ q
  | .pair p x y z => p ≠ x ∧ p ≠ y ∧ p ≠ z ∧ rankGt x y ∧ rankGt y z
  | .noPair a b c d e => rankGt a b ∧ rankGt b c ∧ rankGt c d ∧ rankGt d e

/-- The rank counts of a shape, from the largest to the smallest. -/
def Shape.counts : Shape → List Nat
  | .five _ => [5]
  | .quads _ _ => [4, 1]
  | .fullHouse _ _ => [3, 2]
  | .trips _ _ _ => [3, 1, 1]
  | .twoPair _ _ _ => [2, 2, 1]
  | .pair _ _ _ _ => [2, 1, 1, 1]
  | .noPair _ _ _ _ _ => [1, 1, 1, 1, 1]

/-- The tie-break tuple of a shape. -/
def Shape.tuple : Shape → List Rank
  | .five x => [x]
  | .quads q k => [q, k]
  | .fullHouse t p => [t, p]
  | .trips t x y => [t, x, y]
  | .twoPair p q k => [p, q, k]
  | .pair p x y z => [p, x, y, z]
  | .noPair a b c d e => [a, b, c, d, e]

/-- The result of `isStraight` on five cards whose ranks are `a ≥ b ≥ c ≥ d ≥ e`. -/
def straightOfSorted (a b c d e : Rank) : Bool × Rank :=
  if d.toNat = e.toNat + 1 ∧ c.toNat = d.toNat + 1 ∧ b.toNat = c.toNat + 1
      ∧ a.toNat = b.toNat + 1 then (true, a)
  else if a = Ace ∧ e = Two ∧ d = Three ∧ c = Four ∧ b = Five then (true, Five)
  else (false, Two)

/-- The result of `evaluateFive` on a hand of a given shape, from the flush flag and the
result of `isStraight`. -/
def shapeResult (s : Shape) (flush straight : Bool) (high : Rank) : HandVal × List Rank :=
  if flush && straight then
    if high = Ace then (RoyalFlush, [Ace]) else (StraightFlush, [high])
  else
    match s with
    | .quads q k => (FourOfAKind, [q, k])
    | .fullHouse t p => (FullHouse, [t, p])
    | .trips t x y =>
      if flush then (Flush, sortDescending s.ranks)
      else if straight then (Straight, [high])
      else (ThreeOfAKind, [t, x, y])
    | .twoPair p q k =>
      if flush then (Flush, sortDescending s.ranks)
      else if straight then (Straight, [high])
      else (TwoPair, [p, q, p, q, k])
    | .pair p x y z =>
      if flush then (Flush, sortDescending s.ranks)
      else if straight then (Straight, [high])
      else (OnePair, [p, x, y, z])
    | .five _ =>
      if flush then (Flush, sortDescending s.ranks)
      else if straight then (Straight, [high])
      else (HighCard, sortDescending s.ranks)
    | .noPair _ _ _ _ _ =>
      if flush then (Flush, sortDescending s.ranks)
      else if straight then (Straight, [high])
      else (HighCard, sortDescending s.ranks)

/-- The result of `evaluateFive` on five different cards, shape by shape. -/
def distinctResult (h : Hand) : Shape → Prop
  | .five _ => False
  | .quads q k => evaluateFive h = some (FourOfAKind, [q, k])
  | .fullHouse t p => evaluateFive h = some (FullHouse, [t, p])
  | .trips t x y => evaluateFive h = some (ThreeOfAKind, [t, x, y])
  | .twoPair p q k => evaluateFive h = some (TwoPair, [p, q, p, q, k])
  | .pair p x y z => evaluateFive h = some (OnePair, [p, x, y, z])
  | .noPair a b c d e =>
    sortDescending h.ranks = [a, b, c, d, e]
      ∧ isStraight h = some (straightOfSorted a b c d e)
      ∧ evaluateFive h = some
        (if decide (SameSuit h) && (straightOfSorted a b c d e).1 then
          if (straightOfSorted a b c d e).2 = Ace then (RoyalFlush, [Ace])
          else (StraightFlush, [(straightOfSorted a b c d e).2])
        else if SameSuit h then (Flush, [a, b, c, d, e])
        else if (straightOfSorted a b c d e).1 then
          (Straight, [(straightOfSorted a b c d e).2])
        else (HighCard, [a, b, c, d, e]))

/-- The index combinations that the loop of `findBestFive` visits from `indices` on, when it
leaves the loop within `fuel` iterations. -/
def combinationsFrom : Nat → List Nat → Option (List (List Nat))
  | 0, _ => none
  | fuel + 1, indices =>
    match nextCombination 7 5 indices with
    | none => some [indices]
    | some next => (combinationsFrom fuel next).map (indices :: ·)

/-- The 21 combinations of 5 indices among 7, in the order of the loop. -/
def allCombinations : List (List Nat) :=
  [[0, 1, 2, 3, 4], [0, 1, 2, 3, 5], [0, 1, 2, 3, 6], [0, 1, 2, 4, 5], [0, 1, 2, 4, 6],
    [0, 1, 2, 5, 6], [0, 1, 3, 4, 5], [0, 1, 3, 4, 6], [0, 1, 3, 5, 6], [0, 1, 4, 5, 6],
    [0, 2, 3, 4, 5], [0, 2, 3, 4, 6], [0, 2, 3, 5, 6], [0, 2, 4, 5, 6], [0, 3, 4, 5, 6],
    [1, 2, 3, 4, 5], [1, 2, 3, 4, 6], [1, 2, 3, 5, 6], [1, 2, 4, 5, 6], [1, 3, 4, 5, 6],
    [2, 3, 4, 5, 6]]

/-- The candidate of one iteration: the evaluation of the sub-hand at the given indices. -/
def candidateAt (h : Hand) (indices : List Nat) : Option (HandVal × List Rank) :=
  match subHandCards h.Cards indices with
  | none => none
  | some subHand => evaluateFive { Cards := subHand }

/-! ## Hands of the tests and of the claims -/

/-- The hand "HK SK H8 S8 H2": K K 8 8 2. -/
def exTwoPair : Hand :=
  { Cards := [⟨Hearts, King⟩, ⟨Spades, King⟩, ⟨Hearts, Eight⟩, ⟨Spades, Eight⟩, ⟨Hearts, Two⟩] }

/-- The hand "H4 S5 HA D3 H2" of the tests: the wheel. -/
def exWheel : Hand :=
  { Cards := [⟨Hearts, Four⟩, ⟨Spades, Five⟩, ⟨Hearts, Ace⟩, ⟨Diamonds, Three⟩, ⟨Hearts, Two⟩] }

/-- The hand "CT CJ CQ CK CA" of the tests. -/
def exRoyalFlush : Hand :=
  { Cards := [⟨Clubs, Ten⟩, ⟨Clubs, Jack⟩, ⟨Clubs, Queen⟩, ⟨Clubs, King⟩, ⟨Clubs, Ace⟩] }

/-- The hand "D8 DQ DJ DT D9" of the tests. -/
def exStraightFlush : Hand :=
  { Cards := [⟨Diamonds, Eight⟩, ⟨Diamonds, Queen⟩, ⟨Diamonds, Jack⟩, ⟨Diamonds, Ten⟩,
      ⟨Diamonds, Nine⟩] }

/-- The hand "H2 H5 H7 H9 HK S3 C4" of the tests: seven cards with a flush. -/
def exSevenFlush : Hand :=
  { Cards := [⟨Hearts, Two⟩, ⟨Hearts, Five⟩, ⟨Hearts, Seven⟩, ⟨Hearts, Nine⟩, ⟨Hearts, King⟩,
      ⟨Spades, Three⟩, ⟨Clubs, Four⟩] }

/-- The hand "H2 S2 C2 D2 HK S3 C4" of the tests: seven cards with four Twos. -/
def exSevenQuads : Hand :=
  { Cards := [⟨Hearts, Two⟩, ⟨Spades, Two⟩, ⟨Clubs, Two⟩, ⟨Diamonds, Two⟩, ⟨Hearts, King⟩,
      ⟨Spades, Three⟩, ⟨Clubs, Four⟩] }

/-- The six cards of "H2 SQ C2 D2 CQ HK". -/
def exSixCards : Hand :=
  { Cards := [⟨Hearts, Two⟩, ⟨Spades, Queen⟩, ⟨Clubs, Two⟩, ⟨Diamonds, Two⟩, ⟨Clubs, Queen⟩,
      ⟨Hearts, King⟩] }

/-- The hand "HK SK CK H5 S5": K K K 5 5. -/
def exFullHouse : Hand :=
  { Cards := [⟨Hearts, King⟩, ⟨Spades, King⟩, ⟨Clubs, King⟩, ⟨Hearts, Five⟩, ⟨Spades, Five⟩] }

/-- The hand "HK SK HA D9 C4": K K A 9 4. -/
def exOnePair : Hand :=
  { Cards := [⟨Hearts, King⟩, ⟨Spades, King⟩, ⟨Hearts, Ace⟩, ⟨Diamonds, Nine⟩, ⟨Clubs, Four⟩] }

/-- The hand "H2 SQ C2 D2 CQ" of the tests. -/
def exTwosFullOfQueens : Hand :=
  { Cards := [⟨Hearts, Two⟩, ⟨Spades, Queen⟩, ⟨Clubs, Two⟩, ⟨Diamonds, Two⟩, ⟨Clubs, Queen⟩] }

/-- The hand "H8 SQ S8 D8 C8" of the tests. -/
def exQuadEights : Hand :=
  { Cards := [⟨Hearts, Eight⟩, ⟨Spades, Queen⟩, ⟨Spades, Eight⟩, ⟨Diamonds, Eight⟩,
      ⟨Clubs, Eight⟩] }

/-- The hand "H7 SK S7 D7 C7" of the tests. -/
def exQuadSevens : Hand :=
  { Cards := [⟨Hearts, Seven⟩, ⟨Spades, King⟩, ⟨Spades, Seven⟩, ⟨Diamonds, Seven⟩,
      ⟨Clubs, Seven⟩] }

/-- The hand "H2 S7 S2 D2 C9" of the tests. -/
def exTripsSeven : Hand :=
  { Cards := [⟨Hearts, Two⟩, ⟨Spades, Seven⟩, ⟨Spades, Two⟩, ⟨Diamonds, Two⟩, ⟨Clubs, Nine⟩] }

/-- The hand "H2 S8 S2 D2 C9" of the tests. -/
def exTripsEight : Hand :=
  { Cards := [⟨Hearts, Two⟩, ⟨Spades, Eight⟩, ⟨Spades, Two⟩, ⟨Diamonds, Two⟩, ⟨Clubs, Nine⟩] }

/-- The hand "H5 SQ C5 DT CT" of the tests. -/
def exTensAndFives : Hand :=
  { Cards := [⟨Hearts, Five⟩, ⟨Spades, Queen⟩, ⟨Clubs, Five⟩, ⟨Diamonds, Ten⟩, ⟨Clubs, Ten⟩] }

/-- The hand "H9 SQ C9 DT CT" of the tests. -/
def exTensAndNines : Hand :=
  { Cards := [⟨Hearts, Nine⟩, ⟨Spades, Queen⟩, ⟨Clubs, Nine⟩, ⟨Diamonds, Ten⟩, ⟨Clubs, Ten⟩] }

/-! ## Further notions of the specification -/

/-- The recognized symbol of a suit: `H`, `D`, `C` or `S`. -/
def Suit.symbol : Suit → Char
  | Hearts => 'H'
  | Diamonds => 'D'
  | Clubs => 'C'
  | Spades => 'S'

/-- The recognized symbol of a rank: `2` to `9`, `T`, `J`, `Q`, `K` or `A`. -/
def Rank.symbol : Rank → Char
  | Two => '2'
  | Three => '3'
  | Four => '4'
  | Five => '5'
  | Six => '6'
  | Seven => '7'
  | Eight => '8'
  | Nine => '9'
  | Ten => 'T'
  | Jack => 'J'
  | Queen => 'Q'
  | King => 'K'
  | Ace => 'A'

/-- The 52 cards: every suit with every rank. -/
def deck : List Card :=
  [Hearts, Diamonds, Clubs, Spades].flatMap fun suit =>
    ranksHighToLow.map fun rank => { Suit := suit, Rank := rank }

/-- The length of the kicker sequence of each category, as the classification table of the
specification gives it. -/
def kickerLength : HandVal → Nat
  | .HighCard => 5
  | .OnePair => 4
  | .TwoPair => 5
  | .ThreeOfAKind => 3
  | .Straight => 1
  | .Flush => 5
  | .FullHouse => 2
  | .FourOfAKind => 2
  | .StraightFlush => 1
  | .RoyalFlush => 1

/-! ## Further hands of the tests and of the claims -/

/-- The hand "HK HQ H2 H4 H5" of the tests: a flush. -/
def exFlush : Hand :=
  { Cards := [⟨Hearts, King⟩, ⟨Hearts, Queen⟩, ⟨Hearts, Two⟩, ⟨Hearts, Four⟩, ⟨Hearts, Five⟩] }

/-- The hand "H3 S8 H5 DK CA" of the tests: a high card. -/
def exHighCard : Hand :=
  { Cards := [⟨Hearts, Three⟩, ⟨Spades, Eight⟩, ⟨Hearts, Five⟩, ⟨Diamonds, King⟩, ⟨Clubs, Ace⟩] }

/-- The seven cards of "H2 H5 H7 H9 HK S3 C4" in another order: "C4 HK S3 H9 H2 H7 H5". -/
def exSevenFlushShuffled : Hand :=
  { Cards := [⟨Clubs, Four⟩, ⟨Hearts, King⟩, ⟨Spades, Three⟩, ⟨Hearts, Nine⟩, ⟨Hearts, Two⟩,
      ⟨Hearts, Seven⟩, ⟨Hearts, Five⟩] }

/-- The hand "HQ SK HA D2 H3": Queen, King, Ace, Two, Three, a wrap-around that is no
straight. -/
def exQueenToThree : Hand :=
  { Cards := [⟨Hearts, Queen⟩, ⟨Spades, King⟩, ⟨Hearts, Ace⟩, ⟨Diamonds, Two⟩, ⟨Hearts, Three⟩] }

/-! ## The order on ranks and the sorting steps -/

theorem rank_toNat_injective : Function.Injective Rank.toNat := by
  intro a b h
  cases a <;> cases b <;> first | rfl | (simp [Rank.toNat] at h)

theorem rank_toNat_inj {a b : Rank} : a.toNat = b.toNat ↔ a = b :=
  rank_toNat_injective.eq_iff

theorem rank_toNat_le (r : Rank) : r.toNat ≤ 12 := by
  cases r <;> simp [Rank.toNat]

theorem rank_ne_of_toNat_lt {a b : Rank} (h : a.toNat < b.toNat) : a ≠ b := by
  intro hab
  subst hab
  omega

theorem handVal_toNat_injective : Function.Injective HandVal.toNat := by
  intro a b h
  cases a <;> cases b <;> first | rfl | (simp [HandVal.toNat] at h)

instance rankGe_total : IsTotal Rank rankGe := ⟨fun a b => Nat.le_total b.toNat a.toNat⟩

instance rankGe_trans : IsTrans Rank rankGe := ⟨fun _ _ _ hab hbc => Nat.le_trans hbc hab⟩

instance rankGe_antisymm : IsAntisymm Rank rankGe :=
  ⟨fun _ _ hab hba => rank_toNat_injective (Nat.le_antisymm hba hab)⟩

instance rankLe_total : IsTotal Rank rankLe := ⟨fun a b => Nat.le_total a.toNat b.toNat⟩

instance rankLe_trans : IsTrans Rank rankLe := ⟨fun _ _ _ hab hbc => Nat.le_trans hab hbc⟩

instance rankLe_antisymm : IsAntisymm Rank rankLe :=
  ⟨fun _ _ hab hba => rank_toNat_injective (Nat.le_antisymm hab hba)⟩

instance rankGt_antisymm : IsAntisymm Rank rankGt :=
  ⟨fun _ _ hab hba => absurd hab (Nat.lt_asymm hba)⟩

instance rankGt_irrefl : IsIrrefl Rank rankGt := ⟨fun _ h => Nat.lt_irrefl _ h⟩

instance natGe_total : IsTotal Nat natGe := ⟨fun a b => Nat.le_total b a⟩

instance natGe_trans : IsTrans Nat natGe := ⟨fun _ _ _ hab hbc => Nat.le_trans hbc hab⟩

instance natGe_antisymm : IsAntisymm Nat natGe := ⟨fun _ _ hab hba => Nat.le_antisymm hba hab⟩

theorem sortDescending_perm (l : List Rank) : (sortDescending l).Perm l :=
  List.perm_insertionSort rankGe l

theorem sortDescending_sorted (l : List Rank) : (sortDescending l).Sorted rankGe :=
  List.sorted_insertionSort rankGe l

theorem sortDescending_eq {l s : List Rank} (hp : l.Perm s) (hs : s.Sorted rankGe) :
    sortDescending l = s :=
  List.eq_of_perm_of_sorted ((sortDescending_perm l).trans hp) (sortDescending_sorted l) hs

theorem sortAscending_perm (l : List Rank) : (sortAscending l).Perm l :=
  List.perm_insertionSort rankLe l

theorem sortAscending_sorted (l : List Rank) : (sortAscending l).Sorted rankLe :=
  List.sorted_insertionSort rankLe l

theorem sortAscending_eq {l s : List Rank} (hp : l.Perm s) (hs : s.Sorted rankLe) :
    sortAscending l = s :=
  List.eq_of_perm_of_sorted ((sortAscending_perm l).trans hp) (sortAscending_sorted l) hs

theorem sortAscending_eq_reverse (l : List Rank) :
    sortAscending l = (sortDescending l).reverse := by
  apply sortAscending_eq
  · exact ((List.reverse_perm _).trans (sortDescending_perm l)).symm
  · exact List.pairwise_reverse.mpr (sortDescending_sorted l)

theorem sortedCounts_eq {f : Rank → Option Nat} {s : List Nat}
    (hp : (ranksHighToLow.filterMap f).Perm s) (hs : s.Sorted natGe) : sortedCounts f = s :=
  List.eq_of_perm_of_sorted ((List.perm_insertionSort natGe _).trans hp)
    (List.sorted_insertionSort natGe _) hs

/-! ## Rank counts and kickers in closed form -/

theorem foldl_rankCounts (cards : List Card) (l0 : List Rank) :
    cards.foldl
        (fun counts card r => if r = card.Rank then some ((counts r).getD 0 + 1) else counts r)
        (countMap l0)
      = countMap (l0 ++ cards.map Card.Rank) := by
  induction cards generalizing l0 with
  | nil => simp
  | cons c cs ih =>
    have hstep : (fun r => if r = c.Rank then some (((countMap l0) r).getD 0 + 1)
        else countMap l0 r) = countMap (l0 ++ [c.Rank]) := by
      funext r
      by_cases hr : r = c.Rank
      · subst hr
        by_cases h0 : l0.count c.Rank = 0 <;> simp [countMap, h0]
      · have hr' : ¬ (c.Rank = r) := fun h => hr h.symm
        simp [countMap, hr, hr', List.count_cons]
    simp only [List.foldl_cons, List.map_cons]
    rw [hstep, ih]
    simp

theorem getRankCounts_eq (h : Hand) : getRankCounts h = countMap h.ranks := by
  have h0 : (fun _ : Rank => (none : Option Nat)) = countMap [] := by
    funext r
    simp [countMap]
  unfold getRankCounts
  rw [h0, foldl_rankCounts]
  simp [Hand.ranks]

theorem countMap_perm {l s : List Rank} (hp : l.Perm s) : countMap l = countMap s := by
  funext r
  simp [countMap, hp.count_eq]

theorem mem_ranksHighToLow (r : Rank) : r ∈ ranksHighToLow := by
  cases r <;> simp [ranksHighToLow]

theorem ranksHighToLow_sorted : ranksHighToLow.Pairwise rankGt := by
  simp [ranksHighToLow, rankGt, Rank.toNat]

theorem ranksHighToLow_nodup : ranksHighToLow.Nodup :=
  List.Sorted.nodup ranksHighToLow_sorted

/-- Filtering the ranks from `Ace` down to `Two` gives the strictly descending list of the
ranks that pass the filter. -/
theorem filter_ranksHighToLow {P : Rank → Bool} {T : List Rank} (hT : T.Pairwise rankGt)
    (hmem : ∀ r, r ∈ T ↔ P r = true) : ranksHighToLow.filter P = T := by
  apply List.eq_of_perm_of_sorted (r := rankGt) _ (ranksHighToLow_sorted.filter P) hT
  apply (List.perm_ext_iff_of_nodup (ranksHighToLow_nodup.filter P) (List.Sorted.nodup hT)).2
  intro r
  simp [List.mem_filter, mem_ranksHighToLow, hmem]

theorem foldl_target (rc : Rank → Option Nat) (t : Nat) (L res : List Rank) :
    L.foldl
        (fun result r =>
          match rc r with
          | some count => if count = t then result ++ [r] else result
          | none => result)
        res
      = res ++ L.filter (fun r => decide (rc r = some t)) := by
  induction L generalizing res with
  | nil => simp
  | cons r L ih =>
    simp only [List.foldl_cons]
    rw [ih]
    cases hrc : rc r with
    | none => simp [List.filter_cons, hrc]
    | some c =>
      by_cases hc : c = t
      · simp [List.filter_cons, hrc, hc]
      · simp [List.filter_cons, hrc, hc]

theorem foldl_append_flatMap {α β : Type} (g : α → List β) (ts : List α) (init : List β) :
    ts.foldl (fun res t => res ++ g t) init = init ++ ts.flatMap g := by
  induction ts generalizing init with
  | nil => simp
  | cons t ts ih => simp [List.foldl_cons, ih, List.flatMap_cons]

theorem contains_eq (l : List Rank) (r : Rank) : contains l r = decide (r ∈ l) := by
  induction l with
  | nil => simp [contains]
  | cons a l ih =>
    simp only [contains, List.any_cons] at ih ⊢
    rw [ih]
    by_cases h : a = r
    · simp [h]
    · have h' : ¬ r = a := fun e => h e.symm
      simp [h, h']

theorem foldl_rest (rc : Rank → Option Nat) (res : List Rank) (L ext : List Rank)
    (hL : L.Nodup) (hext : ∀ x ∈ ext, x ∉ L) :
    L.foldl
        (fun result r =>
          match rc r with
          | some count =>
            if count > 0 then
              if !contains result r then result ++ List.replicate count r else result
            else result
          | none => result)
        (res ++ ext)
      = res ++ ext ++ (L.filter (keepsRank rc res)).flatMap
          (fun r => List.replicate ((rc r).getD 0) r) := by
  induction L generalizing ext with
  | nil => simp
  | cons r L ih =>
    obtain ⟨hrL, hL'⟩ := List.nodup_cons.mp hL
    have hrext : r ∉ ext := fun hmem => hext r hmem (List.mem_cons_self r L)
    have hext' : ∀ x ∈ ext, x ∉ L := fun x hx hxL => hext x hx (List.mem_cons_of_mem r hxL)
    simp only [List.foldl_cons]
    cases hrc : rc r with
    | none =>
      simp only []
      rw [ih ext hL' hext']
      simp [List.filter_cons, keepsRank, hrc]
    | some c =>
      simp only []
      by_cases hc : c > 0
      · by_cases hmem : r ∈ res
        · have hcont : contains (res ++ ext) r = true := by
            simp [contains_eq, hmem]
          simp only [hc, hcont, if_true, Bool.not_true, Bool.false_eq_true, if_false]
          rw [ih ext hL' hext']
          simp [List.filter_cons, keepsRank, hrc, contains_eq, hmem]
        · have hcont : contains (res ++ ext) r = false := by
            simp [contains_eq, hmem, hrext]
          simp only [hc, hcont, if_true, Bool.not_false]
          rw [List.append_assoc, ih (ext ++ List.replicate c r) hL']
          · simp [List.filter_cons, keepsRank, hrc, contains_eq, hmem, hc, List.flatMap_cons]
          · intro x hx
            rcases List.mem_append.mp hx with hx | hx
            · exact hext' x hx
            · rw [(List.mem_replicate.mp hx).2]
              exact hrL
      · simp only [hc, if_false]
        rw [ih ext hL' hext']
        simp [List.filter_cons, keepsRank, hrc, hc]

/-- Method `getKickers` in closed form: first the ranks bound to each target count, from high
to low for each target in turn; then every other rank of the map, from high to low, as many
times as it occurs. -/
theorem getKickers_eq (rc : Rank → Option Nat) (targets : List Nat) :
    getKickers rc targets =
      targets.flatMap (fun t => ranksHighToLow.filter (fun r => decide (rc r = some t)))
        ++ (ranksHighToLow.filter
              (keepsRank rc (targets.flatMap
                (fun t => ranksHighToLow.filter (fun r => decide (rc r = some t)))))).flatMap
            (fun r => List.replicate ((rc r).getD 0) r) := by
  unfold getKickers
  simp only [foldl_target]
  rw [foldl_append_flatMap]
  have h := foldl_rest rc
    (targets.flatMap (fun t => ranksHighToLow.filter (fun r => decide (rc r = some t))))
    ranksHighToLow [] ranksHighToLow_nodup (by simp)
  simpa using h

theorem countMap_eq_some (l : List Rank) (r : Rank) (t : Nat) (ht : t ≠ 0) :
    decide (countMap l r = some t) = decide (l.count r = t) := by
  by_cases h0 : l.count r = 0
  · have : ¬ (0 = t) := fun e => ht e.symm
    simp [countMap, h0, this]
  · simp [countMap, h0]

theorem keepsRank_countMap (l res : List Rank) (r : Rank) :
    keepsRank (countMap l) res r = decide (0 < l.count r ∧ r ∉ res) := by
  by_cases h0 : l.count r = 0
  · simp [keepsRank, countMap, h0]
  · have hpos : 0 < l.count r := Nat.pos_of_ne_zero h0
    simp [keepsRank, countMap, h0, contains_eq, hpos]

theorem countMap_getD (l : List Rank) (r : Rank) : (countMap l r).getD 0 = l.count r := by
  by_cases h0 : l.count r = 0 <;> simp [countMap, h0]

theorem getKickers_twoPair (p q k : Rank) (hpq : rankGt p q) (hkp : k ≠ p) (hkq : k ≠ q) :
    getKickers (countMap [p, p, q, q, k]) [2, 2] = [p, q, p, q, k] := by
  have hpq' : p ≠ q := (rank_ne_of_toNat_lt hpq).symm
  have h2 : ranksHighToLow.filter (fun r => decide (countMap [p, p, q, q, k] r = some 2))
      = [p, q] := by
    apply filter_ranksHighToLow
    · simpa using hpq
    · intro r
      rw [countMap_eq_some _ _ _ (by decide)]
      by_cases h1 : r = p <;> by_cases h2 : r = q <;> by_cases h3 : r = k <;>
        simp_all [List.count_cons]
  have hrest : ranksHighToLow.filter (keepsRank (countMap [p, p, q, q, k]) [p, q, p, q])
      = [k] := by
    apply filter_ranksHighToLow
    · simp
    · intro r
      rw [keepsRank_countMap]
      by_cases h1 : r = p <;> by_cases h2 : r = q <;> by_cases h3 : r = k <;>
        simp_all [List.count_cons]
  rw [getKickers_eq]
  simp only [List.flatMap_cons, List.flatMap_nil, h2, List.append_nil, List.cons_append,
    List.nil_append, hrest, countMap_getD]
  simp_all [List.count_cons]

/-! ## The shapes of a five-card hand -/

theorem exists_of_length_five {α : Type} (l : List α) (h : l.length = 5) :
    ∃ a b c d e, l = [a, b, c, d, e] := by
  match l, h with
  | [a, b, c, d, e], _ => exact ⟨a, b, c, d, e, rfl⟩

theorem perm_of_count {l s : List Rank} (h : ∀ r, l.count r = s.count r) : l.Perm s :=
  List.perm_iff_count.mpr h

theorem eq_or_gt {a b : Rank} (h : rankGe a b) : a = b ∨ rankGt a b := by
  rcases Nat.eq_or_lt_of_le h with h | h
  · exact Or.inl (rank_toNat_injective h.symm)
  · exact Or.inr h

/-- Every list of five ranks has a shape. -/
theorem shape_exists (l : List Rank) (hl : l.length = 5) :
    ∃ s : Shape, s.WF ∧ l.Perm s.ranks := by
  have hlen : (sortDescending l).length = 5 := by rw [(sortDescending_perm l).length_eq, hl]
  obtain ⟨a, b, c, d, e, hS⟩ := exists_of_length_five _ hlen
  have hsorted := sortDescending_sorted l
  have hperm : l.Perm [a, b, c, d, e] := hS ▸ (sortDescending_perm l).symm
  rw [hS] at hsorted
  simp only [List.Sorted, List.pairwise_cons, List.mem_cons, List.mem_singleton,
    forall_eq_or_imp, forall_eq, List.not_mem_nil, false_implies, implies_true,
    List.Pairwise.nil, and_true] at hsorted
  obtain ⟨⟨hab, -, -, -⟩, ⟨hbc, -, -⟩, ⟨hcd, -⟩, hde⟩ := hsorted
  rcases eq_or_gt hab with rfl | hab <;> rcases eq_or_gt hbc with rfl | hbc <;>
    rcases eq_or_gt hcd with rfl | hcd <;> rcases eq_or_gt hde with rfl | hde
  · exact ⟨.five a, trivial, hperm⟩
  · exact ⟨.quads a e, (rank_ne_of_toNat_lt hde).symm, hperm⟩
  · refine ⟨.fullHouse a d, (rank_ne_of_toNat_lt hcd).symm, hperm⟩
  · exact ⟨.trips a d e, ⟨(rank_ne_of_toNat_lt hcd).symm,
      (rank_ne_of_toNat_lt (Nat.lt_trans hde hcd)).symm, hde⟩, hperm⟩
  · refine ⟨.fullHouse c a, rank_ne_of_toNat_lt hbc, hperm.trans (perm_of_count ?_)⟩
    intro r; simp only [Shape.ranks, List.count_cons, List.count_nil]; omega
  · refine ⟨.twoPair a c e, ⟨hbc, rank_ne_of_toNat_lt (Nat.lt_trans hde hbc),
      rank_ne_of_toNat_lt hde⟩, hperm⟩
  · refine ⟨.twoPair a d c, ⟨Nat.lt_trans hcd hbc, rank_ne_of_toNat_lt hbc,
      (rank_ne_of_toNat_lt hcd).symm⟩, hperm.trans (perm_of_count ?_)⟩
    intro r; simp only [Shape.ranks, List.count_cons, List.count_nil]; omega
  · refine ⟨.pair a c d e, ⟨(rank_ne_of_toNat_lt hbc).symm,
      (rank_ne_of_toNat_lt (Nat.lt_trans hcd hbc)).symm,
      (rank_ne_of_toNat_lt (Nat.lt_trans hde (Nat.lt_trans hcd hbc))).symm, hcd, hde⟩, hperm⟩
  · refine ⟨.quads b a, rank_ne_of_toNat_lt hab, hperm.trans (perm_of_count ?_)⟩
    intro r; simp only [Shape.ranks, List.count_cons, List.count_nil]; omega
  · refine ⟨.trips b a e, ⟨rank_ne_of_toNat_lt hab, (rank_ne_of_toNat_lt hde).symm,
      Nat.lt_trans hde hab⟩, hperm.trans (perm_of_count ?_)⟩
    intro r; simp only [Shape.ranks, List.count_cons, List.count_nil]; omega
  · refine ⟨.twoPair b d a, ⟨hcd, (rank_ne_of_toNat_lt hab).symm,
      (rank_ne_of_toNat_lt (Nat.lt_trans hcd hab)).symm⟩, hperm.trans (perm_of_count ?_)⟩
    intro r; simp only [Shape.ranks, List.count_cons, List.count_nil]; omega
  · refine ⟨.pair b a d e, ⟨rank_ne_of_toNat_lt hab, (rank_ne_of_toNat_lt hcd).symm,
      (rank_ne_of_toNat_lt (Nat.lt_trans hde hcd)).symm, Nat.lt_trans hcd hab, hde⟩,
      hperm.trans (perm_of_count ?_)⟩
    intro r; simp only [Shape.ranks, List.count_cons, List.count_nil]; omega
  · refine ⟨.trips c a b, ⟨rank_ne_of_toNat_lt (Nat.lt_trans hbc hab), rank_ne_of_toNat_lt hbc,
      hab⟩, hperm.trans (perm_of_count ?_)⟩
    intro r; simp only [Shape.ranks, List.count_cons, List.count_nil]; omega
  · refine ⟨.pair c a b e, ⟨rank_ne_of_toNat_lt (Nat.lt_trans hbc hab), rank_ne_of_toNat_lt hbc,
      (rank_ne_of_toNat_lt hde).symm, hab, Nat.lt_trans hde hbc⟩,
      hperm.trans (perm_of_count ?_)⟩
    intro r; simp only [Shape.ranks, List.count_cons, List.count_nil]; omega
  · refine ⟨.pair d a b c, ⟨rank_ne_of_toNat_lt (Nat.lt_trans hcd (Nat.lt_trans hbc hab)),
      rank_ne_of_toNat_lt (Nat.lt_trans hcd hbc), rank_ne_of_toNat_lt hcd, hab, hbc⟩,
      hperm.trans (perm_of_count ?_)⟩
    intro r; simp only [Shape.ranks, List.count_cons, List.count_nil]; omega
  · exact ⟨.noPair a b c d e, ⟨hab, hbc, hcd, hde⟩, hperm⟩

theorem filterMap_countMap (l L : List Rank) :
    L.filterMap (countMap l)
      = (L.filter fun r => decide (0 < l.count r)).map fun r => l.count r := by
  induction L with
  | nil => simp
  | cons r L ih =>
    by_cases h0 : l.count r = 0
    · have hcm : countMap l r = none := by simp [countMap, h0]
      have hdec : decide (0 < l.count r) = false := by simp [h0]
      rw [List.filterMap_cons_none hcm, List.filter_cons, ih]
      simp only [hdec, Bool.false_eq_true, if_false]
    · have hcm : countMap l r = some (l.count r) := by simp [countMap, h0]
      have hdec : decide (0 < l.count r) = true := by simpa using Nat.pos_of_ne_zero h0
      rw [List.filterMap_cons_some hcm, List.filter_cons, ih]
      simp only [hdec, if_true, List.map_cons]

theorem filterMap_countMap_perm (l : List Rank) :
    (ranksHighToLow.filterMap (countMap l)).Perm (l.dedup.map fun r => l.count r) := by
  rw [filterMap_countMap]
  apply List.Perm.map
  apply (List.perm_ext_iff_of_nodup (ranksHighToLow_nodup.filter _) (List.nodup_dedup l)).2
  intro r
  simp [List.mem_filter, mem_ranksHighToLow, List.count_pos_iff]

/-- The slice `counts` of `evaluateFive` holds the rank counts from largest to smallest. -/
theorem sortedCounts_countMap (l : List Rank) :
    sortedCounts (countMap l) = rankCountsDescending l :=
  sortedCounts_eq ((filterMap_countMap_perm l).trans (List.perm_insertionSort natGe _).symm)
    (List.sorted_insertionSort natGe _)

theorem rankCountsDescending_perm {l s : List Rank} (hp : l.Perm s) :
    rankCountsDescending l = rankCountsDescending s := by
  apply List.eq_of_perm_of_sorted (r := natGe) _ (List.sorted_insertionSort natGe _)
    (List.sorted_insertionSort natGe _)
  refine (List.perm_insertionSort natGe _).trans (List.Perm.trans ?_
    (List.perm_insertionSort natGe _).symm)
  have hfun : (fun r => l.count r) = fun r => s.count r := by
    funext r
    exact hp.count_eq r
  rw [hfun]
  exact hp.dedup.map _

theorem rankCountsDescending_shape (s : Shape) (hs : s.WF) :
    rankCountsDescending s.ranks = s.counts := by
  cases s with
  | five x => simp [rankCountsDescending, Shape.ranks, Shape.counts]
  | quads q k =>
    have h : q ≠ k := hs
    have h' : k ≠ q := h.symm
    simp [rankCountsDescending, Shape.ranks, Shape.counts, List.dedup_cons_of_mem,
      List.dedup_cons_of_not_mem, List.count_cons, h, h', natGe]
  | fullHouse t p =>
    have h : t ≠ p := hs
    have h' : p ≠ t := h.symm
    simp [rankCountsDescending, Shape.ranks, Shape.counts, List.dedup_cons_of_mem,
      List.dedup_cons_of_not_mem, List.count_cons, h, h', natGe]
  | trips t x y =>
    obtain ⟨h1, h2, h3⟩ := hs
    have h3' := (rank_ne_of_toNat_lt h3).symm
    simp [rankCountsDescending, Shape.ranks, Shape.counts, List.dedup_cons_of_mem,
      List.dedup_cons_of_not_mem, List.count_cons, h1, h2, h3', h1.symm, h2.symm, h3'.symm, natGe]
  | twoPair p q k =>
    obtain ⟨h1, h2, h3⟩ := hs
    have h1' := (rank_ne_of_toNat_lt h1).symm
    simp [rankCountsDescending, Shape.ranks, Shape.counts, List.dedup_cons_of_mem,
      List.dedup_cons_of_not_mem, List.count_cons, h1', h2, h3, h1'.symm, h2.symm, h3.symm, natGe]
  | pair p x y z =>
    obtain ⟨h1, h2, h3, h4, h5⟩ := hs
    have h4' := (rank_ne_of_toNat_lt h4).symm
    have h5' := (rank_ne_of_toNat_lt h5).symm
    have h6' := (rank_ne_of_toNat_lt (Nat.lt_trans h5 h4)).symm
    simp [rankCountsDescending, Shape.ranks, Shape.counts, List.dedup_cons_of_mem,
      List.dedup_cons_of_not_mem, List.count_cons, h1, h2, h3, h4', h5', h6', h1.symm, h2.symm,
      h3.symm, h4'.symm, h5'.symm, h6'.symm, natGe]
  | noPair a b c d e =>
    obtain ⟨h1, h2, h3, h4⟩ := hs
    have hab := (rank_ne_of_toNat_lt h1).symm
    have hbc := (rank_ne_of_toNat_lt h2).symm
    have hcd := (rank_ne_of_toNat_lt h3).symm
    have hde := (rank_ne_of_toNat_lt h4).symm
    have hac := (rank_ne_of_toNat_lt (Nat.lt_trans h2 h1)).symm
    have hbd := (rank_ne_of_toNat_lt (Nat.lt_trans h3 h2)).symm
    have hce := (rank_ne_of_toNat_lt (Nat.lt_trans h4 h3)).symm
    have had := (rank_ne_of_toNat_lt (Nat.lt_trans h3 (Nat.lt_trans h2 h1))).symm
    have hbe := (rank_ne_of_toNat_lt (Nat.lt_trans h4 (Nat.lt_trans h3 h2))).symm
    have hae := (rank_ne_of_toNat_lt (Nat.lt_trans h4 (Nat.lt_trans h3 (Nat.lt_trans h2 h1)))).symm
    simp [rankCountsDescending, Shape.ranks, Shape.counts, List.dedup_cons_of_mem,
      List.dedup_cons_of_not_mem, List.count_cons, hab, hbc, hcd, hde, hac, hbd, hce, had, hbe,
      hae, hab.symm, hbc.symm, hcd.symm, hde.symm, hac.symm, hbd.symm, hce.symm, had.symm,
      hbe.symm, hae.symm, natGe]

theorem getKickers_quads (q k : Rank) (hqk : q ≠ k) :
    getKickers (countMap [q, q, q, q, k]) [4] = [q, k] := by
  have h4 : ranksHighToLow.filter (fun r => decide (countMap [q, q, q, q, k] r = some 4))
      = [q] := by
    apply filter_ranksHighToLow
    · simp
    · intro r
      rw [countMap_eq_some _ _ _ (by decide)]
      by_cases h1 : r = q <;> by_cases h2 : r = k <;> simp_all [List.count_cons]
  have hrest : ranksHighToLow.filter (keepsRank (countMap [q, q, q, q, k]) [q]) = [k] := by
    apply filter_ranksHighToLow
    · simp
    · intro r
      rw [keepsRank_countMap]
      by_cases h1 : r = q <;> by_cases h2 : r = k <;> simp_all [List.count_cons]
  rw [getKickers_eq]
  simp only [List.flatMap_cons, List.flatMap_nil, h4, List.append_nil, List.cons_append,
    List.nil_append, hrest, countMap_getD]
  simp_all [List.count_cons]

theorem getKickers_fullHouse (t p : Rank) (htp : t ≠ p) :
    getKickers (countMap [t, t, t, p, p]) [3, 2] = [t, p] := by
  have h3 : ranksHighToLow.filter (fun r => decide (countMap [t, t, t, p, p] r = some 3))
      = [t] := by
    apply filter_ranksHighToLow
    · simp
    · intro r
      rw [countMap_eq_some _ _ _ (by decide)]
      by_cases h1 : r = t <;> by_cases h2 : r = p <;> simp_all [List.count_cons]
  have h2 : ranksHighToLow.filter (fun r => decide (countMap [t, t, t, p, p] r = some 2))
      = [p] := by
    apply filter_ranksHighToLow
    · simp
    · intro r
      rw [countMap_eq_some _ _ _ (by decide)]
      by_cases h1 : r = t <;> by_cases h2 : r = p <;> simp_all [List.count_cons]
  have hrest : ranksHighToLow.filter (keepsRank (countMap [t, t, t, p, p]) [t, p]) = [] := by
    apply filter_ranksHighToLow
    · simp
    · intro r
      rw [keepsRank_countMap]
      by_cases h1 : r = t <;> by_cases h2 : r = p <;> simp_all [List.count_cons]
  rw [getKickers_eq]
  simp only [List.flatMap_cons, List.flatMap_nil, h3, h2, List.append_nil, List.cons_append,
    List.nil_append, hrest]

theorem getKickers_trips (t x y : Rank) (htx : t ≠ x) (hty : t ≠ y) (hxy : rankGt x y) :
    getKickers (countMap [t, t, t, x, y]) [3] = [t, x, y] := by
  have hxy' : x ≠ y := (rank_ne_of_toNat_lt hxy).symm
  have h3 : ranksHighToLow.filter (fun r => decide (countMap [t, t, t, x, y] r = some 3))
      = [t] := by
    apply filter_ranksHighToLow
    · simp
    · intro r
      rw [countMap_eq_some _ _ _ (by decide)]
      by_cases h1 : r = t <;> by_cases h2 : r = x <;> by_cases h3 : r = y <;>
        simp_all [List.count_cons]
  have hrest : ranksHighToLow.filter (keepsRank (countMap [t, t, t, x, y]) [t]) = [x, y] := by
    apply filter_ranksHighToLow
    · simpa using hxy
    · intro r
      rw [keepsRank_countMap]
      by_cases h1 : r = t <;> by_cases h2 : r = x <;> by_cases h3 : r = y <;>
        simp_all [List.count_cons]
  rw [getKickers_eq]
  simp only [List.flatMap_cons, List.flatMap_nil, h3, List.append_nil, List.cons_append,
    List.nil_append, hrest, countMap_getD]
  simp_all [List.count_cons]

theorem getKickers_pair (p x y z : Rank) (hpx : p ≠ x) (hpy : p ≠ y) (hpz : p ≠ z)
    (hxy : rankGt x y) (hyz : rankGt y z) :
    getKickers (countMap [p, p, x, y, z]) [2] = [p, x, y, z] := by
  have hxy' : x ≠ y := (rank_ne_of_toNat_lt hxy).symm
  have hyz' : y ≠ z := (rank_ne_of_toNat_lt hyz).symm
  have hxz : rankGt x z := Nat.lt_trans hyz hxy
  have hxz' : x ≠ z := (rank_ne_of_toNat_lt hxz).symm
  have h2 : ranksHighToLow.filter (fun r => decide (countMap [p, p, x, y, z] r = some 2))
      = [p] := by
    apply filter_ranksHighToLow
    · simp
    · intro r
      rw [countMap_eq_some _ _ _ (by decide)]
      by_cases h1 : r = p <;> by_cases h2 : r = x <;> by_cases h3 : r = y <;>
        by_cases h4 : r = z <;> simp_all [List.count_cons]
  have hrest : ranksHighToLow.filter (keepsRank (countMap [p, p, x, y, z]) [p])
      = [x, y, z] := by
    apply filter_ranksHighToLow
    · simp only [List.pairwise_cons, List.mem_cons, List.mem_singleton, forall_eq_or_imp,
        forall_eq, List.not_mem_nil, false_implies, implies_true, List.Pairwise.nil, and_true]
      exact ⟨⟨hxy, hxz⟩, hyz⟩
    · intro r
      rw [keepsRank_countMap]
      by_cases h1 : r = p <;> by_cases h2 : r = x <;> by_cases h3 : r = y <;>
        by_cases h4 : r = z <;> simp_all [List.count_cons]
  rw [getKickers_eq]
  simp only [List.flatMap_cons, List.flatMap_nil, h2, List.append_nil, List.cons_append,
    List.nil_append, hrest, countMap_getD]
  simp_all [List.count_cons]

/-! ## Flush, straight and the evaluation of five cards in closed form -/

theorem isFlush_eq (h : Hand) (hne : h.Cards ≠ []) : isFlush h = some (decide (SameSuit h)) := by
  obtain ⟨cards⟩ := h
  cases cards with
  | nil => exact absurd rfl hne
  | cons c0 rest =>
    simp only [isFlush, Option.some.injEq]
    rw [Bool.eq_iff_iff]
    simp only [List.all_eq_true, decide_eq_true_eq, SameSuit]
    constructor
    · intro hall c hc c' hc'
      have e1 : ∀ x ∈ c0 :: rest, x.Suit = c0.Suit := by
        intro x hx
        rcases List.mem_cons.mp hx with rfl | hx
        · rfl
        · exact hall x hx
      rw [e1 c hc, e1 c' hc']
    · intro hs c hc
      exact hs c (List.mem_cons_of_mem _ hc) c0 (List.mem_cons_self _ _)

theorem isStandardLoop_five (a b c d e : Rank) :
    isStandardLoop [e, d, c, b, a] = decide (d.toNat = e.toNat + 1 ∧ c.toNat = d.toNat + 1
      ∧ b.toNat = c.toNat + 1 ∧ a.toNat = b.toNat + 1) := by
  rw [Bool.eq_iff_iff]
  simp only [isStandardLoop, decide_eq_true_eq]
  constructor
  · intro hl
    split_ifs at hl with h1 h2 h3 h4
    exact ⟨not_not.mp h1, not_not.mp h2, not_not.mp h3, not_not.mp h4⟩
  · rintro ⟨h1, h2, h3, h4⟩
    simp [h1, h2, h3, h4]

theorem isStraight_sorted (h : Hand) (a b c d e : Rank)
    (hS : sortDescending h.ranks = [a, b, c, d, e]) :
    isStraight h = some (straightOfSorted a b c d e) := by
  unfold isStraight straightOfSorted
  rw [sortAscending_eq_reverse, hS]
  simp only [List.reverse_cons, List.reverse_nil, List.nil_append, List.cons_append,
    isStandardLoop_five, decide_eq_true_eq]
  split_ifs with h1 h2 <;> simp_all

theorem sortDescending_congr {l s : List Rank} (hp : l.Perm s) :
    sortDescending l = sortDescending s :=
  sortDescending_eq (hp.trans (sortDescending_perm s).symm) (sortDescending_sorted s)

theorem ranks_length (h : Hand) : h.ranks.length = h.Cards.length := by
  simp [Hand.ranks]

/-- The evaluation of five cards of a given shape. -/
theorem evaluateFive_shape (h : Hand) (hlen : h.Cards.length = 5) (s : Shape) (hs : s.WF)
    (hp : h.ranks.Perm s.ranks) (st : Bool) (hi : Rank) (hst : isStraight h = some (st, hi)) :
    evaluateFive h = some (shapeResult s (decide (SameSuit h)) st hi) := by
  have hne : h.Cards ≠ [] := by
    intro h0
    rw [h0] at hlen
    exact absurd hlen (by decide)
  unfold evaluateFive
  simp only [isFlush_eq h hne, hst, getRankCounts_eq, countMap_perm hp, sortedCounts_countMap,
    rankCountsDescending_shape s hs, sortDescending_congr hp, Option.bind_eq_bind,
    Option.some_bind]
  cases s with
  | five x =>
    cases decide (SameSuit h) <;> cases st <;> simp [shapeResult, Shape.counts]
    all_goals (split_ifs <;> rfl)
  | quads q k =>
    have hk := getKickers_quads q k hs
    cases decide (SameSuit h) <;> cases st <;>
      simp [shapeResult, Shape.counts, Shape.ranks, hk]
    all_goals (split_ifs <;> rfl)
  | fullHouse t p =>
    have hk := getKickers_fullHouse t p hs
    cases decide (SameSuit h) <;> cases st <;>
      simp [shapeResult, Shape.counts, Shape.ranks, hk]
    all_goals (split_ifs <;> rfl)
  | trips t x y =>
    have hk := getKickers_trips t x y hs.1 hs.2.1 hs.2.2
    cases decide (SameSuit h) <;> cases st <;>
      simp [shapeResult, Shape.counts, Shape.ranks, hk]
    all_goals (split_ifs <;> rfl)
  | twoPair p q k =>
    have hk := getKickers_twoPair p q k hs.1 hs.2.1 hs.2.2
    cases decide (SameSuit h) <;> cases st <;>
      simp [shapeResult, Shape.counts, Shape.ranks, hk]
    all_goals (split_ifs <;> rfl)
  | pair p x y z =>
    have hk := getKickers_pair p x y z hs.1 hs.2.1 hs.2.2.1 hs.2.2.2.1 hs.2.2.2.2
    cases decide (SameSuit h) <;> cases st <;>
      simp [shapeResult, Shape.counts, Shape.ranks, hk]
    all_goals (split_ifs <;> rfl)
  | noPair a b c d e =>
    cases decide (SameSuit h) <;> cases st <;> simp [shapeResult, Shape.counts]
    all_goals (split_ifs <;> rfl)

theorem straightOfSorted_nodup (a b c d e hi : Rank)
    (h : straightOfSorted a b c d e = (true, hi)) : [a, b, c, d, e].Nodup := by
  unfold straightOfSorted at h
  split_ifs at h with h1 h2
  · obtain ⟨hde, hcd, hbc, hab⟩ := h1
    have hS : [a, b, c, d, e].Pairwise rankGt := by
      simp only [List.pairwise_cons, List.mem_cons, List.mem_singleton, forall_eq_or_imp,
        forall_eq, List.not_mem_nil, false_implies, implies_true, List.Pairwise.nil, and_true,
        rankGt]
      omega
    exact List.Sorted.nodup hS
  · obtain ⟨rfl, rfl, rfl, rfl, rfl⟩ := h2
    decide
  · simp at h

theorem straightOfSorted_false (a b c d e hi : Rank)
    (h : straightOfSorted a b c d e = (false, hi)) : hi = Two := by
  unfold straightOfSorted at h
  split_ifs at h with h1 h2
  · simp at h
  · simp at h
  · simpa using h.symm

/-- On five cards `isStraight` returns; a straight has five different ranks, and the rank
returned with `false` is `Two`. -/
theorem isStraight_five (h : Hand) (hlen : h.Cards.length = 5) :
    ∃ st hi, isStraight h = some (st, hi) ∧ (st = true → h.ranks.Nodup)
      ∧ (st = false → hi = Two) := by
  have hl : (sortDescending h.ranks).length = 5 := by
    rw [(sortDescending_perm h.ranks).length_eq, ranks_length, hlen]
  obtain ⟨a, b, c, d, e, hS⟩ := exists_of_length_five _ hl
  refine ⟨(straightOfSorted a b c d e).1, (straightOfSorted a b c d e).2,
    isStraight_sorted h a b c d e hS, ?_, ?_⟩
  · intro ht
    have hnd := straightOfSorted_nodup a b c d e (straightOfSorted a b c d e).2
      (Prod.ext ht rfl)
    have hp : h.ranks.Perm [a, b, c, d, e] := hS ▸ (sortDescending_perm h.ranks).symm
    exact hp.nodup_iff.mpr hnd
  · intro hf
    exact straightOfSorted_false a b c d e _ (Prod.ext hf rfl)

/-- On five cards `evaluateFive` returns (no index is out of range). -/
theorem evaluateFive_isSome (h : Hand) (hlen : h.Cards.length = 5) :
    ∃ v ks, evaluateFive h = some (v, ks) := by
  obtain ⟨s, hs, hp⟩ := shape_exists h.ranks (by rw [ranks_length, hlen])
  obtain ⟨st, hi, hst, -, -⟩ := isStraight_five h hlen
  exact ⟨_, _, evaluateFive_shape h hlen s hs hp st hi hst⟩

/-! ## The comparison of kicker sequences -/

theorem compareKickers_nil_nil : compareKickers [] [] = 0 := by
  simp [compareKickers, firstDifference]

theorem compareKickers_nil_cons (b : Rank) (k2 : List Rank) :
    compareKickers [] (b :: k2) = -1 := by
  simp [compareKickers, firstDifference]

theorem compareKickers_cons_nil (a : Rank) (k1 : List Rank) :
    compareKickers (a :: k1) [] = 1 := by
  simp [compareKickers, firstDifference]

theorem compareKickers_cons_cons (a b : Rank) (k1 k2 : List Rank) :
    compareKickers (a :: k1) (b :: k2)
      = if a.toNat > b.toNat then 1 else if a.toNat < b.toNat then -1
        else compareKickers k1 k2 := by
  simp only [compareKickers, List.zip_cons_cons, firstDifference, List.length_cons]
  by_cases h1 : a.toNat > b.toNat
  · simp [h1]
  · by_cases h2 : a.toNat < b.toNat
    · simp [h1, h2]
    · simp only [h1, h2, if_false, Nat.add_lt_add_iff_right, gt_iff_lt]
      rfl

theorem compareKickers_range (k1 k2 : List Rank) :
    compareKickers k1 k2 = -1 ∨ compareKickers k1 k2 = 0 ∨ compareKickers k1 k2 = 1 := by
  induction k1 generalizing k2 with
  | nil =>
    cases k2 with
    | nil => simp [compareKickers_nil_nil]
    | cons b k2 => simp [compareKickers_nil_cons]
  | cons a k1 ih =>
    cases k2 with
    | nil => simp [compareKickers_cons_nil]
    | cons b k2 =>
      rw [compareKickers_cons_cons]
      split_ifs
      · simp
      · simp
      · exact ih k2

theorem compareKickers_antisymm (k1 k2 : List Rank) :
    compareKickers k1 k2 = -compareKickers k2 k1 := by
  induction k1 generalizing k2 with
  | nil =>
    cases k2 with
    | nil => simp [compareKickers_nil_nil]
    | cons b k2 => simp [compareKickers_nil_cons, compareKickers_cons_nil]
  | cons a k1 ih =>
    cases k2 with
    | nil => simp [compareKickers_nil_cons, compareKickers_cons_nil]
    | cons b k2 =>
      rw [compareKickers_cons_cons, compareKickers_cons_cons]
      by_cases h1 : a.toNat > b.toNat
      · have h2 : ¬ b.toNat > a.toNat := by omega
        simp [h1, h2]
      · by_cases h2 : a.toNat < b.toNat
        · simp [h1, h2]
        · have h3 : ¬ b.toNat < a.toNat := by omega
          have h4 : ¬ b.toNat > a.toNat := by omega
          simp only [h1, h2, h3, h4, if_false]
          exact ih k2

theorem compareKickers_self (k : List Rank) : compareKickers k k = 0 := by
  have h := compareKickers_antisymm k k
  omega

theorem compareKickers_eq_zero {k1 k2 : List Rank} (h : compareKickers k1 k2 = 0) :
    k1 = k2 := by
  induction k1 generalizing k2 with
  | nil =>
    cases k2 with
    | nil => rfl
    | cons b k2 => simp [compareKickers_nil_cons] at h
  | cons a k1 ih =>
    cases k2 with
    | nil => simp [compareKickers_cons_nil] at h
    | cons b k2 =>
      rw [compareKickers_cons_cons] at h
      split_ifs at h with h1 h2
      · exact absurd h (by decide)
      · have hab : a = b := rank_toNat_injective (by omega)
        rw [hab, ih h]

theorem compareKickers_trans {k1 k2 k3 : List Rank} (h12 : compareKickers k1 k2 ≤ 0)
    (h23 : compareKickers k2 k3 ≤ 0) : compareKickers k1 k3 ≤ 0 := by
  induction k1 generalizing k2 k3 with
  | nil =>
    cases k3 with
    | nil => simp [compareKickers_nil_nil]
    | cons c k3 => simp [compareKickers_nil_cons]
  | cons a k1 ih =>
    cases k2 with
    | nil => simp [compareKickers_cons_nil] at h12
    | cons b k2 =>
      cases k3 with
      | nil => simp [compareKickers_cons_nil] at h23
      | cons c k3 =>
        rw [compareKickers_cons_cons] at h12 h23 ⊢
        split_ifs at h12 with hab1 hab2
        · omega
        · split_ifs at h23 with hbc1 hbc2
          · omega
          · have hac1 : ¬ a.toNat > c.toNat := by omega
            have hac2 : a.toNat < c.toNat := by omega
            simp [hac1, hac2]
          · have hac1 : ¬ a.toNat > c.toNat := by omega
            have hac2 : a.toNat < c.toNat := by omega
            simp [hac1, hac2]
        · split_ifs at h23 with hbc1 hbc2
          · omega
          · have hac1 : ¬ a.toNat > c.toNat := by omega
            have hac2 : a.toNat < c.toNat := by omega
            simp [hac1, hac2]
          · have hac1 : ¬ a.toNat > c.toNat := by omega
            have hac2 : ¬ a.toNat < c.toNat := by omega
            simp only [hac1, hac2, if_false]
            exact ih h12 h23

/-! ## The loop of `findBestFive` -/

theorem combinationsFrom_start : combinationsFrom 21 [0, 1, 2, 3, 4] = some allCombinations := by
  decide

theorem findBestFiveLoop_eq (h : Hand) (fuel : Nat) (indices : List Nat)
    (best : HandVal × List Rank) (L : List (List Nat))
    (hL : combinationsFrom fuel indices = some L) :
    findBestFiveLoop h fuel indices best
      = L.foldlM (fun b i => (candidateAt h i).map (updateBest b)) best := by
  induction fuel generalizing indices best L with
  | zero => simp [combinationsFrom] at hL
  | succ fuel ih =>
    simp only [combinationsFrom] at hL
    unfold findBestFiveLoop
    cases hnext : nextCombination 7 5 indices with
    | none =>
      rw [hnext] at hL
      simp only [Option.some.injEq] at hL
      subst hL
      simp only [candidateAt, List.foldlM_cons, List.foldlM_nil, Option.bind_eq_bind]
      cases subHandCards h.Cards indices with
      | none => rfl
      | some sub =>
        simp only [Option.some_bind]
        cases evaluateFive { Cards := sub } with
        | none => rfl
        | some cand => rfl
    | some next =>
      rw [hnext] at hL
      cases hrest : combinationsFrom fuel next with
      | none => simp [hrest] at hL
      | some L' =>
        simp only [hrest, Option.map_some', Option.some.injEq] at hL
        subst hL
        simp only [candidateAt, List.foldlM_cons, Option.bind_eq_bind]
        cases subHandCards h.Cards indices with
        | none => rfl
        | some sub =>
          simp only [Option.some_bind]
          cases evaluateFive { Cards := sub } with
          | none => rfl
          | some cand =>
            simp only [Option.some_bind, Option.map_some']
            exact ih next (updateBest best cand) L' hrest

theorem notBetter_refl (c : HandVal × List Rank) : notBetter c c :=
  Or.inr ⟨rfl, by rw [compareKickers_self]⟩

theorem notBetter_trans {a b c : HandVal × List Rank} (hab : notBetter a b)
    (hbc : notBetter b c) : notBetter a c := by
  rcases hab with hab | ⟨hab1, hab2⟩
  · rcases hbc with hbc | ⟨hbc1, _⟩
    · exact Or.inl (Nat.lt_trans hab hbc)
    · exact Or.inl (hbc1 ▸ hab)
  · rcases hbc with hbc | ⟨hbc1, hbc2⟩
    · exact Or.inl (hab1 ▸ hbc)
    · exact Or.inr ⟨hab1.trans hbc1, compareKickers_trans hab2 hbc2⟩

theorem updateBest_cases (b c : HandVal × List Rank) :
    updateBest b c = b ∨ updateBest b c = c := by
  unfold updateBest
  split_ifs with h1 h2 h3
  · exact Or.inr rfl
  · exact Or.inr (Prod.ext h2.symm rfl)
  · exact Or.inl rfl
  · exact Or.inl rfl

theorem updateBest_left (b c : HandVal × List Rank) : notBetter b (updateBest b c) := by
  unfold updateBest
  split_ifs with h1 h2 h3
  · exact Or.inl h1
  · refine Or.inr ⟨rfl, ?_⟩
    have h := compareKickers_antisymm b.2 c.2
    simp only
    omega
  · exact notBetter_refl b
  · exact notBetter_refl b

theorem updateBest_right (b c : HandVal × List Rank) : notBetter c (updateBest b c) := by
  unfold updateBest
  split_ifs with h1 h2 h3
  · exact notBetter_refl c
  · exact Or.inr ⟨h2, by rw [compareKickers_self]⟩
  · exact Or.inr ⟨h2, by omega⟩
  · refine Or.inl ?_
    have hne : c.1.toNat ≠ b.1.toNat := fun e => h2 (handVal_toNat_injective e)
    omega

/-- The loop keeps a running best: the result is not worse than the initial best and than
every candidate, and it is the initial best or one of the candidates. -/
theorem foldlM_updateBest (h : Hand) (L : List (List Nat))
    (hall : ∀ i ∈ L, ∃ c, candidateAt h i = some c) (best : HandVal × List Rank) :
    ∃ r, L.foldlM (fun b i => (candidateAt h i).map (updateBest b)) best = some r
      ∧ notBetter best r
      ∧ (∀ i ∈ L, ∀ c, candidateAt h i = some c → notBetter c r)
      ∧ (r = best ∨ ∃ i ∈ L, candidateAt h i = some r) := by
  induction L generalizing best with
  | nil => exact ⟨best, rfl, notBetter_refl best, by simp, Or.inl rfl⟩
  | cons i L ih =>
    obtain ⟨c, hc⟩ := hall i (List.mem_cons_self i L)
    obtain ⟨r, hr, hbest, hcands, hmem⟩ :=
      ih (fun j hj => hall j (List.mem_cons_of_mem i hj)) (updateBest best c)
    refine ⟨r, ?_, notBetter_trans (updateBest_left best c) hbest, ?_, ?_⟩
    · simp only [List.foldlM_cons, hc, Option.map_some', Option.bind_eq_bind, Option.some_bind]
      exact hr
    · intro j hj c' hc'
      rcases List.mem_cons.mp hj with rfl | hj
      · rw [hc] at hc'
        cases hc'
        exact notBetter_trans (updateBest_right best c) hbest
      · exact hcands j hj c' hc'
    · rcases hmem with hmem | ⟨j, hj, hjr⟩
      · rcases updateBest_cases best c with hu | hu
        · exact Or.inl (hmem.trans hu)
        · exact Or.inr ⟨i, List.mem_cons_self i L, by rw [hc, hmem, hu]⟩
      · exact Or.inr ⟨j, List.mem_cons_of_mem i hj, hjr⟩

theorem subHands_sublists (c0 c1 c2 c3 c4 c5 c6 : Card) :
    allCombinations.map (subHandCards [c0, c1, c2, c3, c4, c5, c6])
      = (List.sublistsLen 5 [c0, c1, c2, c3, c4, c5, c6]).reverse.map some := by
  rfl

theorem exists_of_length_seven {α : Type} (l : List α) (h : l.length = 7) :
    ∃ a b c d e f g, l = [a, b, c, d, e, f, g] := by
  match l, h with
  | [a, b, c, d, e, f, g], _ => exact ⟨a, b, c, d, e, f, g, rfl⟩

/-- The sub-hands of the loop are the sublists of five cards of the hand. -/
theorem subHandCards_sublists (cards : List Card) (hlen : cards.length = 7) :
    (∀ i ∈ allCombinations, ∃ s ∈ List.sublistsLen 5 cards, subHandCards cards i = some s)
      ∧ (∀ s ∈ List.sublistsLen 5 cards, ∃ i ∈ allCombinations,
          subHandCards cards i = some s) := by
  obtain ⟨c0, c1, c2, c3, c4, c5, c6, rfl⟩ := exists_of_length_seven cards hlen
  have hmap := subHands_sublists c0 c1 c2 c3 c4 c5 c6
  constructor
  · intro i hi
    have h1 : subHandCards [c0, c1, c2, c3, c4, c5, c6] i
        ∈ allCombinations.map (subHandCards [c0, c1, c2, c3, c4, c5, c6]) :=
      List.mem_map_of_mem _ hi
    rw [hmap] at h1
    obtain ⟨s, hs, hse⟩ := List.mem_map.mp h1
    exact ⟨s, List.mem_reverse.mp hs, hse.symm⟩
  · intro s hs
    have h1 : some s ∈ (List.sublistsLen 5 [c0, c1, c2, c3, c4, c5, c6]).reverse.map some :=
      List.mem_map_of_mem _ (List.mem_reverse.mpr hs)
    rw [← hmap] at h1
    obtain ⟨i, hi, hie⟩ := List.mem_map.mp h1
    exact ⟨i, hi, hie⟩

theorem notBetter_lowest {c : HandVal × List Rank} (h : notBetter c (HighCard, [])) :
    c = (HighCard, []) := by
  rcases h with h | ⟨h1, h2⟩
  · simp [HandVal.toNat] at h
  · obtain ⟨v, ks⟩ := c
    simp only at h1 h2
    subst h1
    cases ks with
    | nil => rfl
    | cons a ks => simp [compareKickers_cons_nil] at h2

/-- On seven cards `findBestFive` returns the evaluation of one of the sublists of five
cards, and no sublist of five cards evaluates better. -/
theorem findBestFive_spec (h : Hand) (hlen : h.Cards.length = 7) :
    ∃ r, findBestFive h = some r
      ∧ (∃ s ∈ List.sublistsLen 5 h.Cards, evaluateFive { Cards := s } = some r)
      ∧ (∀ s ∈ List.sublistsLen 5 h.Cards,
          ∃ c, evaluateFive { Cards := s } = some c ∧ notBetter c r) := by
  obtain ⟨hsub1, hsub2⟩ := subHandCards_sublists h.Cards hlen
  have hcand : ∀ i ∈ allCombinations, ∃ s ∈ List.sublistsLen 5 h.Cards, ∃ c,
      evaluateFive { Cards := s } = some c ∧ candidateAt h i = some c := by
    intro i hi
    obtain ⟨s, hs, hsi⟩ := hsub1 i hi
    have hl : s.length = 5 := (List.mem_sublistsLen.mp hs).2
    obtain ⟨v, ks, hev⟩ := evaluateFive_isSome { Cards := s } hl
    exact ⟨s, hs, (v, ks), hev, by simp [candidateAt, hsi, hev]⟩
  have hall : ∀ i ∈ allCombinations, ∃ c, candidateAt h i = some c := by
    intro i hi
    obtain ⟨_, _, c, _, hc⟩ := hcand i hi
    exact ⟨c, hc⟩
  obtain ⟨r, hr, -, hge, hmem⟩ := foldlM_updateBest h allCombinations hall (HighCard, [])
  have hrun : findBestFive h = some r := by
    unfold findBestFive
    rw [findBestFiveLoop_eq h 21 [0, 1, 2, 3, 4] (HighCard, []) allCombinations
      combinationsFrom_start]
    exact hr
  have hmem' : ∃ i ∈ allCombinations, candidateAt h i = some r := by
    rcases hmem with hmem | hmem
    · have h0 : [0, 1, 2, 3, 4] ∈ allCombinations := by simp [allCombinations]
      obtain ⟨c, hc⟩ := hall _ h0
      have hle := hge _ h0 c hc
      rw [hmem] at hle
      refine ⟨_, h0, ?_⟩
      rw [hc, notBetter_lowest hle, hmem]
    · exact hmem
  refine ⟨r, hrun, ?_, ?_⟩
  · obtain ⟨i, hi, hir⟩ := hmem'
    obtain ⟨s, hs, c, hev, hc⟩ := hcand i hi
    rw [hir] at hc
    cases hc
    exact ⟨s, hs, hev⟩
  · intro s hs
    obtain ⟨i, hi, hsi⟩ := hsub2 s hs
    obtain ⟨s', _, c, hev, hc⟩ := hcand i hi
    obtain ⟨s'', _, hsi''⟩ := hsub1 i hi
    have hs' : evaluateFive { Cards := s } = some c := by
      have : candidateAt h i = evaluateFive { Cards := s } := by simp [candidateAt, hsi]
      rw [← this, hc]
    exact ⟨c, hs', hge i hi c hc⟩

/-- Method `Evaluate` returns on every hand. -/
theorem Evaluate_isSome (h : Hand) : ∃ v ks, Evaluate h = some (v, ks) := by
  unfold Evaluate
  split_ifs with h5 h7
  · exact evaluateFive_isSome h h5
  · obtain ⟨r, hr, -, -⟩ := findBestFive_spec h h7
    exact ⟨r.1, r.2, hr⟩
  · exact ⟨_, _, rfl⟩

theorem compareKickers_outcome (k1 k2 : List Rank) :
    KickerOutcome k1 k2 (compareKickers k1 k2) := by
  induction k1 generalizing k2 with
  | nil =>
    cases k2 with
    | nil => exact Or.inr ⟨by simp, by simp [compareKickers_nil_nil]⟩
    | cons b k2 => exact Or.inr ⟨by simp, by simp [compareKickers_nil_cons]⟩
  | cons a k1 ih =>
    cases k2 with
    | nil => exact Or.inr ⟨by simp, by simp [compareKickers_cons_nil]⟩
    | cons b k2 =>
      rw [compareKickers_cons_cons]
      by_cases h1 : a.toNat > b.toNat
      · refine Or.inl ⟨0, a, b, by simp, by simp, by simp, ?_, by simp [h1]⟩
        intro hab
        subst hab
        omega
      · by_cases h2 : a.toNat < b.toNat
        · have h3 : ¬ b.toNat < a.toNat := by omega
          refine Or.inl ⟨0, a, b, by simp, by simp, by simp, ?_, by simp [h1, h2, h3]⟩
          intro hab
          subst hab
          omega
        · have hab : a = b := rank_toNat_injective (by omega)
          subst hab
          simp only [h1, h2, if_false]
          rcases ih k2 with ⟨i, x, y, hx, hy, hpre, hne, hr⟩ | ⟨hpre, hr⟩
          · refine Or.inl ⟨i + 1, x, y, by simpa using hx, by simpa using hy, ?_, hne, hr⟩
            intro j hj
            cases j with
            | zero => simp
            | succ j => simpa using hpre j (by omega)
          · refine Or.inr ⟨?_, ?_⟩
            · intro j hj1 hj2
              cases j with
              | zero => simp
              | succ j =>
                simp only [List.length_cons] at hj1 hj2
                simpa using hpre j (by omega) (by omega)
            · simp only [List.length_cons, Nat.add_lt_add_iff_right]
              exact hr

theorem NewCard_not_handSize (part : String) (n : Nat) :
    NewCard part ≠ .error (.handSize n) := by
  unfold NewCard
  split
  · split
    · simp
    · split <;> simp
  · simp

theorem NewHandLoop_not_handSize (parts : List String) (cards : List Card)
    (seen : List String) (n : Nat) : NewHandLoop parts cards seen ≠ .error (.handSize n) := by
  induction parts generalizing cards seen with
  | nil => simp [NewHandLoop]
  | cons part rest ih =>
    unfold NewHandLoop
    cases hc : NewCard part with
    | error err =>
      simp only
      intro he
      have herr : err = .handSize n := Except.error.inj he
      exact NewCard_not_handSize part n (by rw [hc, herr])
    | ok card =>
      simp only
      split_ifs
      · simp
      · exact ih _ _

theorem NewHandLoop_length (parts : List String) (cards : List Card) (seen : List String)
    (h : Hand) (hok : NewHandLoop parts cards seen = .ok h) :
    h.Cards.length = cards.length + parts.length := by
  induction parts generalizing cards seen with
  | nil =>
    simp only [NewHandLoop, Except.ok.injEq] at hok
    subst hok
    simp
  | cons part rest ih =>
    unfold NewHandLoop at hok
    cases hc : NewCard part with
    | error err => simp [hc] at hok
    | ok card =>
      simp only [hc] at hok
      split_ifs at hok
      have := ih _ _ hok
      simp only [List.length_append, List.length_cons, List.length_nil] at this ⊢
      omega

theorem shapeResult_kickers_ne (s : Shape) (flush straight : Bool) (high : Rank)
    (hl : s.ranks.length = 5) : (shapeResult s flush straight high).2 ≠ [] := by
  have hsorted : sortDescending s.ranks ≠ [] := by
    intro h0
    have := (sortDescending_perm s.ranks).length_eq
    rw [h0, hl] at this
    exact absurd this (by decide)
  unfold shapeResult
  cases s <;> cases flush <;> cases straight <;> simp <;> first | exact hsorted | (split_ifs <;> simp)

theorem shape_ranks_length (s : Shape) : s.ranks.length = 5 := by
  cases s <;> rfl

theorem evaluateFive_kickers_ne (h : Hand) (hlen : h.Cards.length = 5) (v : HandVal)
    (ks : List Rank) (hev : evaluateFive h = some (v, ks)) : ks ≠ [] := by
  obtain ⟨s, hs, hp⟩ := shape_exists h.ranks (by rw [ranks_length, hlen])
  obtain ⟨st, hi, hst, -, -⟩ := isStraight_five h hlen
  rw [evaluateFive_shape h hlen s hs hp st hi hst] at hev
  have hne := shapeResult_kickers_ne s (decide (SameSuit h)) st hi (shape_ranks_length s)
  simp only [Option.some.injEq] at hev
  rw [hev] at hne
  exact hne

/-- On five or seven cards the kickers that `Evaluate` returns are not empty: the result is
not the one of the fallback branch. -/
theorem Evaluate_kickers_ne (h : Hand) (hlen : h.Cards.length = 5 ∨ h.Cards.length = 7) :
    ∃ v ks, Evaluate h = some (v, ks) ∧ ks ≠ [] := by
  rcases hlen with h5 | h7
  · obtain ⟨v, ks, hev⟩ := evaluateFive_isSome h h5
    exact ⟨v, ks, by simp [Evaluate, h5, hev], evaluateFive_kickers_ne h h5 v ks hev⟩
  · obtain ⟨r, hr, ⟨s, hs, hsr⟩, -⟩ := findBestFive_spec h h7
    have hl : s.length = 5 := (List.mem_sublistsLen.mp hs).2
    exact ⟨r.1, r.2, by simp [Evaluate, h7, hr],
      evaluateFive_kickers_ne { Cards := s } hl r.1 r.2 hsr⟩

/-! ## Hands of five different cards -/

theorem sameSuit_ranks_nodup (h : Hand) (hsame : SameSuit h) (hnd : h.Cards.Nodup) :
    h.ranks.Nodup := by
  unfold Hand.ranks
  refine List.Nodup.map_on ?_ hnd
  intro c hc c' hc' hr
  have hsuit := hsame c hc c' hc'
  cases c
  cases c'
  simp only [Card.mk.injEq]
  exact ⟨hsuit, hr⟩

theorem suits_length_le (l : List Suit) (hnd : l.Nodup) : l.length ≤ 4 := by
  have hsub : l ⊆ [Hearts, Diamonds, Clubs, Spades] := by
    intro x _
    cases x <;> simp
  exact (List.subperm_of_subset hnd hsub).length_le

theorem not_five_of_a_rank (h : Hand) (hnd : h.Cards.Nodup) (x : Rank)
    (hp : h.ranks.Perm [x, x, x, x, x]) : False := by
  have hall : ∀ c ∈ h.Cards, c.Rank = x := by
    intro c hc
    have hm : c.Rank ∈ h.ranks := List.mem_map_of_mem _ hc
    have hm' := hp.mem_iff.mp hm
    simpa using hm'
  have hsuits : (h.Cards.map Card.Suit).Nodup := by
    refine List.Nodup.map_on ?_ hnd
    intro c hc c' hc' hsuit
    have h1 := hall c hc
    have h2 := hall c' hc'
    cases c
    cases c'
    simp only [Card.mk.injEq]
    simp only at h1 h2 hsuit
    exact ⟨hsuit, h1.trans h2.symm⟩
  have hle := suits_length_le _ hsuits
  have hlen : h.Cards.length = 5 := by
    rw [← ranks_length, hp.length_eq]
    rfl
  rw [List.length_map, hlen] at hle
  omega

theorem sortDescending_noPair (a b c d e : Rank) (hs : (Shape.noPair a b c d e).WF) :
    sortDescending [a, b, c, d, e] = [a, b, c, d, e] := by
  obtain ⟨h1, h2, h3, h4⟩ := hs
  apply sortDescending_eq (List.Perm.refl _)
  simp only [List.Sorted, List.pairwise_cons, List.mem_cons, List.mem_singleton,
    forall_eq_or_imp, forall_eq, List.not_mem_nil, false_implies, implies_true,
    List.Pairwise.nil, and_true, rankGe]
  simp only [rankGt] at h1 h2 h3 h4
  omega

theorem evaluateFive_distinct (h : Hand) (hlen : h.Cards.length = 5) (hnd : h.Cards.Nodup)
    (s : Shape) (hs : s.WF) (hp : h.ranks.Perm s.ranks) : distinctResult h s := by
  obtain ⟨st, hi, hst, hst1, hst2⟩ := isStraight_five h hlen
  have hev := evaluateFive_shape h hlen s hs hp st hi hst
  have hdup : ¬ s.ranks.Nodup → decide (SameSuit h) = false ∧ st = false := by
    intro hn
    have hn' : ¬ h.ranks.Nodup := fun hr => hn (hp.nodup_iff.mp hr)
    constructor
    · rw [decide_eq_false_iff_not]
      exact fun hsame => hn' (sameSuit_ranks_nodup h hsame hnd)
    · cases st with
      | false => rfl
      | true => exact absurd (hst1 rfl) hn'
  cases s with
  | five x => exact not_five_of_a_rank h hnd x hp
  | quads q k =>
    obtain ⟨hf, hstf⟩ := hdup (by simp [Shape.ranks])
    simpa [distinctResult, shapeResult, hf, hstf] using hev
  | fullHouse t p =>
    obtain ⟨hf, hstf⟩ := hdup (by simp [Shape.ranks])
    simpa [distinctResult, shapeResult, hf, hstf] using hev
  | trips t x y =>
    obtain ⟨hf, hstf⟩ := hdup (by simp [Shape.ranks])
    simpa [distinctResult, shapeResult, hf, hstf] using hev
  | twoPair p q k =>
    obtain ⟨hf, hstf⟩ := hdup (by simp [Shape.ranks])
    simpa [distinctResult, shapeResult, hf, hstf] using hev
  | pair p x y z =>
    obtain ⟨hf, hstf⟩ := hdup (by simp [Shape.ranks])
    simpa [distinctResult, shapeResult, hf, hstf] using hev
  | noPair a b c d e =>
    have hsorted : sortDescending h.ranks = [a, b, c, d, e] := by
      rw [sortDescending_congr hp]
      exact sortDescending_noPair a b c d e hs
    have hstr := isStraight_sorted h a b c d e hsorted
    rw [hst] at hstr
    simp only [Option.some.injEq] at hstr
    refine ⟨hsorted, by rw [hst, hstr], ?_⟩
    rw [hev, ← hstr]
    simp only [shapeResult, Shape.ranks, sortDescending_noPair a b c d e hs, decide_eq_true_eq,
      Bool.and_eq_true]

theorem perm_reverse_five {α : Type} (a b c d e : α) : [a, b, c, d, e].Perm [e, d, c, b, a] := by
  have h := List.reverse_perm [e, d, c, b, a]
  simpa using h

theorem isStraight_iff (h : Hand) (hlen : h.Cards.length = 5) (hi : Rank) :
    isStraight h = some (true, hi) ↔ IsStraightWithHigh h.ranks hi := by
  have hl : (sortDescending h.ranks).length = 5 := by
    rw [(sortDescending_perm h.ranks).length_eq, ranks_length, hlen]
  obtain ⟨a, b, c, d, e, hS⟩ := exists_of_length_five _ hl
  have hp : h.ranks.Perm [a, b, c, d, e] := hS ▸ (sortDescending_perm h.ranks).symm
  constructor
  · intro hst
    rw [isStraight_sorted h a b c d e hS] at hst
    simp only [Option.some.injEq] at hst
    unfold straightOfSorted at hst
    split_ifs at hst with h1 h2
    · obtain ⟨hde, hcd, hbc, hab⟩ := h1
      simp only [Prod.mk.injEq, true_and] at hst
      exact Or.inl ⟨e, d, c, b, a, hp.trans (perm_reverse_five a b c d e), hde, hcd, hbc, hab,
        hst.symm⟩
    · obtain ⟨rfl, rfl, rfl, rfl, rfl⟩ := h2
      simp only [Prod.mk.injEq, true_and] at hst
      exact Or.inr ⟨hp.trans (perm_reverse_five Ace Five Four Three Two), hst.symm⟩
    · simp at hst
  · rintro (⟨a', b', c', d', e', hp', hab, hbc, hcd, hde, rfl⟩ | ⟨hp', rfl⟩)
    · have hsort : sortDescending h.ranks = [hi, d', c', b', a'] := by
        apply sortDescending_eq (hp'.trans (perm_reverse_five a' b' c' d' hi))
        simp only [List.Sorted, List.pairwise_cons, List.mem_cons, List.mem_singleton,
          forall_eq_or_imp, forall_eq, List.not_mem_nil, false_implies, implies_true,
          List.Pairwise.nil, and_true, rankGe]
        omega
      rw [isStraight_sorted h _ _ _ _ _ hsort]
      simp [straightOfSorted, hab, hbc, hcd, hde]
    · have hsort : sortDescending h.ranks = [Ace, Five, Four, Three, Two] := by
        apply sortDescending_eq (hp'.trans (perm_reverse_five Two Three Four Five Ace))
        simp [List.Sorted, rankGe, Rank.toNat]
      rw [isStraight_sorted h _ _ _ _ _ hsort]
      rfl

/-- What a multiplicity category tells about five different cards: the groups of ranks of
the hand and the kickers that `evaluateFive` returns with the category. -/
theorem evaluateFive_inv (h : Hand) (hlen : h.Cards.length = 5) (hnd : h.Cards.Nodup)
    (v : HandVal) (ks : List Rank) (hev : evaluateFive h = some (v, ks)) :
    (v = FourOfAKind → ∃ q k, (Shape.quads q k).WF ∧ h.ranks.Perm [q, q, q, q, k]
        ∧ ks = [q, k])
      ∧ (v = FullHouse → ∃ t p, (Shape.fullHouse t p).WF ∧ h.ranks.Perm [t, t, t, p, p]
        ∧ ks = [t, p])
      ∧ (v = ThreeOfAKind → ∃ t x y, (Shape.trips t x y).WF ∧ h.ranks.Perm [t, t, t, x, y]
        ∧ ks = [t, x, y])
      ∧ (v = TwoPair → ∃ p q k, (Shape.twoPair p q k).WF ∧ h.ranks.Perm [p, p, q, q, k]
        ∧ ks = [p, q, p, q, k])
      ∧ (v = OnePair → ∃ p x y z, (Shape.pair p x y z).WF ∧ h.ranks.Perm [p, p, x, y, z]
        ∧ ks = [p, x, y, z]) := by
  obtain ⟨s, hs, hp⟩ := shape_exists h.ranks (by rw [ranks_length, hlen])
  have hd := evaluateFive_distinct h hlen hnd s hs hp
  cases s with
  | five x => exact absurd hd id
  | quads q k =>
    simp only [distinctResult, hev, Option.some.injEq, Prod.mk.injEq] at hd
    obtain ⟨rfl, rfl⟩ := hd
    exact ⟨fun _ => ⟨q, k, hs, hp, rfl⟩, by simp, by simp, by simp, by simp⟩
  | fullHouse t p =>
    simp only [distinctResult, hev, Option.some.injEq, Prod.mk.injEq] at hd
    obtain ⟨rfl, rfl⟩ := hd
    exact ⟨by simp, fun _ => ⟨t, p, hs, hp, rfl⟩, by simp, by simp, by simp⟩
  | trips t x y =>
    simp only [distinctResult, hev, Option.some.injEq, Prod.mk.injEq] at hd
    obtain ⟨rfl, rfl⟩ := hd
    exact ⟨by simp, by simp, fun _ => ⟨t, x, y, hs, hp, rfl⟩, by simp, by simp⟩
  | twoPair p q k =>
    simp only [distinctResult, hev, Option.some.injEq, Prod.mk.injEq] at hd
    obtain ⟨rfl, rfl⟩ := hd
    exact ⟨by simp, by simp, by simp, fun _ => ⟨p, q, k, hs, hp, rfl⟩, by simp⟩
  | pair p x y z =>
    simp only [distinctResult, hev, Option.some.injEq, Prod.mk.injEq] at hd
    obtain ⟨rfl, rfl⟩ := hd
    exact ⟨by simp, by simp, by simp, by simp, fun _ => ⟨p, x, y, z, hs, hp, rfl⟩⟩
  | noPair a b c d e =>
    obtain ⟨-, -, hd⟩ := hd
    rw [hev] at hd
    simp only [Option.some.injEq] at hd
    have hv : v ≠ FourOfAKind ∧ v ≠ FullHouse ∧ v ≠ ThreeOfAKind ∧ v ≠ TwoPair
        ∧ v ≠ OnePair := by
      split_ifs at hd <;> simp only [Prod.mk.injEq] at hd <;> obtain ⟨rfl, -⟩ := hd <;> simp
    exact ⟨fun e => absurd e hv.1, fun e => absurd e hv.2.1, fun e => absurd e hv.2.2.1,
      fun e => absurd e hv.2.2.2.1, fun e => absurd e hv.2.2.2.2⟩

instance groupBefore_total (l : List Rank) : IsTotal Rank (groupBefore l) :=
  ⟨fun x y => by unfold groupBefore; omega⟩

instance groupBefore_trans (l : List Rank) : IsTrans Rank (groupBefore l) :=
  ⟨fun x y z => by unfold groupBefore; omega⟩

instance groupBefore_antisymm (l : List Rank) : IsAntisymm Rank (groupBefore l) :=
  ⟨fun x y hxy hyx => rank_toNat_injective (by unfold groupBefore at hxy hyx; omega)⟩

theorem tieBreakTuple_eq {l T : List Rank} (hp : T.Perm l.dedup)
    (hs : T.Sorted (groupBefore l)) : tieBreakTuple l = T :=
  List.eq_of_perm_of_sorted ((List.perm_insertionSort _ _).trans hp.symm)
    (List.sorted_insertionSort _ _) hs

theorem tieBreakTuple_shape (l : List Rank) (s : Shape) (hs : s.WF) (hp : l.Perm s.ranks) :
    tieBreakTuple l = s.tuple := by
  have hgb : ∀ x y, groupBefore l x y ↔ groupBefore s.ranks x y := by
    intro x y
    simp only [groupBefore, hp.count_eq]
  apply tieBreakTuple_eq
  · refine List.Perm.trans ?_ hp.dedup.symm
    cases s with
    | five x => simp [Shape.ranks, Shape.tuple]
    | quads q k =>
      have h : q ≠ k := hs
      simp [Shape.ranks, Shape.tuple, List.dedup_cons_of_mem, List.dedup_cons_of_not_mem, h]
    | fullHouse t p =>
      have h : t ≠ p := hs
      simp [Shape.ranks, Shape.tuple, List.dedup_cons_of_mem, List.dedup_cons_of_not_mem, h]
    | trips t x y =>
      obtain ⟨h1, h2, h3⟩ := hs
      have h3' := (rank_ne_of_toNat_lt h3).symm
      simp [Shape.ranks, Shape.tuple, List.dedup_cons_of_mem, List.dedup_cons_of_not_mem,
        h1, h2, h3']
    | twoPair p q k =>
      obtain ⟨h1, h2, h3⟩ := hs
      have h1' := (rank_ne_of_toNat_lt h1).symm
      simp [Shape.ranks, Shape.tuple, List.dedup_cons_of_mem, List.dedup_cons_of_not_mem,
        h1', h2.symm, h3.symm]
    | pair p x y z =>
      obtain ⟨h1, h2, h3, h4, h5⟩ := hs
      have h4' := (rank_ne_of_toNat_lt h4).symm
      have h5' := (rank_ne_of_toNat_lt h5).symm
      have h6' := (rank_ne_of_toNat_lt (Nat.lt_trans h5 h4)).symm
      simp [Shape.ranks, Shape.tuple, List.dedup_cons_of_mem, List.dedup_cons_of_not_mem,
        h1, h2, h3, h4', h5', h6']
    | noPair a b c d e =>
      obtain ⟨h1, h2, h3, h4⟩ := hs
      have hab := (rank_ne_of_toNat_lt h1).symm
      have hbc := (rank_ne_of_toNat_lt h2).symm
      have hcd := (rank_ne_of_toNat_lt h3).symm
      have hde := (rank_ne_of_toNat_lt h4).symm
      have hac := (rank_ne_of_toNat_lt (Nat.lt_trans h2 h1)).symm
      have hbd := (rank_ne_of_toNat_lt (Nat.lt_trans h3 h2)).symm
      have hce := (rank_ne_of_toNat_lt (Nat.lt_trans h4 h3)).symm
      have had := (rank_ne_of_toNat_lt (Nat.lt_trans h3 (Nat.lt_trans h2 h1))).symm
      have hbe := (rank_ne_of_toNat_lt (Nat.lt_trans h4 (Nat.lt_trans h3 h2))).symm
      have hae :=
        (rank_ne_of_toNat_lt (Nat.lt_trans h4 (Nat.lt_trans h3 (Nat.lt_trans h2 h1)))).symm
      simp [Shape.ranks, Shape.tuple, List.dedup_cons_of_mem, List.dedup_cons_of_not_mem,
        hab, hbc, hcd, hde, hac, hbd, hce, had, hbe, hae]
  · have hsorted : s.tuple.Sorted (groupBefore s.ranks) := by
      cases s with
      | five x => simp [Shape.tuple]
      | quads q k =>
        have h : q ≠ k := hs
        simp [Shape.tuple, groupBefore, Shape.ranks, List.count_cons, h, h.symm]
      | fullHouse t p =>
        have h : t ≠ p := hs
        simp [Shape.tuple, groupBefore, Shape.ranks, List.count_cons, h, h.symm]
      | trips t x y =>
        obtain ⟨h1, h2, h3⟩ := hs
        have h3' := (rank_ne_of_toNat_lt h3).symm
        have h3le : y.toNat ≤ x.toNat := Nat.le_of_lt h3
        simp [Shape.tuple, groupBefore, Shape.ranks, List.count_cons, h1, h2, h3', h1.symm,
          h2.symm, h3'.symm, h3le]
      | twoPair p q k =>
        obtain ⟨h1, h2, h3⟩ := hs
        have h1' := (rank_ne_of_toNat_lt h1).symm
        have h1le : q.toNat ≤ p.toNat := Nat.le_of_lt h1
        simp [Shape.tuple, groupBefore, Shape.ranks, List.count_cons, h1', h2, h3, h1'.symm,
          h2.symm, h3.symm, h1le]
      | pair p x y z =>
        obtain ⟨h1, h2, h3, h4, h5⟩ := hs
        have h4' := (rank_ne_of_toNat_lt h4).symm
        have h5' := (rank_ne_of_toNat_lt h5).symm
        have h6' := (rank_ne_of_toNat_lt (Nat.lt_trans h5 h4)).symm
        have h4le : y.toNat ≤ x.toNat := Nat.le_of_lt h4
        have h5le : z.toNat ≤ y.toNat := Nat.le_of_lt h5
        have h6le : z.toNat ≤ x.toNat := Nat.le_trans h5le h4le
        simp [Shape.tuple, groupBefore, Shape.ranks, List.count_cons, h1, h2, h3, h4', h5',
          h6', h1.symm, h2.symm, h3.symm, h4'.symm, h5'.symm, h6'.symm, h4le, h5le, h6le]
      | noPair a b c d e =>
        obtain ⟨h1, h2, h3, h4⟩ := hs
        have hab := (rank_ne_of_toNat_lt h1).symm
        have hbc := (rank_ne_of_toNat_lt h2).symm
        have hcd := (rank_ne_of_toNat_lt h3).symm
        have hde := (rank_ne_of_toNat_lt h4).symm
        have hac := (rank_ne_of_toNat_lt (Nat.lt_trans h2 h1)).symm
        have hbd := (rank_ne_of_toNat_lt (Nat.lt_trans h3 h2)).symm
        have hce := (rank_ne_of_toNat_lt (Nat.lt_trans h4 h3)).symm
        have had := (rank_ne_of_toNat_lt (Nat.lt_trans h3 (Nat.lt_trans h2 h1))).symm
        have hbe := (rank_ne_of_toNat_lt (Nat.lt_trans h4 (Nat.lt_trans h3 h2))).symm
        have hae :=
          (rank_ne_of_toNat_lt (Nat.lt_trans h4 (Nat.lt_trans h3 (Nat.lt_trans h2 h1)))).symm
        simp only [rankGt] at h1 h2 h3 h4
        simp only [Shape.tuple, List.Sorted, List.pairwise_cons, List.mem_cons,
          List.mem_singleton, forall_eq_or_imp, forall_eq, List.not_mem_nil, false_implies,
          implies_true, List.Pairwise.nil, and_true, groupBefore, Shape.ranks]
        simp [List.count_cons, hab, hbc, hcd, hde, hac, hbd, hce, had, hbe, hae, hab.symm,
          hbc.symm, hcd.symm, hde.symm, hac.symm, hbd.symm, hce.symm, had.symm, hbe.symm,
          hae.symm]
        omega
    exact List.Pairwise.imp (fun hxy => (hgb _ _).mpr hxy) hsorted

theorem lexSign_eq_compareKickers (k1 k2 : List Rank) : lexSign k1 k2 = compareKickers k1 k2 := by
  induction k1 generalizing k2 with
  | nil =>
    cases k2 with
    | nil => simp [lexSign, compareKickers_nil_nil]
    | cons b k2 => simp [lexSign, compareKickers_nil_cons]
  | cons a k1 ih =>
    cases k2 with
    | nil => simp [lexSign, compareKickers_cons_nil]
    | cons b k2 =>
      rw [compareKickers_cons_cons, lexSign, ih k2]

theorem compareKickers_twoPair (p q k p' q' k' : Rank) :
    compareKickers [p, q, p, q, k] [p', q', p', q', k']
      = compareKickers [p, q, k] [p', q', k'] := by
  simp only [compareKickers_cons_cons, compareKickers_nil_nil]
  split_ifs <;> rfl

/-! ## The parsing of cards and hands -/

theorem suitOfByte_iff (b : Nat) (suit : Suit) :
    suitOfByte b = some suit ↔ b = suit.symbol.toNat := by
  unfold suitOfByte
  have hH : 'H'.toNat = 72 := rfl
  have hD : 'D'.toNat = 68 := rfl
  have hC : 'C'.toNat = 67 := rfl
  have hS : 'S'.toNat = 83 := rfl
  rw [hH, hD, hC, hS]
  cases suit <;> simp only [Suit.symbol, hH, hD, hC, hS] <;> split_ifs <;> simp <;> omega

theorem utf8Bytes_cases (c : Char) :
    (c.toNat < 128 ∧ utf8Bytes c = [c.toNat])
      ∨ (128 ≤ c.toNat ∧ ∃ b b' rest, utf8Bytes c = b :: b' :: rest ∧ 192 ≤ b) := by
  unfold utf8Bytes
  simp only
  split_ifs with h1 h2 h3
  · exact Or.inl ⟨h1, rfl⟩
  · exact Or.inr ⟨by omega, _, _, _, rfl, by omega⟩
  · exact Or.inr ⟨by omega, _, _, _, rfl, by omega⟩
  · exact Or.inr ⟨by omega, _, _, _, rfl, by omega⟩
theorem rankOfByte_iff (b : Nat) (rank : Rank) :
    rankOfByte b = some rank ↔ b = rank.symbol.toNat := by
  constructor
  · intro h
    unfold rankOfByte at h
    by_cases h2 : b = '2'.toNat
    · rw [if_pos h2] at h; cases h; exact h2
    rw [if_neg h2] at h
    by_cases h3 : b = '3'.toNat
    · rw [if_pos h3] at h; cases h; exact h3
    rw [if_neg h3] at h
    by_cases h4 : b = '4'.toNat
    · rw [if_pos h4] at h; cases h; exact h4
    rw [if_neg h4] at h
    by_cases h5 : b = '5'.toNat
    · rw [if_pos h5] at h; cases h; exact h5
    rw [if_neg h5] at h
    by_cases h6 : b = '6'.toNat
    · rw [if_pos h6] at h; cases h; exact h6
    rw [if_neg h6] at h
    by_cases h7 : b = '7'.toNat
    · rw [if_pos h7] at h; cases h; exact h7
    rw [if_neg h7] at h
    by_cases h8 : b = '8'.toNat
    · rw [if_pos h8] at h; cases h; exact h8
    rw [if_neg h8] at h
    by_cases h9 : b = '9'.toNat
    · rw [if_pos h9] at h; cases h; exact h9
    rw [if_neg h9] at h
    by_cases hT : b = 'T'.toNat
    · rw [if_pos hT] at h; cases h; exact hT
    rw [if_neg hT] at h
    by_cases hJ : b = 'J'.toNat
    · rw [if_pos hJ] at h; cases h; exact hJ
    rw [if_neg hJ] at h
    by_cases hQ : b = 'Q'.toNat
    · rw [if_pos hQ] at h; cases h; exact hQ
    rw [if_neg hQ] at h
    by_cases hK : b = 'K'.toNat
    · rw [if_pos hK] at h; cases h; exact hK
    rw [if_neg hK] at h
    by_cases hA : b = 'A'.toNat
    · rw [if_pos hA] at h; cases h; exact hA
    rw [if_neg hA] at h
    cases h
  · intro h
    subst h
    cases rank <;> rfl

theorem suit_symbol_lt (suit : Suit) : suit.symbol.toNat < 128 := by
  cases suit <;> decide

theorem rank_symbol_lt (rank : Rank) : rank.symbol.toNat < 128 := by
  cases rank <;> decide

theorem char_eq_of_toNat {c d : Char} (h : c.toNat = d.toNat) : c = d := by
  rw [← Char.ofNat_toNat c, ← Char.ofNat_toNat d, h]

theorem utf8Bytes_length_pos (c : Char) : 1 ≤ (utf8Bytes c).length := by
  rcases utf8Bytes_cases c with ⟨-, h⟩ | ⟨-, b, b', rest, h, -⟩ <;> rw [h] <;> simp

/-- A string of two bytes is made of two characters of one byte each, or of one character of
two bytes, whose first byte is not below 192. -/
theorem goBytes_two (s : String) (b0 b1 : Nat) (hb : goBytes s = [b0, b1]) :
    (∃ c0 c1, s.data = [c0, c1] ∧ c0.toNat = b0 ∧ c1.toNat = b1 ∧ b0 < 128 ∧ b1 < 128)
      ∨ (∃ c, s.data = [c] ∧ 128 ≤ c.toNat ∧ 192 ≤ b0) := by
  unfold goBytes at hb
  match hd : s.data with
  | [] => simp [hd] at hb
  | [c] =>
    rw [hd] at hb
    simp only [List.flatMap_cons, List.flatMap_nil, List.append_nil] at hb
    rcases utf8Bytes_cases c with ⟨-, h⟩ | ⟨h128, b, b', rest, h, h192⟩
    · rw [h] at hb
      simp at hb
    · rw [h] at hb
      simp only [List.cons.injEq] at hb
      exact Or.inr ⟨c, rfl, h128, by omega⟩
  | [c0, c1] =>
    rw [hd] at hb
    simp only [List.flatMap_cons, List.flatMap_nil, List.append_nil] at hb
    rcases utf8Bytes_cases c0 with ⟨h0lt, h0⟩ | ⟨-, b, b', rest, h0, -⟩
    · rcases utf8Bytes_cases c1 with ⟨h1lt, h1⟩ | ⟨-, b, b', rest, h1, -⟩
      · rw [h0, h1] at hb
        simp only [List.singleton_append, List.cons.injEq, and_true] at hb
        exact Or.inl ⟨c0, c1, rfl, hb.1, hb.2, by omega, by omega⟩
      · rw [h0, h1] at hb
        simp at hb
    · have hlen := congrArg List.length hb
      have := utf8Bytes_length_pos c1
      rw [h0] at hlen
      simp only [List.length_append, List.length_cons, List.length_nil] at hlen
      omega
  | c0 :: c1 :: c2 :: rest =>
    rw [hd] at hb
    have hlen := congrArg List.length hb
    have h0 := utf8Bytes_length_pos c0
    have h1 := utf8Bytes_length_pos c1
    have h2 := utf8Bytes_length_pos c2
    simp only [List.flatMap_cons, List.length_append, List.length_cons, List.length_nil] at hlen
    omega

/-- The four outcomes of `NewCard`. -/
theorem NewCard_cases (s : String) :
    ((goBytes s).length ≠ 2 ∧ NewCard s = .error (.invalidCardFormat s))
      ∨ (∃ b0 b1, goBytes s = [b0, b1] ∧ suitOfByte b0 = none
          ∧ NewCard s = .error (.invalidSuit b0))
      ∨ (∃ b0 b1 suit, goBytes s = [b0, b1] ∧ suitOfByte b0 = some suit
          ∧ rankOfByte b1 = none ∧ NewCard s = .error (.invalidRank b1))
      ∨ (∃ b0 b1 suit rank, goBytes s = [b0, b1] ∧ suitOfByte b0 = some suit
          ∧ rankOfByte b1 = some rank ∧ NewCard s = .ok { Suit := suit, Rank := rank }) := by
  match hb : goBytes s with
  | [] => exact Or.inl ⟨by simp, by simp [NewCard, hb]⟩
  | [_] => exact Or.inl ⟨by simp, by simp [NewCard, hb]⟩
  | _ :: _ :: _ :: _ => exact Or.inl ⟨by simp, by simp [NewCard, hb]⟩
  | [b0, b1] =>
    right
    cases hs : suitOfByte b0 with
    | none => exact Or.inl ⟨b0, b1, rfl, hs, by simp [NewCard, hb, hs]⟩
    | some suit =>
      right
      cases hr : rankOfByte b1 with
      | none => exact Or.inl ⟨b0, b1, suit, rfl, hs, hr, by simp [NewCard, hb, hs, hr]⟩
      | some rank =>
        exact Or.inr ⟨b0, b1, suit, rank, rfl, hs, hr, by simp [NewCard, hb, hs, hr]⟩
theorem head_suit_iff (s : String) (b0 b1 : Nat) (hb : goBytes s = [b0, b1]) (suit : Suit) :
    suitOfByte b0 = some suit ↔ s.data.head? = some suit.symbol := by
  rw [suitOfByte_iff]
  have hlt := suit_symbol_lt suit
  rcases goBytes_two s b0 b1 hb with ⟨c0, c1, hd, h0, -, -, -⟩ | ⟨c, hd, h128, h192⟩
  · rw [hd]
    simp only [List.head?_cons, Option.some.injEq]
    constructor
    · intro h
      exact char_eq_of_toNat (by rw [h0, h])
    · intro h
      rw [← h0, h]
  · rw [hd]
    simp only [List.head?_cons, Option.some.injEq]
    constructor
    · intro h
      omega
    · intro h
      rw [h] at h128
      omega

theorem second_rank_iff (s : String) (b0 b1 : Nat) (hb : goBytes s = [b0, b1]) (suit : Suit)
    (hs : suitOfByte b0 = some suit) (rank : Rank) :
    rankOfByte b1 = some rank ↔ s.data[1]? = some rank.symbol := by
  rw [rankOfByte_iff]
  have hlt := suit_symbol_lt suit
  rw [suitOfByte_iff] at hs
  rcases goBytes_two s b0 b1 hb with ⟨c0, c1, hd, -, h1, -, -⟩ | ⟨c, hd, h128, h192⟩
  · rw [hd]
    simp only [List.getElem?_cons_succ, List.getElem?_cons_zero, Option.some.injEq]
    constructor
    · intro h
      exact char_eq_of_toNat (by rw [h1, h])
    · intro h
      rw [← h1, h]
  · omega

theorem exists_of_length_two {α : Type} (l : List α) (h : l.length = 2) :
    ∃ a b, l = [a, b] := by
  match l, h with
  | [a, b], _ => exact ⟨a, b, rfl⟩

theorem Card_String_data (c : Card) : c.String.data = [c.Suit.symbol, c.Rank.symbol] := by
  obtain ⟨suit, rank⟩ := c
  cases suit <;> cases rank <;> rfl

theorem goBytes_symbols (s : String) (suit : Suit) (rank : Rank)
    (hd : s.data = [suit.symbol, rank.symbol]) :
    goBytes s = [suit.symbol.toNat, rank.symbol.toNat] := by
  unfold goBytes
  rw [hd]
  rcases utf8Bytes_cases suit.symbol with ⟨-, h0⟩ | ⟨h0, -⟩
  · rcases utf8Bytes_cases rank.symbol with ⟨-, h1⟩ | ⟨h1, -⟩
    · simp [h0, h1]
    · have := rank_symbol_lt rank
      omega
  · have := suit_symbol_lt suit
    omega

/-- The tokens that `NewCard` accepts: a suit symbol followed by a rank symbol. -/
theorem NewCard_ok_iff (s : String) (c : Card) :
    NewCard s = .ok c ↔ s.data = [c.Suit.symbol, c.Rank.symbol] := by
  constructor
  · intro hok
    rcases NewCard_cases s with ⟨-, h⟩ | ⟨b0, b1, -, -, h⟩ | ⟨b0, b1, suit, -, -, -, h⟩
        | ⟨b0, b1, suit, rank, hb, hs, hr, h⟩
    · rw [h] at hok
      cases hok
    · rw [h] at hok
      cases hok
    · rw [h] at hok
      cases hok
    · rw [h] at hok
      cases hok
      have h0 := (head_suit_iff s b0 b1 hb suit).mp hs
      have h1 := (second_rank_iff s b0 b1 hb suit hs rank).mp hr
      rcases goBytes_two s b0 b1 hb with ⟨c0, c1, hd, -, -, -, -⟩ | ⟨c, hd, -, -⟩
      · rw [hd] at h0 h1 ⊢
        simp only [List.head?_cons, Option.some.injEq, List.getElem?_cons_succ,
          List.getElem?_cons_zero] at h0 h1
        rw [h0, h1]
      · rw [hd] at h1
        simp at h1
  · intro hd
    have hb := goBytes_symbols s c.Suit c.Rank hd
    have hs := (suitOfByte_iff c.Suit.symbol.toNat c.Suit).mpr rfl
    have hr := (rankOfByte_iff c.Rank.symbol.toNat c.Rank).mpr rfl
    simp [NewCard, hb, hs, hr]
theorem goBytes_length_ascii (l : List Char) (h : ∀ ch ∈ l, ch.toNat < 128) :
    (l.flatMap utf8Bytes).length = l.length := by
  induction l with
  | nil => rfl
  | cons c l ih =>
    rcases utf8Bytes_cases c with ⟨-, hc⟩ | ⟨hc, -⟩
    · simp only [List.flatMap_cons, hc, List.length_append, List.length_cons, List.length_nil,
        ih (fun ch hch => h ch (List.mem_cons_of_mem c hch))]
      omega
    · have := h c (List.mem_cons_self c l)
      omega
theorem Card_String_injective : Function.Injective Card.String := by
  intro c c' hcc
  have hc := (NewCard_ok_iff c.String c).mpr (Card_String_data c)
  rw [hcc, (NewCard_ok_iff c'.String c').mpr (Card_String_data c')] at hc
  cases hc
  rfl

/-- The loop of `NewHand` on tokens that all parse: it returns the cards read so far followed
by the parsed cards when no parsed card was read before or comes twice, and the error about a
duplicate card otherwise. -/
theorem NewHandLoop_spec (parts : List String) (cs : List Card)
    (hparse : List.Forall₂ (fun p c => NewCard p = .ok c) parts cs) (acc : List Card)
    (seen : List String) (hseen : ∀ k, k ∈ seen ↔ ∃ c ∈ acc, c.String = k) :
    (((∀ c ∈ cs, c ∉ acc) ∧ cs.Nodup) → NewHandLoop parts acc seen = .ok { Cards := acc ++ cs })
      ∧ (¬ ((∀ c ∈ cs, c ∉ acc) ∧ cs.Nodup)
          → ∃ c ∈ cs, NewHandLoop parts acc seen = .error (.duplicateCard c.String)) := by
  induction hparse generalizing acc seen with
  | nil =>
    refine ⟨fun _ => by simp [NewHandLoop], fun hn => absurd ⟨by simp, List.nodup_nil⟩ hn⟩
  | @cons p c parts cs hp _ ih =>
    have hmem : c.String ∈ seen ↔ c ∈ acc := by
      rw [hseen]
      constructor
      · rintro ⟨c', hc', he⟩
        rw [← Card_String_injective he]
        exact hc'
      · intro hc
        exact ⟨c, hc, rfl⟩
    by_cases hin : c ∈ acc
    · have hcont : seen.contains c.String = true := by
        simpa using hmem.mpr hin
      have hrun : NewHandLoop (p :: parts) acc seen = .error (.duplicateCard c.String) := by
        simp only [NewHandLoop, hp, hcont, if_true]
      refine ⟨fun hok => absurd hin (hok.1 c (List.mem_cons_self c cs)), fun _ => ?_⟩
      exact ⟨c, List.mem_cons_self c cs, hrun⟩
    · have hcont : seen.contains c.String = false := by
        rw [Bool.eq_false_iff]
        intro ht
        exact hin (hmem.mp (by simpa using ht))
      have hrun : NewHandLoop (p :: parts) acc seen
          = NewHandLoop parts (acc ++ [c]) (c.String :: seen) := by
        simp only [NewHandLoop, hp, hcont, Bool.false_eq_true, if_false]
      have hseen' : ∀ k, k ∈ c.String :: seen ↔ ∃ c' ∈ acc ++ [c], c'.String = k := by
        intro k
        simp only [List.mem_cons, List.mem_append, List.not_mem_nil, or_false, hseen]
        constructor
        · rintro (rfl | ⟨c', hc', he⟩)
          · exact ⟨c, Or.inr rfl, rfl⟩
          · exact ⟨c', Or.inl hc', he⟩
        · rintro ⟨c', hc' | rfl, he⟩
          · exact Or.inr ⟨c', hc', he⟩
          · exact Or.inl he.symm
      obtain ⟨ih1, ih2⟩ := ih (acc ++ [c]) (c.String :: seen) hseen'
      have hequiv : ((∀ x ∈ c :: cs, x ∉ acc) ∧ (c :: cs).Nodup)
          ↔ ((∀ x ∈ cs, x ∉ acc ++ [c]) ∧ cs.Nodup) := by
        simp only [List.mem_cons, forall_eq_or_imp, List.nodup_cons, List.mem_append,
          List.not_mem_nil, or_false, not_or]
        constructor
        · rintro ⟨⟨-, h1⟩, h2, h3⟩
          exact ⟨fun x hx => ⟨h1 x hx, fun e => h2 (e ▸ hx)⟩, h3⟩
        · rintro ⟨h1, h3⟩
          exact ⟨⟨hin, fun x hx => (h1 x hx).1⟩, fun hc => (h1 c hc).2 rfl, h3⟩
      rw [hrun]
      constructor
      · intro hok
        rw [ih1 (hequiv.mp hok)]
        simp
      · intro hn
        obtain ⟨x, hx, hxe⟩ := ih2 (fun h => hn (hequiv.mpr h))
        exact ⟨x, List.mem_cons_of_mem c hx, hxe⟩
theorem sortDescending_length (l : List Rank) : (sortDescending l).length = l.length :=
  (sortDescending_perm l).length_eq

theorem shapeResult_length (s : Shape) (flush straight : Bool) (high : Rank) :
    (shapeResult s flush straight high).2.length
      = kickerLength (shapeResult s flush straight high).1 := by
  unfold shapeResult
  cases s <;> cases flush <;> cases straight <;>
    simp [kickerLength, sortDescending_length, Shape.ranks] <;> split_ifs <;> simp [kickerLength]

theorem shapeResult_all_ranks (s : Shape) (flush straight : Bool) (high : Rank)
    (hv : (shapeResult s flush straight high).1 = Flush
      ∨ (shapeResult s flush straight high).1 = HighCard) :
    (shapeResult s flush straight high).2 = sortDescending s.ranks := by
  unfold shapeResult at hv ⊢
  cases s <;> cases flush <;> cases straight <;> simp at hv ⊢ <;> split_ifs at hv <;> simp at hv

theorem evaluateFive_length (h : Hand) (hlen : h.Cards.length = 5) (v : HandVal)
    (ks : List Rank) (hev : evaluateFive h = some (v, ks)) : ks.length = kickerLength v := by
  obtain ⟨s, hs, hp⟩ := shape_exists h.ranks (by rw [ranks_length, hlen])
  obtain ⟨st, hi, hst, -, -⟩ := isStraight_five h hlen
  rw [evaluateFive_shape h hlen s hs hp st hi hst] at hev
  have hl := shapeResult_length s (decide (SameSuit h)) st hi
  simp only [Option.some.injEq] at hev
  rw [hev] at hl
  exact hl

theorem evaluateFive_all_ranks (h : Hand) (hlen : h.Cards.length = 5) (v : HandVal)
    (ks : List Rank) (hev : evaluateFive h = some (v, ks)) (hv : v = Flush ∨ v = HighCard) :
    ks = sortDescending h.ranks := by
  obtain ⟨s, hs, hp⟩ := shape_exists h.ranks (by rw [ranks_length, hlen])
  obtain ⟨st, hi, hst, -, -⟩ := isStraight_five h hlen
  rw [evaluateFive_shape h hlen s hs hp st hi hst] at hev
  simp only [Option.some.injEq] at hev
  have hl := shapeResult_all_ranks s (decide (SameSuit h)) st hi (by rw [hev]; exact hv)
  rw [hev] at hl
  rw [sortDescending_congr hp]
  exact hl

theorem Evaluate_length (h : Hand) (hlen : h.Cards.length = 5 ∨ h.Cards.length = 7)
    (v : HandVal) (ks : List Rank) (hev : Evaluate h = some (v, ks)) :
    ks.length = kickerLength v := by
  rcases hlen with h5 | h7
  · rw [Evaluate, if_pos h5] at hev
    exact evaluateFive_length h h5 v ks hev
  · rw [Evaluate, if_neg (by omega), if_pos h7] at hev
    obtain ⟨r, hr, ⟨s, hs, hsr⟩, -⟩ := findBestFive_spec h h7
    rw [hr] at hev
    cases hev
    exact evaluateFive_length { Cards := s } (List.mem_sublistsLen.mp hs).2 _ _ hsr
theorem sortAscending_congr {l s : List Rank} (hp : l.Perm s) :
    sortAscending l = sortAscending s :=
  sortAscending_eq (hp.trans (sortAscending_perm s).symm) (sortAscending_sorted s)

theorem ranks_perm {h h' : Hand} (hp : h.Cards.Perm h'.Cards) : h.ranks.Perm h'.ranks :=
  hp.map Card.Rank

theorem sameSuit_perm {h h' : Hand} (hp : h.Cards.Perm h'.Cards) :
    SameSuit h ↔ SameSuit h' := by
  unfold SameSuit
  constructor
  · intro hs c hc c' hc'
    exact hs c (hp.mem_iff.mpr hc) c' (hp.mem_iff.mpr hc')
  · intro hs c hc c' hc'
    exact hs c (hp.mem_iff.mp hc) c' (hp.mem_iff.mp hc')

theorem isStraight_perm {h h' : Hand} (hp : h.Cards.Perm h'.Cards) :
    isStraight h = isStraight h' := by
  unfold isStraight
  rw [sortAscending_congr (ranks_perm hp)]

/-- The evaluation of five cards does not depend on their order. -/
theorem evaluateFive_perm {h h' : Hand} (hlen : h.Cards.length = 5)
    (hp : h.Cards.Perm h'.Cards) : evaluateFive h = evaluateFive h' := by
  have hlen' : h'.Cards.length = 5 := hp.length_eq ▸ hlen
  obtain ⟨s, hs, hps⟩ := shape_exists h.ranks (by rw [ranks_length, hlen])
  obtain ⟨st, hi, hst, -, -⟩ := isStraight_five h hlen
  rw [evaluateFive_shape h hlen s hs hps st hi hst,
    evaluateFive_shape h' hlen' s hs ((ranks_perm hp).symm.trans hps) st hi
      (isStraight_perm hp ▸ hst)]
  have hd : decide (SameSuit h) = decide (SameSuit h') := by
    simp only [decide_eq_decide]
    exact sameSuit_perm hp
  rw [hd]

theorem notBetter_antisymm {a b : HandVal × List Rank} (hab : notBetter a b)
    (hba : notBetter b a) : a = b := by
  rcases hab with hab | ⟨hab1, hab2⟩
  · rcases hba with hba | ⟨hba1, _⟩
    · omega
    · rw [hba1] at hab
      omega
  · rcases hba with hba | ⟨_, hba2⟩
    · rw [hab1] at hba
      omega
    · have hanti := compareKickers_antisymm a.2 b.2
      exact Prod.ext hab1 (compareKickers_eq_zero (by omega))

/-- The best of the sublists of five cards does not depend on the order of the seven. -/
theorem findBestFive_perm {h h' : Hand} (hlen : h.Cards.length = 7)
    (hp : h.Cards.Perm h'.Cards) : findBestFive h = findBestFive h' := by
  have hlen' : h'.Cards.length = 7 := hp.length_eq ▸ hlen
  obtain ⟨r, hr, ⟨s, hs, hsr⟩, hbest⟩ := findBestFive_spec h hlen
  obtain ⟨r', hr', ⟨s', hs', hsr'⟩, hbest'⟩ := findBestFive_spec h' hlen'
  have move : ∀ {l l' : List Card}, l.Perm l' → ∀ t ∈ List.sublistsLen 5 l,
      ∃ t' ∈ List.sublistsLen 5 l', t.Perm t' := by
    intro l l' hll t ht
    obtain ⟨hsub, htl⟩ := List.mem_sublistsLen.mp ht
    obtain ⟨t', ht', hsub'⟩ := (hsub.subperm.trans hll.subperm)
    exact ⟨t', List.mem_sublistsLen.mpr ⟨hsub', ht'.length_eq.trans htl⟩, ht'.symm⟩
  have h1 : notBetter r r' := by
    obtain ⟨t', ht', hperm⟩ := move hp s hs
    obtain ⟨c, hc, hcr⟩ := hbest' t' ht'
    have hl : s.length = 5 := (List.mem_sublistsLen.mp hs).2
    have heq : evaluateFive { Cards := s } = evaluateFive { Cards := t' } :=
      evaluateFive_perm hl hperm
    rw [hsr, hc] at heq
    cases heq
    exact hcr
  have h2 : notBetter r' r := by
    obtain ⟨t, ht, hperm⟩ := move hp.symm s' hs'
    obtain ⟨c, hc, hcr⟩ := hbest t ht
    have hl : s'.length = 5 := (List.mem_sublistsLen.mp hs').2
    have heq : evaluateFive { Cards := s' } = evaluateFive { Cards := t } :=
      evaluateFive_perm hl hperm
    rw [hsr', hc] at heq
    cases heq
    exact hcr
  rw [hr, hr', notBetter_antisymm h1 h2]

/-- Method `Evaluate` does not depend on the order of the cards. -/
theorem Evaluate_perm {h h' : Hand} (hp : h.Cards.Perm h'.Cards) :
    Evaluate h = Evaluate h' := by
  unfold Evaluate
  rw [← hp.length_eq]
  split_ifs with h5 h7
  · exact evaluateFive_perm h5 hp
  · exact findBestFive_perm h7 hp
  · rfl
/-- The index reads of `evaluateFive` on five cards are in range: `Cards[0]` in `isFlush`,
`ranks[0..4]` in `isStraight`, `counts[0]` in `evaluateFive`; and a result is returned. -/
theorem evaluateFive_reads (h : Hand) (hlen : h.Cards.length = 5) :
    (∃ flush, isFlush h = some flush)
      ∧ (∃ st hi, isStraight h = some (st, hi))
      ∧ (∃ c0, (sortedCounts (getRankCounts h))[0]? = some c0)
      ∧ ∃ v ks, evaluateFive h = some (v, ks) := by
  have hne : h.Cards ≠ [] := by
    intro h0
    rw [h0] at hlen
    cases hlen
  obtain ⟨st, hi, hst, -, -⟩ := isStraight_five h hlen
  refine ⟨⟨_, isFlush_eq h hne⟩, ⟨st, hi, hst⟩, ?_, evaluateFive_isSome h hlen⟩
  obtain ⟨s, hs, hp⟩ := shape_exists h.ranks (by rw [ranks_length, hlen])
  rw [getRankCounts_eq, sortedCounts_countMap, rankCountsDescending_perm hp,
    rankCountsDescending_shape s hs]
  cases s <;> exact ⟨_, rfl⟩

theorem allCombinations_bounds :
    ∀ indices ∈ allCombinations, indices.length = 5 ∧ ∀ idx ∈ indices, idx < 7 := by
  decide
theorem combinationsFrom_mono (fuel extra : Nat) (indices : List Nat) (L : List (List Nat))
    (hL : combinationsFrom fuel indices = some L) :
    combinationsFrom (fuel + extra) indices = some L := by
  induction fuel generalizing indices L with
  | zero => simp [combinationsFrom] at hL
  | succ fuel ih =>
    rw [Nat.add_right_comm]
    simp only [combinationsFrom] at hL ⊢
    cases hn : nextCombination 7 5 indices with
    | none =>
      rw [hn] at hL
      exact hL
    | some next =>
      rw [hn] at hL
      simp only [Option.map_eq_some'] at hL ⊢
      obtain ⟨L', hL', rfl⟩ := hL
      exact ⟨L', ih next L' hL', rfl⟩

theorem sublistsLen_range : List.sublistsLen 5 (List.range 7) = allCombinations.reverse := by
  decide

theorem mem_allCombinations (indices : List Nat) :
    indices ∈ allCombinations
      ↔ indices.length = 5 ∧ indices.Sorted (fun a b => a < b) ∧ ∀ idx ∈ indices, idx < 7 := by
  constructor
  · intro hi
    have hmem : indices ∈ List.sublistsLen 5 (List.range 7) := by
      rw [sublistsLen_range]
      exact List.mem_reverse.mpr hi
    obtain ⟨hsub, hlen⟩ := List.mem_sublistsLen.mp hmem
    exact ⟨hlen, (List.sorted_lt_range 7).sublist hsub,
      fun idx hidx => List.mem_range.mp (hsub.subset hidx)⟩
  · rintro ⟨hlen, hsorted, hlt⟩
    have hsub : indices.Sublist (List.range 7) := by
      apply List.sublist_of_subperm_of_sorted _ hsorted (List.sorted_lt_range 7)
      exact List.subperm_of_subset hsorted.nodup fun idx hidx => List.mem_range.mpr (hlt idx hidx)
    have hmem : indices ∈ List.sublistsLen 5 (List.range 7) :=
      List.mem_sublistsLen.mpr ⟨hsub, hlen⟩
    rw [sublistsLen_range] at hmem
    exact List.mem_reverse.mp hmem

/-! ## The claims -/

/-- C1 (the code departs from the claim): on five different cards with two pairs, of ranks
`p` above `q`, and a fifth card of rank `k`, `Evaluate` returns `TwoPair` with the five
kickers `[p, q, p, q, k]`: both pair ranks come twice, not once. -/
theorem C1_two_pair_kickers (h : Hand) (hlen : h.Cards.length = 5) (hnd : h.Cards.Nodup)
    (p q k : Rank) (hpq : q.toNat < p.toNat) (hkp : k ≠ p) (hkq : k ≠ q)
    (hp : h.ranks.Perm [p, p, q, q, k]) :
    Evaluate h = some (TwoPair, [p, q, p, q, k]) := by
  have hev := evaluateFive_distinct h hlen hnd (.twoPair p q k) ⟨hpq, hkp, hkq⟩ hp
  simp only [Evaluate, hlen, if_true]
  exact hev

/-- C1, at the hand K K 8 8 2 of the claim: the kickers are `[King, Eight, King, Eight, Two]`
and not `[King, Eight, Two]`. -/
theorem C1_two_pair_kickers_witness :
    NewHand "HK SK H8 S8 H2" = .ok exTwoPair
      ∧ Evaluate exTwoPair ≠ some (TwoPair, [King, Eight, Two])
      ∧ Evaluate exTwoPair = some (TwoPair, [King, Eight, King, Eight, Two]) :=
  ⟨by rfl, by decide,
    C1_two_pair_kickers exTwoPair rfl (by decide) King Eight Two (by decide) (by decide)
      (by decide) (List.Perm.refl _)⟩

/-- C2 (as amended): `NewHand` returns the hand-size error exactly when the number of fields
is below 5 or above 7.  A hand that `NewHand` returns has one card per field, so 5, 6 or 7
cards; on a returned hand of 5 or 7 cards `Evaluate` does not take its fallback branch: it
is `evaluateFive` on 5 cards and `findBestFive` on 7, and it returns kickers.  What
`Evaluate` does on a returned hand of 6 cards is left out. -/
theorem C2_hand_sizes (s : String) :
    (((Fields s).length < 5 ∨ 7 < (Fields s).length)
        ↔ NewHand s = .error (.handSize (Fields s).length))
      ∧ (∀ n, NewHand s = .error (.handSize n)
          → n = (Fields s).length ∧ (n < 5 ∨ 7 < n))
      ∧ ∀ h, NewHand s = .ok h →
          h.Cards.length = (Fields s).length
            ∧ (h.Cards.length = 5 ∨ h.Cards.length = 6 ∨ h.Cards.length = 7)
            ∧ (h.Cards.length = 5 → Evaluate h = evaluateFive h)
            ∧ (h.Cards.length = 7 → Evaluate h = findBestFive h)
            ∧ (h.Cards.length = 5 ∨ h.Cards.length = 7 →
                ∃ v ks, Evaluate h = some (v, ks) ∧ ks ≠ []) := by
  by_cases hsize : (Fields s).length < 5 ∨ (Fields s).length > 7
  · have hnew : NewHand s = .error (.handSize (Fields s).length) := by
      simp only [NewHand]
      rw [if_pos hsize]
    refine ⟨⟨fun _ => hnew, fun _ => hsize⟩, ?_, ?_⟩
    · intro n hn
      rw [hnew] at hn
      simp only [Except.error.injEq, PokerError.handSize.injEq] at hn
      subst hn
      exact ⟨rfl, hsize⟩
    · intro h hok
      rw [hnew] at hok
      simp at hok
  · have hnew : NewHand s = NewHandLoop (Fields s) [] [] := by
      simp only [NewHand]
      rw [if_neg hsize]
    refine ⟨⟨fun hlt => absurd hlt hsize, fun he => ?_⟩, ?_, ?_⟩
    · rw [hnew] at he
      exact absurd he (NewHandLoop_not_handSize _ _ _ _)
    · intro n hn
      rw [hnew] at hn
      exact absurd hn (NewHandLoop_not_handSize _ _ _ _)
    · intro h hok
      rw [hnew] at hok
      have hl := NewHandLoop_length _ _ _ h hok
      simp only [List.length_nil, Nat.zero_add] at hl
      refine ⟨hl, by omega, ?_, ?_, ?_⟩
      · intro h5
        simp [Evaluate, h5]
      · intro h7
        simp [Evaluate, h7]
      · intro h57
        exact Evaluate_kickers_ne h h57

/-- C2, the claim as stated fails: the six fields of "H2 SQ C2 D2 CQ HK" are accepted, the
hand has six cards and `Evaluate` takes its fallback branch on it. -/
theorem C2_six_cards_accepted :
    (Fields "H2 SQ C2 D2 CQ HK").length = 6
      ∧ NewHand "H2 SQ C2 D2 CQ HK" = .ok exSixCards
      ∧ exSixCards.Cards.length = 6
      ∧ Evaluate exSixCards = some (HighCard, []) := by
  refine ⟨by decide, by rfl, by decide, by decide⟩

/-- C3: on a hand of 7 cards `Evaluate` returns a result that is the `evaluateFive` result of
one of the 21 five-card sublists of the hand, and that is greater than or equal to the
`evaluateFive` result of every one of them, by category first and by `compareKickers` on
equal categories. -/
theorem C3_best_of_subsets (h : Hand) (hlen : h.Cards.length = 7) :
    (List.sublistsLen 5 h.Cards).length = 21
      ∧ ∃ v ks, Evaluate h = some (v, ks)
        ∧ (∃ s ∈ List.sublistsLen 5 h.Cards, evaluateFive { Cards := s } = some (v, ks))
        ∧ (∀ s ∈ List.sublistsLen 5 h.Cards, ∃ v' ks',
            evaluateFive { Cards := s } = some (v', ks')
              ∧ (v'.toNat < v.toNat ∨ (v' = v ∧ 0 ≤ compareKickers ks ks'))) := by
  refine ⟨by simp [List.length_sublistsLen, hlen, Nat.choose], ?_⟩
  obtain ⟨r, hr, hmem, hge⟩ := findBestFive_spec h hlen
  refine ⟨r.1, r.2, ?_, hmem, ?_⟩
  · simp [Evaluate, hlen, hr]
  · intro s hs
    obtain ⟨c, hc, hle⟩ := hge s hs
    refine ⟨c.1, c.2, hc, ?_⟩
    rcases hle with hle | ⟨hle1, hle2⟩
    · exact Or.inl hle
    · refine Or.inr ⟨hle1, ?_⟩
      have hanti := compareKickers_antisymm r.2 c.2
      omega

/-- C3, at the hands of `TestFindBestFive`: "H2 H5 H7 H9 HK S3 C4" evaluates to a flush and
"H2 S2 C2 D2 HK S3 C4" to four of a kind. -/
theorem C3_best_of_subsets_witness :
    Evaluate exSevenFlush = some (Flush, [King, Nine, Seven, Five, Two])
      ∧ Evaluate exSevenQuads = some (FourOfAKind, [Two, King])
      ∧ ((List.sublistsLen 5 exSevenFlush.Cards).length = 21
        ∧ ∃ v ks, Evaluate exSevenFlush = some (v, ks)
          ∧ (∃ s ∈ List.sublistsLen 5 exSevenFlush.Cards,
              evaluateFive { Cards := s } = some (v, ks))
          ∧ (∀ s ∈ List.sublistsLen 5 exSevenFlush.Cards, ∃ v' ks',
              evaluateFive { Cards := s } = some (v', ks')
                ∧ (v'.toNat < v.toNat ∨ (v' = v ∧ 0 ≤ compareKickers ks ks')))) :=
  ⟨by decide, by decide, C3_best_of_subsets exSevenFlush rfl⟩

/-- C4: comparing in the other direction negates the result, and a hand ties with itself.
`Compare` returns on every pair of hands, whatever their sizes. -/
theorem C4_compare_antisymmetric (a b : Hand) :
    (∃ x, Compare a b = some x ∧ Compare b a = some (-x)) ∧ Compare a a = some 0 := by
  obtain ⟨va, ka, ha⟩ := Evaluate_isSome a
  obtain ⟨vb, kb, hb⟩ := Evaluate_isSome b
  constructor
  · by_cases h1 : va.toNat > vb.toNat
    · have h2 : ¬ vb.toNat > va.toNat := by omega
      have h3 : vb.toNat < va.toNat := by omega
      exact ⟨1, by simp [Compare, ha, hb, h1], by simp [Compare, ha, hb, h2, h3]⟩
    · by_cases h2 : va.toNat < vb.toNat
      · have h3 : vb.toNat > va.toNat := by omega
        exact ⟨-1, by simp [Compare, ha, hb, h1, h2], by simp [Compare, ha, hb, h3]⟩
      · have h3 : ¬ vb.toNat > va.toNat := by omega
        have h4 : ¬ vb.toNat < va.toNat := by omega
        refine ⟨compareKickers ka kb, by simp [Compare, ha, hb, h1, h2], ?_⟩
        simp only [Compare, ha, hb, Option.bind_eq_bind, Option.some_bind, h3, h4, if_false,
          Option.some.injEq]
        have hanti := compareKickers_antisymm ka kb
        omega
  · simp [Compare, ha, compareKickers_self]

/-- C5: a hand whose ranks are Ace, Two, Three, Four and Five in any order evaluates to
`Straight` with the kickers `[Five]` when its cards are not all of one suit, and to
`StraightFlush` with the kickers `[Five]` when they are. -/
theorem C5_wheel (h : Hand) (hp : h.ranks.Perm [Ace, Two, Three, Four, Five]) :
    (¬ SameSuit h → Evaluate h = some (Straight, [Five]))
      ∧ (SameSuit h → Evaluate h = some (StraightFlush, [Five])) := by
  have hlen : h.Cards.length = 5 := by
    rw [← ranks_length, hp.length_eq]
    rfl
  have hp' : h.ranks.Perm [Ace, Five, Four, Three, Two] :=
    hp.trans (by decide)
  have hsort : sortDescending h.ranks = [Ace, Five, Four, Three, Two] := by
    apply sortDescending_eq hp'
    simp [List.Sorted, rankGe, Rank.toNat]
  have hst : isStraight h = some (true, Five) := by
    rw [isStraight_sorted h _ _ _ _ _ hsort]
    rfl
  have hev := evaluateFive_shape h hlen (.noPair Ace Five Four Three Two)
    (by simp [Shape.WF, rankGt, Rank.toNat]) hp' true Five hst
  constructor
  · intro hns
    simp only [Evaluate, hlen, if_true, hev]
    simp [shapeResult, hns]
  · intro hs
    simp only [Evaluate, hlen, if_true, hev]
    simp [shapeResult, hs]

/-- C5, at the hand "H4 S5 HA D3 H2" of the tests. -/
theorem C5_wheel_witness :
    ¬ SameSuit exWheel
      ∧ Evaluate exWheel = some (Straight, [Five])
      ∧ ((¬ SameSuit exWheel → Evaluate exWheel = some (Straight, [Five]))
        ∧ (SameSuit exWheel → Evaluate exWheel = some (StraightFlush, [Five]))) :=
  ⟨by decide, by decide, C5_wheel exWheel (by decide)⟩

/-- C6: a five-card hand that is both a flush and a straight evaluates to `RoyalFlush` with
the kickers `[Ace]` when the high rank of the straight is Ace, and to `StraightFlush` with
the high rank as only kicker otherwise (so never to `Flush` or `Straight`); and a five-card
hand that evaluates to `RoyalFlush` or `StraightFlush` is both a flush and a straight. -/
theorem C6_straight_flush (h : Hand) (hlen : h.Cards.length = 5) :
    (∀ hi, SameSuit h → IsStraightWithHigh h.ranks hi →
        Evaluate h = some (if hi = Ace then (RoyalFlush, [Ace]) else (StraightFlush, [hi]))
          ∧ ∀ ks, Evaluate h ≠ some (Flush, ks) ∧ Evaluate h ≠ some (Straight, ks))
      ∧ (∀ v ks, Evaluate h = some (v, ks) → (v = RoyalFlush ∨ v = StraightFlush) →
          SameSuit h ∧ ∃ hi, IsStraightWithHigh h.ranks hi) := by
  obtain ⟨s, hs, hp⟩ := shape_exists h.ranks (by rw [ranks_length, hlen])
  have hE : Evaluate h = evaluateFive h := by simp [Evaluate, hlen]
  constructor
  · intro hi hsame hstr
    have hst := (isStraight_iff h hlen hi).mpr hstr
    have hev := evaluateFive_shape h hlen s hs hp true hi hst
    have hd : decide (SameSuit h) = true := decide_eq_true hsame
    rw [hE, hev]
    simp only [shapeResult, hd, Bool.and_self, if_true]
    by_cases hA : hi = Ace <;> simp [hA]
  · intro v ks hev hv
    obtain ⟨st, hi, hst, -, -⟩ := isStraight_five h hlen
    rw [hE, evaluateFive_shape h hlen s hs hp st hi hst] at hev
    simp only [Option.some.injEq] at hev
    by_cases hsame : SameSuit h
    · cases st with
      | true => exact ⟨hsame, hi, (isStraight_iff h hlen hi).mp hst⟩
      | false =>
        exfalso
        have hd : decide (SameSuit h) = true := decide_eq_true hsame
        cases s <;> simp [shapeResult, hd] at hev <;> rcases hv with hv | hv <;>
          simp [hv] at hev
    · exfalso
      have hd : decide (SameSuit h) = false := decide_eq_false hsame
      cases s <;> cases st <;> simp [shapeResult, hd] at hev <;> rcases hv with hv | hv <;>
        simp [hv] at hev

/-- C6, at the hands "CT CJ CQ CK CA" and "D8 DQ DJ DT D9" of the tests. -/
theorem C6_straight_flush_witness :
    Evaluate exRoyalFlush = some (RoyalFlush, [Ace])
      ∧ Evaluate exStraightFlush = some (StraightFlush, [Queen])
      ∧ ((∀ hi, SameSuit exRoyalFlush → IsStraightWithHigh exRoyalFlush.ranks hi →
            Evaluate exRoyalFlush
                = some (if hi = Ace then (RoyalFlush, [Ace]) else (StraightFlush, [hi]))
              ∧ ∀ ks, Evaluate exRoyalFlush ≠ some (Flush, ks)
                ∧ Evaluate exRoyalFlush ≠ some (Straight, ks))
        ∧ (∀ v ks, Evaluate exRoyalFlush = some (v, ks) →
            (v = RoyalFlush ∨ v = StraightFlush) →
            SameSuit exRoyalFlush ∧ ∃ hi, IsStraightWithHigh exRoyalFlush.ranks hi)) :=
  ⟨by decide, by decide, C6_straight_flush exRoyalFlush rfl⟩

/-- C7: the category of five different cards that are not both a flush and a straight, read
off the rank counts (from the largest to the smallest) and the flush and straight flags:
`[4,1]` gives four of a kind, `[3,2]` a full house, then a flush gives `Flush`, then a
straight gives `Straight`, then `[3,1,1]` gives three of a kind, `[2,2,1]` two pairs,
`[2,1,1,1]` one pair and `[1,1,1,1,1]` a high card.  No other rank counts occur. -/
theorem C7_category_table (h : Hand) (hlen : h.Cards.length = 5) (hnd : h.Cards.Nodup)
    (hnot : ¬ (SameSuit h ∧ ∃ hi, IsStraightWithHigh h.ranks hi)) :
    ∃ v ks, Evaluate h = some (v, ks)
      ∧ rankCountsDescending h.ranks
          ∈ [[4, 1], [3, 2], [3, 1, 1], [2, 2, 1], [2, 1, 1, 1], [1, 1, 1, 1, 1]]
      ∧ (rankCountsDescending h.ranks = [4, 1] → v = FourOfAKind)
      ∧ (rankCountsDescending h.ranks = [3, 2] → v = FullHouse)
      ∧ (SameSuit h → v = Flush)
      ∧ (¬ SameSuit h → (∃ hi, IsStraightWithHigh h.ranks hi) → v = Straight)
      ∧ (rankCountsDescending h.ranks = [3, 1, 1] → v = ThreeOfAKind)
      ∧ (rankCountsDescending h.ranks = [2, 2, 1] → v = TwoPair)
      ∧ (rankCountsDescending h.ranks = [2, 1, 1, 1] → v = OnePair)
      ∧ (rankCountsDescending h.ranks = [1, 1, 1, 1, 1] → ¬ SameSuit h
          → ¬ (∃ hi, IsStraightWithHigh h.ranks hi) → v = HighCard) := by
  obtain ⟨s, hs, hp⟩ := shape_exists h.ranks (by rw [ranks_length, hlen])
  have hE : Evaluate h = evaluateFive h := by simp [Evaluate, hlen]
  have hcounts : rankCountsDescending h.ranks = s.counts := by
    rw [rankCountsDescending_perm hp, rankCountsDescending_shape s hs]
  have hd := evaluateFive_distinct h hlen hnd s hs hp
  have hflush : SameSuit h → s.ranks.Nodup := fun hsame =>
    hp.nodup_iff.mp (sameSuit_ranks_nodup h hsame hnd)
  have hstraight : (∃ hi, IsStraightWithHigh h.ranks hi) → s.ranks.Nodup := by
    rintro ⟨hi, hstr⟩
    obtain ⟨st, hi', hst, hst1, -⟩ := isStraight_five h hlen
    have := (isStraight_iff h hlen hi).mpr hstr
    rw [hst] at this
    simp only [Option.some.injEq, Prod.mk.injEq] at this
    exact hp.nodup_iff.mp (hst1 this.1)
  rw [hE, hcounts]
  cases s with
  | five x => exact absurd hd id
  | quads q k =>
    refine ⟨_, _, hd, by simp [Shape.counts], by simp, by simp [Shape.counts], ?_, ?_,
      by simp [Shape.counts], by simp [Shape.counts], by simp [Shape.counts],
      by simp [Shape.counts]⟩
    · intro hsame
      exact absurd (hflush hsame) (by simp [Shape.ranks])
    · intro _ hstr
      exact absurd (hstraight hstr) (by simp [Shape.ranks])
  | fullHouse t p =>
    refine ⟨_, _, hd, by simp [Shape.counts], by simp [Shape.counts], by simp, ?_, ?_,
      by simp [Shape.counts], by simp [Shape.counts], by simp [Shape.counts],
      by simp [Shape.counts]⟩
    · intro hsame
      exact absurd (hflush hsame) (by simp [Shape.ranks])
    · intro _ hstr
      exact absurd (hstraight hstr) (by simp [Shape.ranks])
  | trips t x y =>
    refine ⟨_, _, hd, by simp [Shape.counts], by simp [Shape.counts], by simp [Shape.counts],
      ?_, ?_, by simp, by simp [Shape.counts], by simp [Shape.counts],
      by simp [Shape.counts]⟩
    · intro hsame
      exact absurd (hflush hsame) (by simp [Shape.ranks])
    · intro _ hstr
      exact absurd (hstraight hstr) (by simp [Shape.ranks])
  | twoPair p q k =>
    refine ⟨_, _, hd, by simp [Shape.counts], by simp [Shape.counts], by simp [Shape.counts],
      ?_, ?_, by simp [Shape.counts], by simp, by simp [Shape.counts],
      by simp [Shape.counts]⟩
    · intro hsame
      exact absurd (hflush hsame) (by simp [Shape.ranks])
    · intro _ hstr
      exact absurd (hstraight hstr) (by simp [Shape.ranks])
  | pair p x y z =>
    refine ⟨_, _, hd, by simp [Shape.counts], by simp [Shape.counts], by simp [Shape.counts],
      ?_, ?_, by simp [Shape.counts], by simp [Shape.counts], by simp,
      by simp [Shape.counts]⟩
    · intro hsame
      exact absurd (hflush hsame) (by simp [Shape.ranks])
    · intro _ hstr
      exact absurd (hstraight hstr) (by simp [Shape.ranks])
  | noPair a b c d e =>
    obtain ⟨-, hst, hd⟩ := hd
    have hiff : (straightOfSorted a b c d e).1 = true
        ↔ ∃ hi, IsStraightWithHigh h.ranks hi := by
      constructor
      · intro ht
        exact ⟨(straightOfSorted a b c d e).2, (isStraight_iff h hlen _).mp
          (by rw [hst, ← ht])⟩
      · rintro ⟨hi, hstr⟩
        have := (isStraight_iff h hlen hi).mpr hstr
        rw [hst] at this
        simp only [Option.some.injEq] at this
        rw [this]
    by_cases hsame : SameSuit h
    · have hns : (straightOfSorted a b c d e).1 = false := by
        rw [Bool.eq_false_iff]
        exact fun ht => hnot ⟨hsame, hiff.mp ht⟩
      refine ⟨Flush, [a, b, c, d, e], ?_, by simp [Shape.counts], by simp [Shape.counts],
        by simp [Shape.counts], fun _ => rfl, fun hn => absurd hsame hn,
        by simp [Shape.counts], by simp [Shape.counts], by simp [Shape.counts],
        fun _ hn => absurd hsame hn⟩
      rw [hd]
      simp [hsame, hns]
    · by_cases hstr : (straightOfSorted a b c d e).1 = true
      · refine ⟨Straight, [(straightOfSorted a b c d e).2], ?_, by simp [Shape.counts],
          by simp [Shape.counts], by simp [Shape.counts], fun hs' => absurd hs' hsame,
          fun _ _ => rfl, by simp [Shape.counts], by simp [Shape.counts],
          by simp [Shape.counts], fun _ _ hn => absurd (hiff.mp hstr) hn⟩
        rw [hd]
        simp [hsame, hstr]
      · refine ⟨HighCard, [a, b, c, d, e], ?_, by simp [Shape.counts],
          by simp [Shape.counts], by simp [Shape.counts], fun hs' => absurd hs' hsame,
          fun _ hex => absurd (hiff.mpr hex) hstr, by simp [Shape.counts],
          by simp [Shape.counts], by simp [Shape.counts], fun _ _ _ => rfl⟩
        rw [hd]
        simp [hsame, hstr]

/-- C7, at the hand "H2 SQ C2 D2 CQ" of the tests: rank counts `[3, 2]`, a full house. -/
theorem C7_category_table_witness :
    rankCountsDescending exTwosFullOfQueens.ranks = [3, 2]
      ∧ ∃ v ks, Evaluate exTwosFullOfQueens = some (v, ks)
        ∧ rankCountsDescending exTwosFullOfQueens.ranks
            ∈ [[4, 1], [3, 2], [3, 1, 1], [2, 2, 1], [2, 1, 1, 1], [1, 1, 1, 1, 1]]
        ∧ (rankCountsDescending exTwosFullOfQueens.ranks = [4, 1] → v = FourOfAKind)
        ∧ (rankCountsDescending exTwosFullOfQueens.ranks = [3, 2] → v = FullHouse)
        ∧ (SameSuit exTwosFullOfQueens → v = Flush)
        ∧ (¬ SameSuit exTwosFullOfQueens
            → (∃ hi, IsStraightWithHigh exTwosFullOfQueens.ranks hi) → v = Straight)
        ∧ (rankCountsDescending exTwosFullOfQueens.ranks = [3, 1, 1] → v = ThreeOfAKind)
        ∧ (rankCountsDescending exTwosFullOfQueens.ranks = [2, 2, 1] → v = TwoPair)
        ∧ (rankCountsDescending exTwosFullOfQueens.ranks = [2, 1, 1, 1] → v = OnePair)
        ∧ (rankCountsDescending exTwosFullOfQueens.ranks = [1, 1, 1, 1, 1]
            → ¬ SameSuit exTwosFullOfQueens
            → ¬ (∃ hi, IsStraightWithHigh exTwosFullOfQueens.ranks hi) → v = HighCard) :=
  ⟨by decide, C7_category_table exTwosFullOfQueens rfl (by decide)
    (fun hboth => absurd hboth.1 (by decide))⟩

/-- C8: the kickers of the multiplicity categories on five different cards.  Four of a kind:
the rank that occurs four times, then the rank of the fifth card.  Full house: the rank that
occurs three times, then the rank that occurs twice.  Three of a kind: the rank that occurs
three times, then the two other ranks from high to low.  One pair: the rank that occurs
twice, then the three other ranks from high to low. -/
theorem C8_multiplicity_kickers (h : Hand) (hlen : h.Cards.length = 5) (hnd : h.Cards.Nodup)
    (v : HandVal) (ks : List Rank) (hev : Evaluate h = some (v, ks)) :
    (v = FourOfAKind → ∃ q f, h.ranks.count q = 4 ∧ h.ranks.count f = 1 ∧ ks = [q, f])
      ∧ (v = FullHouse → ∃ t p, h.ranks.count t = 3 ∧ h.ranks.count p = 2 ∧ ks = [t, p])
      ∧ (v = ThreeOfAKind → ∃ t x y, h.ranks.count t = 3 ∧ h.ranks.count x = 1
          ∧ h.ranks.count y = 1 ∧ y.toNat < x.toNat ∧ ks = [t, x, y])
      ∧ (v = OnePair → ∃ p x y z, h.ranks.count p = 2 ∧ h.ranks.count x = 1
          ∧ h.ranks.count y = 1 ∧ h.ranks.count z = 1 ∧ y.toNat < x.toNat
          ∧ z.toNat < y.toNat ∧ ks = [p, x, y, z]) := by
  have hE : Evaluate h = evaluateFive h := by simp [Evaluate, hlen]
  rw [hE] at hev
  obtain ⟨h4, hfh, h3, -, h2⟩ := evaluateFive_inv h hlen hnd v ks hev
  refine ⟨fun hv => ?_, fun hv => ?_, fun hv => ?_, fun hv => ?_⟩
  · obtain ⟨q, k, hwf, hp, hks⟩ := h4 hv
    have hqk : q ≠ k := hwf
    refine ⟨q, k, ?_, ?_, hks⟩
    · rw [hp.count_eq]
      simp [List.count_cons, hqk.symm]
    · rw [hp.count_eq]
      simp [List.count_cons, hqk]
  · obtain ⟨t, p, hwf, hp, hks⟩ := hfh hv
    have htp : t ≠ p := hwf
    refine ⟨t, p, ?_, ?_, hks⟩
    · rw [hp.count_eq]
      simp [List.count_cons, htp.symm]
    · rw [hp.count_eq]
      simp [List.count_cons, htp]
  · obtain ⟨t, x, y, ⟨htx, hty, hxy⟩, hp, hks⟩ := h3 hv
    have hxy' : x ≠ y := (rank_ne_of_toNat_lt hxy).symm
    refine ⟨t, x, y, ?_, ?_, ?_, hxy, hks⟩
    · rw [hp.count_eq]
      simp [List.count_cons, htx.symm, hty.symm]
    · rw [hp.count_eq]
      simp [List.count_cons, htx, hxy'.symm]
    · rw [hp.count_eq]
      simp [List.count_cons, hty, hxy']
  · obtain ⟨p, x, y, z, ⟨hpx, hpy, hpz, hxy, hyz⟩, hp, hks⟩ := h2 hv
    have hxy' : x ≠ y := (rank_ne_of_toNat_lt hxy).symm
    have hyz' : y ≠ z := (rank_ne_of_toNat_lt hyz).symm
    have hxz' : x ≠ z := (rank_ne_of_toNat_lt (Nat.lt_trans hyz hxy)).symm
    refine ⟨p, x, y, z, ?_, ?_, ?_, ?_, hxy, hyz, hks⟩
    · rw [hp.count_eq]
      simp [List.count_cons, hpx.symm, hpy.symm, hpz.symm]
    · rw [hp.count_eq]
      simp [List.count_cons, hpx, hxy'.symm, hxz'.symm]
    · rw [hp.count_eq]
      simp [List.count_cons, hpy, hxy', hyz'.symm]
    · rw [hp.count_eq]
      simp [List.count_cons, hpz, hxz', hyz']

/-- C8, at the hands of the claim: K K K 5 5 gives `[King, Five]`, K K A 9 4 gives
`[King, Ace, Nine, Four]` and "H2 SQ C2 D2 CQ" gives `[Two, Queen]`. -/
theorem C8_multiplicity_kickers_witness :
    Evaluate exFullHouse = some (FullHouse, [King, Five])
      ∧ Evaluate exOnePair = some (OnePair, [King, Ace, Nine, Four])
      ∧ Evaluate exTwosFullOfQueens = some (FullHouse, [Two, Queen])
      ∧ ((OnePair = FourOfAKind → ∃ q f, exOnePair.ranks.count q = 4
            ∧ exOnePair.ranks.count f = 1 ∧ [King, Ace, Nine, Four] = [q, f])
        ∧ (OnePair = FullHouse → ∃ t p, exOnePair.ranks.count t = 3
            ∧ exOnePair.ranks.count p = 2 ∧ [King, Ace, Nine, Four] = [t, p])
        ∧ (OnePair = ThreeOfAKind → ∃ t x y, exOnePair.ranks.count t = 3
            ∧ exOnePair.ranks.count x = 1 ∧ exOnePair.ranks.count y = 1
            ∧ y.toNat < x.toNat ∧ [King, Ace, Nine, Four] = [t, x, y])
        ∧ (OnePair = OnePair → ∃ p x y z, exOnePair.ranks.count p = 2
            ∧ exOnePair.ranks.count x = 1 ∧ exOnePair.ranks.count y = 1
            ∧ exOnePair.ranks.count z = 1 ∧ y.toNat < x.toNat ∧ z.toNat < y.toNat
            ∧ [King, Ace, Nine, Four] = [p, x, y, z])) :=
  ⟨by decide, by decide, by decide,
    C8_multiplicity_kickers exOnePair rfl (by decide) OnePair [King, Ace, Nine, Four]
      (by decide)⟩

/-- C9: two hands of five different cards each that evaluate to the same multiplicity
category compare as their tie-break tuples compare lexicographically. -/
theorem C9_same_category_compare (a b : Hand) (hla : a.Cards.length = 5)
    (hlb : b.Cards.length = 5) (hna : a.Cards.Nodup) (hnb : b.Cards.Nodup) (v : HandVal)
    (ka kb : List Rank)
    (hv : v = FourOfAKind ∨ v = FullHouse ∨ v = ThreeOfAKind ∨ v = TwoPair ∨ v = OnePair)
    (hea : Evaluate a = some (v, ka)) (heb : Evaluate b = some (v, kb)) :
    Compare a b = some (lexSign (tieBreakTuple a.ranks) (tieBreakTuple b.ranks)) := by
  have hcmp : Compare a b = some (compareKickers ka kb) := by
    simp [Compare, hea, heb]
  have hEa : Evaluate a = evaluateFive a := by simp [Evaluate, hla]
  have hEb : Evaluate b = evaluateFive b := by simp [Evaluate, hlb]
  rw [hEa] at hea
  rw [hEb] at heb
  obtain ⟨a4, afh, a3, a22, a2⟩ := evaluateFive_inv a hla hna v ka hea
  obtain ⟨b4, bfh, b3, b22, b2⟩ := evaluateFive_inv b hlb hnb v kb heb
  rw [hcmp, lexSign_eq_compareKickers]
  rcases hv with hv | hv | hv | hv | hv
  · obtain ⟨q, k, hwf, hp, rfl⟩ := a4 hv
    obtain ⟨q', k', hwf', hp', rfl⟩ := b4 hv
    rw [tieBreakTuple_shape _ _ hwf hp, tieBreakTuple_shape _ _ hwf' hp']
    rfl
  · obtain ⟨q, k, hwf, hp, rfl⟩ := afh hv
    obtain ⟨q', k', hwf', hp', rfl⟩ := bfh hv
    rw [tieBreakTuple_shape _ _ hwf hp, tieBreakTuple_shape _ _ hwf' hp']
    rfl
  · obtain ⟨t, x, y, hwf, hp, rfl⟩ := a3 hv
    obtain ⟨t', x', y', hwf', hp', rfl⟩ := b3 hv
    rw [tieBreakTuple_shape _ _ hwf hp, tieBreakTuple_shape _ _ hwf' hp']
    rfl
  · obtain ⟨p, q, k, hwf, hp, rfl⟩ := a22 hv
    obtain ⟨p', q', k', hwf', hp', rfl⟩ := b22 hv
    rw [tieBreakTuple_shape _ _ hwf hp, tieBreakTuple_shape _ _ hwf' hp',
      compareKickers_twoPair]
    rfl
  · obtain ⟨p, x, y, z, hwf, hp, rfl⟩ := a2 hv
    obtain ⟨p', x', y', z', hwf', hp', rfl⟩ := b2 hv
    rw [tieBreakTuple_shape _ _ hwf hp, tieBreakTuple_shape _ _ hwf' hp']
    rfl

/-- C9, at hands of the tests: four Eights beat four Sevens whatever the fifth card, equal
triples are decided by the leftover ranks, and of two hands with two pairs the higher second
pair wins. -/
theorem C9_same_category_compare_witness :
    tieBreakTuple exQuadEights.ranks = [Eight, Queen]
      ∧ tieBreakTuple exQuadSevens.ranks = [Seven, King]
      ∧ Compare exQuadEights exQuadSevens = some 1
      ∧ Compare exTripsSeven exTripsEight = some (-1)
      ∧ tieBreakTuple exTensAndFives.ranks = [Ten, Five, Queen]
      ∧ Compare exTensAndFives exTensAndNines = some (-1)
      ∧ Compare exQuadEights exQuadSevens
        = some (lexSign (tieBreakTuple exQuadEights.ranks) (tieBreakTuple exQuadSevens.ranks)) :=
  ⟨by decide, by decide, by decide, by decide, by decide, by decide,
    C9_same_category_compare exQuadEights exQuadSevens rfl rfl (by decide) (by decide)
      FourOfAKind [Eight, Queen] [Seven, King] (Or.inl rfl) (by decide) (by decide)⟩

/-- C10: `Compare` returns `-1`, `0` or `1`: `1` when the category of the first hand is the
greater, `-1` when it is the smaller, and on equal categories the outcome of the kicker
sequences: first differing element of the common length, else the longer sequence, else `0`,
which is returned only for equal lengths. -/
theorem C10_compare_result (a b : Hand) :
    ∃ v1 k1 v2 k2 r, Evaluate a = some (v1, k1) ∧ Evaluate b = some (v2, k2)
      ∧ Compare a b = some r
      ∧ (r = -1 ∨ r = 0 ∨ r = 1)
      ∧ (v2.toNat < v1.toNat → r = 1)
      ∧ (v1.toNat < v2.toNat → r = -1)
      ∧ (v1 = v2 → KickerOutcome k1 k2 r ∧ (r = 0 → k1.length = k2.length)) := by
  obtain ⟨va, ka, ha⟩ := Evaluate_isSome a
  obtain ⟨vb, kb, hb⟩ := Evaluate_isSome b
  by_cases h1 : va.toNat > vb.toNat
  · refine ⟨va, ka, vb, kb, 1, ha, hb, by simp [Compare, ha, hb, h1], by simp, fun _ => rfl,
      fun h => by omega, fun h => ?_⟩
    subst h
    omega
  · by_cases h2 : va.toNat < vb.toNat
    · refine ⟨va, ka, vb, kb, -1, ha, hb, by simp [Compare, ha, hb, h1, h2], by simp,
        fun h => by omega, fun _ => rfl, fun h => ?_⟩
      subst h
      omega
    · refine ⟨va, ka, vb, kb, compareKickers ka kb, ha, hb, by simp [Compare, ha, hb, h1, h2],
        compareKickers_range ka kb, fun h => by omega, fun h => by omega, fun _ => ?_⟩
      refine ⟨compareKickers_outcome ka kb, fun h0 => ?_⟩
      rw [compareKickers_eq_zero h0]

/-- C11: the outcome of `NewCard` on a token, with `len(s)` the number of bytes of the token
(the number of its characters when they are all ASCII).  The format error is returned
exactly when the length is not 2; otherwise the suit error exactly when the first character
is not a suit symbol; otherwise the rank error exactly when the second character is not a
rank symbol; otherwise the card of that suit and that rank. -/
theorem C11_newCard_errors (s : String) :
    ((goBytes s).length ≠ 2 ↔ NewCard s = .error (.invalidCardFormat s))
      ∧ (∀ t, NewCard s = .error (.invalidCardFormat t) → (goBytes s).length ≠ 2)
      ∧ ((∃ b, NewCard s = .error (.invalidSuit b))
          ↔ ((goBytes s).length = 2 ∧ ¬ ∃ suit : Suit, s.data.head? = some suit.symbol))
      ∧ ((∃ b, NewCard s = .error (.invalidRank b))
          ↔ ((goBytes s).length = 2 ∧ (∃ suit : Suit, s.data.head? = some suit.symbol)
            ∧ ¬ ∃ rank : Rank, s.data[1]? = some rank.symbol))
      ∧ (∀ c, NewCard s = .ok c
          ↔ ((goBytes s).length = 2 ∧ s.data.head? = some c.Suit.symbol
            ∧ s.data[1]? = some c.Rank.symbol))
      ∧ ((∀ ch ∈ s.data, ch.toNat < 128) → (goBytes s).length = s.data.length) := by
  have hascii : (∀ ch ∈ s.data, ch.toNat < 128) → (goBytes s).length = s.data.length :=
    goBytes_length_ascii s.data
  rcases NewCard_cases s with ⟨hlen, h⟩ | ⟨b0, b1, hb, hs, h⟩ | ⟨b0, b1, suit, hb, hs, hr, h⟩
      | ⟨b0, b1, suit, rank, hb, hs, hr, h⟩
  · refine ⟨⟨fun _ => h, fun _ => hlen⟩, fun _ _ => hlen, ?_, ?_, ?_, hascii⟩
    · rw [h]
      exact ⟨fun ⟨b, hb⟩ => (by cases hb), fun hr => absurd hr.1 hlen⟩
    · rw [h]
      exact ⟨fun ⟨b, hb⟩ => (by cases hb), fun hr => absurd hr.1 hlen⟩
    · intro c
      rw [h]
      exact ⟨fun hc => (by cases hc), fun hr => absurd hr.1 hlen⟩
  · have hlen : (goBytes s).length = 2 := by rw [hb]; rfl
    have hno : ¬ ∃ suit : Suit, s.data.head? = some suit.symbol := by
      rintro ⟨suit, hsuit⟩
      rw [(head_suit_iff s b0 b1 hb suit).mpr hsuit] at hs
      cases hs
    refine ⟨⟨fun hn => absurd hlen hn, fun he => ?_⟩, fun t ht => ?_, ?_, ?_, ?_, hascii⟩
    · rw [h] at he
      cases he
    · rw [h] at ht
      cases ht
    · exact ⟨fun _ => ⟨hlen, hno⟩, fun _ => ⟨b0, h⟩⟩
    · rw [h]
      exact ⟨fun ⟨b, hb⟩ => (by cases hb), fun hr => absurd hr.2.1 hno⟩
    · intro c
      rw [h]
      exact ⟨fun hc => (by cases hc), fun hr => absurd ⟨c.Suit, hr.2.1⟩ hno⟩
  · have hlen : (goBytes s).length = 2 := by rw [hb]; rfl
    have hyes : ∃ suit : Suit, s.data.head? = some suit.symbol :=
      ⟨suit, (head_suit_iff s b0 b1 hb suit).mp hs⟩
    have hno : ¬ ∃ rank : Rank, s.data[1]? = some rank.symbol := by
      rintro ⟨rank, hrank⟩
      rw [(second_rank_iff s b0 b1 hb suit hs rank).mpr hrank] at hr
      cases hr
    refine ⟨⟨fun hn => absurd hlen hn, fun he => ?_⟩, fun t ht => ?_, ?_, ?_, ?_, hascii⟩
    · rw [h] at he
      cases he
    · rw [h] at ht
      cases ht
    · rw [h]
      exact ⟨fun ⟨b, hb⟩ => (by cases hb), fun hr => absurd hyes hr.2⟩
    · exact ⟨fun _ => ⟨hlen, hyes, hno⟩, fun _ => ⟨b1, h⟩⟩
    · intro c
      rw [h]
      exact ⟨fun hc => (by cases hc), fun hr => absurd ⟨c.Rank, hr.2.2⟩ hno⟩
  · have hlen : (goBytes s).length = 2 := by rw [hb]; rfl
    have hhead := (head_suit_iff s b0 b1 hb suit).mp hs
    have hsecond := (second_rank_iff s b0 b1 hb suit hs rank).mp hr
    refine ⟨⟨fun hn => absurd hlen hn, fun he => ?_⟩, fun t ht => ?_, ?_, ?_, ?_, hascii⟩
    · rw [h] at he
      cases he
    · rw [h] at ht
      cases ht
    · rw [h]
      exact ⟨fun ⟨b, hb⟩ => (by cases hb), fun hr => absurd ⟨suit, hhead⟩ hr.2⟩
    · rw [h]
      exact ⟨fun ⟨b, hb⟩ => (by cases hb), fun hr => absurd ⟨rank, hsecond⟩ hr.2.2⟩
    · intro c
      rw [h]
      constructor
      · intro hc
        cases hc
        exact ⟨hlen, hhead, hsecond⟩
      · rintro ⟨-, hc1, hc2⟩
        have e1 := (head_suit_iff s b0 b1 hb c.Suit).mpr hc1
        have e2 := (second_rank_iff s b0 b1 hb suit hs c.Rank).mpr hc2
        rw [hs] at e1
        rw [hr] at e2
        cases e1
        cases e2
        rfl

/-- C11, at tokens of the tests: "XX" has an invalid suit (the suit is checked before the
rank), "H1" an invalid rank, "H" and "H10" an invalid format, and "SQ" is the queen of
spades.  The length is in bytes: the one character of "é" makes two bytes, so that token has
an invalid suit. -/
theorem C11_newCard_errors_witness :
    NewCard "XX" = .error (.invalidSuit 'X'.toNat)
      ∧ NewCard "H1" = .error (.invalidRank '1'.toNat)
      ∧ NewCard "H" = .error (.invalidCardFormat "H")
      ∧ NewCard "H10" = .error (.invalidCardFormat "H10")
      ∧ NewCard "SQ" = .ok { Suit := Spades, Rank := Queen }
      ∧ NewCard "é" = .error (.invalidSuit 195)
      ∧ ((goBytes "XX").length ≠ 2 ↔ NewCard "XX" = .error (.invalidCardFormat "XX")) :=
  ⟨by rfl, by rfl, by rfl, by rfl, by rfl, by rfl, (C11_newCard_errors "XX").1⟩

/-- C12: on an input of 5 to 7 tokens that all parse, to the cards `cs` in token order,
`NewHand` returns the error about a duplicate card exactly when two tokens denote the same
card, which is when two tokens give the same canonical string; and it succeeds exactly when
the cards are pairwise different, with the hand that holds the parsed cards in token order,
one per token. -/
theorem C12_newHand_duplicates (s : String) (cs : List Card)
    (hsize : 5 ≤ (Fields s).length ∧ (Fields s).length ≤ 7)
    (hparse : List.Forall₂ (fun p c => NewCard p = .ok c) (Fields s) cs) :
    ((∃ key, NewHand s = .error (.duplicateCard key)) ↔ ¬ cs.Nodup)
      ∧ (¬ cs.Nodup ↔ ∃ i j : Nat, i < j ∧ j < cs.length ∧ cs[i]? = cs[j]?)
      ∧ (cs.Nodup ↔ (cs.map Card.String).Nodup)
      ∧ (cs.Nodup ↔ NewHand s = .ok { Cards := cs })
      ∧ (∀ h, NewHand s = .ok h → h.Cards = cs ∧ h.Cards.Nodup
          ∧ h.Cards.length = (Fields s).length) := by
  have hnew : NewHand s = NewHandLoop (Fields s) [] [] := by
    simp only [NewHand]
    rw [if_neg (by omega)]
  obtain ⟨h1, h2⟩ := NewHandLoop_spec (Fields s) cs hparse [] [] (by simp)
  simp only [List.not_mem_nil, not_false_eq_true, implies_true, true_and,
    List.nil_append] at h1 h2
  have hlen : cs.length = (Fields s).length := hparse.length_eq.symm
  refine ⟨⟨?_, ?_⟩, ?_, ?_, ⟨?_, ?_⟩, ?_⟩
  · rintro ⟨key, hkey⟩ hnd
    rw [hnew, h1 hnd] at hkey
    cases hkey
  · intro hnd
    obtain ⟨c, -, hc⟩ := h2 hnd
    exact ⟨c.String, by rw [hnew, hc]⟩
  · rw [List.nodup_iff_getElem?_ne_getElem?]
    push_neg
    rfl
  · exact (List.nodup_map_iff Card_String_injective).symm
  · intro hnd
    rw [hnew, h1 hnd]
  · intro hok
    by_contra hnd
    obtain ⟨c, -, hc⟩ := h2 hnd
    rw [hnew, hc] at hok
    cases hok
  · intro h hok
    by_cases hnd : cs.Nodup
    · rw [hnew, h1 hnd] at hok
      cases hok
      exact ⟨rfl, hnd, hlen⟩
    · obtain ⟨c, -, hc⟩ := h2 hnd
      rw [hnew, hc] at hok
      cases hok

/-- C12, at inputs of the tests: "H2 H2 SQ C2 D2" is rejected for the duplicate "H2", and
"H2 SQ C2 D2 CQ" gives its five cards in token order. -/
theorem C12_newHand_duplicates_witness :
    NewHand "H2 H2 SQ C2 D2" = .error (.duplicateCard "H2")
      ∧ NewHand "H2 SQ C2 D2 CQ" = .ok exTwosFullOfQueens
      ∧ (exTwosFullOfQueens.Cards.Nodup ↔ NewHand "H2 SQ C2 D2 CQ" = .ok exTwosFullOfQueens) :=
  ⟨by rfl, by rfl,
    (C12_newHand_duplicates "H2 SQ C2 D2 CQ" exTwosFullOfQueens.Cards
      (by decide)
      (List.Forall₂.cons (by rfl) (List.Forall₂.cons (by rfl) (List.Forall₂.cons (by rfl)
        (List.Forall₂.cons (by rfl) (List.Forall₂.cons (by rfl) List.Forall₂.nil)))))).2.2.2.1⟩

/-- C13: for every hand of five cards that `Evaluate` classifies as `Flush` or as
`HighCard`, the kicker sequence is the ranks of the five cards sorted in descending order: it
has length 5, it is a permutation of the ranks of the hand, and it descends.  This holds for
all five-card hands, those of five different cards among them. -/
theorem C13_flush_highcard_kickers (h : Hand) (hlen : h.Cards.length = 5)
    (v : HandVal) (ks : List Rank) (hev : Evaluate h = some (v, ks))
    (hv : v = Flush ∨ v = HighCard) :
    ks = sortDescending h.ranks ∧ ks.length = 5 ∧ ks.Perm h.ranks ∧ ks.Sorted rankGe := by
  have hks : ks = sortDescending h.ranks := by
    rw [Evaluate, if_pos hlen] at hev
    exact evaluateFive_all_ranks h hlen v ks hev hv
  subst hks
  exact ⟨rfl, by rw [sortDescending_length, ranks_length, hlen], sortDescending_perm _,
    sortDescending_sorted _⟩

/-- C13, at a flush and at a high-card hand. -/
theorem C13_flush_highcard_kickers_witness :
    (Evaluate exFlush = some (Flush, [King, Queen, Five, Four, Two])
      ∧ [King, Queen, Five, Four, Two] = sortDescending exFlush.ranks)
    ∧ Evaluate exHighCard = some (HighCard, [Ace, King, Eight, Five, Three])
    ∧ [Ace, King, Eight, Five, Three] = sortDescending exHighCard.ranks :=
  ⟨⟨by decide, (C13_flush_highcard_kickers exFlush (by decide) Flush
      [King, Queen, Five, Four, Two] (by decide) (Or.inl rfl)).1⟩, by decide, by decide⟩

/-- C14: for two hands, each of 5 or 7 cards (different or not), that `Evaluate` puts in the same
category, the two kicker sequences have the same length, which is the length that the
category fixes (`kickerLength`); so `compareKickers` on them is decided by the first index
at which they differ, and gives 0 when there is none: the rule that the longer sequence
wins decides no comparison between evaluated hands. -/
theorem C14_kicker_lengths (h1 h2 : Hand)
    (hlen1 : h1.Cards.length = 5 ∨ h1.Cards.length = 7)
    (hlen2 : h2.Cards.length = 5 ∨ h2.Cards.length = 7)
    (v : HandVal) (k1 k2 : List Rank)
    (hev1 : Evaluate h1 = some (v, k1)) (hev2 : Evaluate h2 = some (v, k2)) :
    k1.length = kickerLength v ∧ k2.length = kickerLength v ∧ k1.length = k2.length
      ∧ compareKickers k1 k2 = (firstDifference (k1.zip k2)).getD 0
      ∧ Compare h1 h2 = some ((firstDifference (k1.zip k2)).getD 0) := by
  have hl1 := Evaluate_length h1 hlen1 v k1 hev1
  have hl2 := Evaluate_length h2 hlen2 v k2 hev2
  have hc : compareKickers k1 k2 = (firstDifference (k1.zip k2)).getD 0 := by
    unfold compareKickers
    cases firstDifference (k1.zip k2) with
    | some res => rfl
    | none => simp [hl1, hl2]
  refine ⟨hl1, hl2, hl1.trans hl2.symm, hc, ?_⟩
  simp [Compare, hev1, hev2, hc]

/-- C14, at two hands with four of a kind, one of five and one of seven cards. -/
theorem C14_kicker_lengths_witness :
    Evaluate exQuadEights = some (FourOfAKind, [Eight, Queen])
      ∧ Evaluate exSevenQuads = some (FourOfAKind, [Two, King])
      ∧ [Eight, Queen].length = [Two, King].length
      ∧ Compare exQuadEights exSevenQuads = some 1 :=
  ⟨by decide, by decide,
    (C14_kicker_lengths exQuadEights exSevenQuads (by decide) (by decide)
      FourOfAKind [Eight, Queen] [Two, King] (by decide) (by decide)).2.2.1,
    by decide⟩

/-- C15: `Evaluate` does not depend on the order of the cards: a hand and a permutation of
its `Cards` slice get the same category and the same kicker sequence.  This holds for hands
of 5 or 7 different cards, and for all other hands as well.  On seven cards the result is
the one candidate that no sublist of five cards beats, whichever of several equally good
sublists the loop meets first. -/
theorem C15_order_independent (h h' : Hand) (hp : h'.Cards.Perm h.Cards) :
    Evaluate h' = Evaluate h
      ∧ (∃ v ks, Evaluate h = some (v, ks) ∧ Evaluate h' = some (v, ks))
      ∧ (h.Cards.length = 7 → ∀ r : HandVal × List Rank,
          (∃ s ∈ List.sublistsLen 5 h.Cards, evaluateFive { Cards := s } = some r) →
          (∀ s ∈ List.sublistsLen 5 h.Cards,
            ∃ c, evaluateFive { Cards := s } = some c ∧ notBetter c r) →
          Evaluate h = some r ∧ Evaluate h' = some r) := by
  have heq : Evaluate h' = Evaluate h := Evaluate_perm hp
  refine ⟨heq, ?_, ?_⟩
  · obtain ⟨v, ks, hev⟩ := Evaluate_isSome h
    exact ⟨v, ks, hev, heq.trans hev⟩
  · intro h7 r ⟨s, hs, hsr⟩ hbest
    obtain ⟨r0, hr0, ⟨s0, hs0, hsr0⟩, hbest0⟩ := findBestFive_spec h h7
    have h1 : notBetter r r0 := by
      obtain ⟨c, hc, hcr⟩ := hbest0 s hs
      rw [hsr] at hc
      cases hc
      exact hcr
    have h2 : notBetter r0 r := by
      obtain ⟨c, hc, hcr⟩ := hbest s0 hs0
      rw [hsr0] at hc
      cases hc
      exact hcr
    have hev : Evaluate h = some r := by
      rw [Evaluate, if_neg (by omega), if_pos h7, hr0, notBetter_antisymm h1 h2]
    exact ⟨hev, heq.trans hev⟩

/-- C15, at the seven cards "H2 H5 H7 H9 HK S3 C4" of the tests and a reordering of them. -/
theorem C15_order_independent_witness :
    exSevenFlushShuffled.Cards.Perm exSevenFlush.Cards
      ∧ Evaluate exSevenFlushShuffled = some (Flush, [King, Nine, Seven, Five, Two])
      ∧ Evaluate exSevenFlushShuffled = Evaluate exSevenFlush :=
  ⟨by decide, by decide, (C15_order_independent exSevenFlush exSevenFlushShuffled (by decide)).1⟩

/-- C16: `Evaluate` and `Compare` are total on well-formed hands.  For hands of exactly 5 or
exactly 7 cards (suits and ranks are valid by their types) a result is returned, and it is
not the one of the fallback branch.  On five cards the reads `Cards[0]` of `isFlush`,
`ranks[0..4]` of `isStraight` and `counts[0]` of `evaluateFive` are in range (`counts[1]` is
read only behind `len(counts) > 1`).  On seven cards the loop of `findBestFive` leaves within
21 iterations, every index it uses is below 7, so every read `h.Cards[idx]` is in range, and
each sub-hand has five cards on which `evaluateFive` returns. -/
theorem C16_total (h other : Hand)
    (hlen : h.Cards.length = 5 ∨ h.Cards.length = 7)
    (hlen' : other.Cards.length = 5 ∨ other.Cards.length = 7) :
    (∃ v1 k1 v2 k2 r, Evaluate h = some (v1, k1) ∧ Evaluate other = some (v2, k2)
        ∧ k1 ≠ [] ∧ k2 ≠ [] ∧ Compare h other = some r ∧ (r = -1 ∨ r = 0 ∨ r = 1))
      ∧ (h.Cards.length = 5 →
          (∃ flush, isFlush h = some flush)
            ∧ (∃ st hi, isStraight h = some (st, hi))
            ∧ (∃ c0, (sortedCounts (getRankCounts h))[0]? = some c0)
            ∧ ∃ v ks, evaluateFive h = some (v, ks))
      ∧ (h.Cards.length = 7 →
          combinationsFrom 21 [0, 1, 2, 3, 4] = some allCombinations
            ∧ (∀ indices ∈ allCombinations,
                (∀ idx ∈ indices, idx < h.Cards.length)
                  ∧ ∃ sub, subHandCards h.Cards indices = some sub ∧ sub.length = 5
                    ∧ (∃ flush, isFlush { Cards := sub } = some flush)
                    ∧ (∃ st hi, isStraight { Cards := sub } = some (st, hi))
                    ∧ (∃ c0, (sortedCounts (getRankCounts { Cards := sub }))[0]? = some c0)
                    ∧ ∃ v ks, evaluateFive { Cards := sub } = some (v, ks))
            ∧ ∃ v ks, findBestFive h = some (v, ks)) := by
  refine ⟨?_, evaluateFive_reads h, ?_⟩
  · obtain ⟨v1, k1, hev1, hne1⟩ := Evaluate_kickers_ne h hlen
    obtain ⟨v2, k2, hev2, hne2⟩ := Evaluate_kickers_ne other hlen'
    by_cases h1 : v1.toNat > v2.toNat
    · exact ⟨v1, k1, v2, k2, 1, hev1, hev2, hne1, hne2, by simp [Compare, hev1, hev2, h1],
        by simp⟩
    · by_cases h2 : v1.toNat < v2.toNat
      · exact ⟨v1, k1, v2, k2, -1, hev1, hev2, hne1, hne2,
          by simp [Compare, hev1, hev2, h1, h2], by simp⟩
      · exact ⟨v1, k1, v2, k2, compareKickers k1 k2, hev1, hev2, hne1, hne2,
          by simp [Compare, hev1, hev2, h1, h2], compareKickers_range k1 k2⟩
  · intro h7
    refine ⟨combinationsFrom_start, ?_, ?_⟩
    · intro indices hi
      refine ⟨fun idx hidx => h7 ▸ (allCombinations_bounds indices hi).2 idx hidx, ?_⟩
      obtain ⟨sub, hsub, hsome⟩ := (subHandCards_sublists h.Cards h7).1 indices hi
      have hl : sub.length = 5 := (List.mem_sublistsLen.mp hsub).2
      exact ⟨sub, hsome, hl, evaluateFive_reads { Cards := sub } hl⟩
    · obtain ⟨r, hr, -, -⟩ := findBestFive_spec h h7
      exact ⟨r.1, r.2, hr⟩

/-- C16, at the seven cards "H2 H5 H7 H9 HK S3 C4" against the five cards "H2 SQ C2 D2 CQ"
of the tests. -/
theorem C16_total_witness :
    Evaluate exSevenFlush = some (Flush, [King, Nine, Seven, Five, Two])
      ∧ Compare exSevenFlush exTwosFullOfQueens = some (-1)
      ∧ ∃ v ks, findBestFive exSevenFlush = some (v, ks) :=
  ⟨by decide, by decide,
    ((C16_total exSevenFlush exTwosFullOfQueens (Or.inr rfl) (Or.inl rfl)).2.2 rfl).2.2⟩

/-- C17: on every hand of five cards `isStraight` returns, and it returns `true` exactly when
the ranks sorted ascending each exceed their predecessor by one, or are exactly Two, Three,
Four, Five, Ace.  The high rank reported is the maximum rank of the hand in the first case
and Five in the second.  A hand reported as a straight has no repeated rank, and with `false`
the rank returned is the zero value `Two`. -/
theorem C17_isStraight (h : Hand) (hlen : h.Cards.length = 5) :
    ∃ a b c d e st hi, sortAscending h.ranks = [a, b, c, d, e]
      ∧ isStraight h = some (st, hi)
      ∧ (st = true ↔
          (b.toNat = a.toNat + 1 ∧ c.toNat = b.toNat + 1 ∧ d.toNat = c.toNat + 1
            ∧ e.toNat = d.toNat + 1)
          ∨ [a, b, c, d, e] = [Two, Three, Four, Five, Ace])
      ∧ (b.toNat = a.toNat + 1 ∧ c.toNat = b.toNat + 1 ∧ d.toNat = c.toNat + 1
            ∧ e.toNat = d.toNat + 1 →
          hi = e ∧ hi ∈ h.ranks ∧ ∀ r ∈ h.ranks, r.toNat ≤ hi.toNat)
      ∧ ([a, b, c, d, e] = [Two, Three, Four, Five, Ace] → hi = Five)
      ∧ (st = true → h.ranks.Nodup)
      ∧ (st = false → hi = Two)
      ∧ ∀ hi', isStraight h = some (true, hi') ↔ IsStraightWithHigh h.ranks hi' := by
  have hl : (sortDescending h.ranks).length = 5 := by
    rw [sortDescending_length, ranks_length, hlen]
  obtain ⟨e, d, c, b, a, hS⟩ := exists_of_length_five _ hl
  have hA : sortAscending h.ranks = [a, b, c, d, e] := by
    rw [sortAscending_eq_reverse, hS]
    rfl
  have hst := isStraight_sorted h e d c b a hS
  obtain ⟨st, hi, hst', hnd, hfalse⟩ := isStraight_five h hlen
  have hres : straightOfSorted e d c b a = (st, hi) := by
    rw [hst] at hst'
    exact Option.some.inj hst'
  have hperm : h.ranks.Perm [a, b, c, d, e] := hA ▸ (sortAscending_perm h.ranks).symm
  refine ⟨a, b, c, d, e, st, hi, hA, hst', ?_, ?_, ?_, hnd, hfalse,
    fun hi' => isStraight_iff h hlen hi'⟩
  · unfold straightOfSorted at hres
    split_ifs at hres with h1 h2
    · obtain ⟨hab, hbc, hcd, hde⟩ := h1
      simp only [Prod.mk.injEq] at hres
      exact ⟨fun _ => Or.inl ⟨hab, hbc, hcd, hde⟩, fun _ => hres.1.symm⟩
    · obtain ⟨rfl, rfl, rfl, rfl, rfl⟩ := h2
      simp only [Prod.mk.injEq] at hres
      exact ⟨fun _ => Or.inr rfl, fun _ => hres.1.symm⟩
    · simp only [Prod.mk.injEq] at hres
      constructor
      · intro ht
        rw [ht] at hres
        exact absurd hres.1 (by decide)
      · rintro (⟨hab, hbc, hcd, hde⟩ | heq)
        · exact absurd ⟨hab, hbc, hcd, hde⟩ h1
        · simp only [List.cons.injEq, and_true] at heq
          obtain ⟨rfl, rfl, rfl, rfl, rfl⟩ := heq
          exact absurd ⟨rfl, rfl, rfl, rfl, rfl⟩ h2
  · rintro ⟨hab, hbc, hcd, hde⟩
    unfold straightOfSorted at hres
    rw [if_pos ⟨hab, hbc, hcd, hde⟩] at hres
    simp only [Prod.mk.injEq] at hres
    obtain ⟨-, rfl⟩ := hres
    refine ⟨rfl, hperm.mem_iff.mpr (by simp), ?_⟩
    intro r hr
    have hr' := hperm.mem_iff.mp hr
    simp only [List.mem_cons, List.mem_singleton, List.not_mem_nil, or_false] at hr'
    rcases hr' with rfl | rfl | rfl | rfl | rfl <;> omega
  · intro heq
    simp only [List.cons.injEq, and_true] at heq
    obtain ⟨rfl, rfl, rfl, rfl, rfl⟩ := heq
    have : straightOfSorted Ace Five Four Three Two = (true, Five) := by decide
    rw [this] at hres
    simp only [Prod.mk.injEq] at hres
    exact hres.2.symm

/-- C17, at the wheel of the tests, at a straight up to the Ace, and at Queen, King, Ace,
Two, Three, which is no straight. -/
theorem C17_isStraight_witness :
    isStraight exWheel = some (true, Five)
      ∧ isStraight exRoyalFlush = some (true, Ace)
      ∧ isStraight exQueenToThree = some (false, Two)
      ∧ isStraight exTwoPair = some (false, Two)
      ∧ ∃ a b c d e st hi, sortAscending exQueenToThree.ranks = [a, b, c, d, e]
          ∧ isStraight exQueenToThree = some (st, hi) :=
  ⟨by decide, by decide, by decide, by decide,
    (C17_isStraight exQueenToThree rfl).imp fun _ ha => ha.imp fun _ hb => hb.imp fun _ hc =>
      hc.imp fun _ hd => hd.imp fun _ he => he.imp fun _ hs => hs.imp fun _ hh =>
        ⟨hh.1, hh.2.1⟩⟩

/-- C18: the combination loop of `findBestFive` terminates: from `[0,1,2,3,4]` it leaves
after exactly 21 iterations, the last one at `[2,3,4,5,6]`, where no index can be
incremented.  The index tuples it evaluates are the 21 of `allCombinations`, each once, and
they are exactly the strictly increasing 5-tuples with every index in 0..6.  The result of
`findBestFive` is the fold of the 21 candidates, and more fuel than 21 iterations changes
nothing. -/
theorem C18_combination_loop :
    combinationsFrom 21 [0, 1, 2, 3, 4] = some allCombinations
      ∧ (∀ fuel, fuel < 21 → combinationsFrom fuel [0, 1, 2, 3, 4] = none)
      ∧ allCombinations.length = 21
      ∧ allCombinations.head? = some [0, 1, 2, 3, 4]
      ∧ allCombinations.getLast? = some [2, 3, 4, 5, 6]
      ∧ nextCombination 7 5 [2, 3, 4, 5, 6] = none
      ∧ allCombinations.Nodup
      ∧ (∀ indices : List Nat, indices ∈ allCombinations
          ↔ indices.length = 5 ∧ indices.Sorted (fun a b => a < b) ∧ ∀ idx ∈ indices, idx < 7)
      ∧ (∀ i, i < 20 →
          (allCombinations[i]?).bind (nextCombination 7 5) = allCombinations[i + 1]?
            ∧ (allCombinations[i + 1]?).isSome = true)
      ∧ (∀ (h : Hand) (extra : Nat) (best : HandVal × List Rank),
          findBestFiveLoop h (21 + extra) [0, 1, 2, 3, 4] best
            = allCombinations.foldlM (fun b i => (candidateAt h i).map (updateBest b)) best)
      ∧ ∀ (h : Hand) (extra : Nat),
          findBestFiveLoop h (21 + extra) [0, 1, 2, 3, 4] (HighCard, []) = findBestFive h := by
  have hloop : ∀ (h : Hand) (extra : Nat) (best : HandVal × List Rank),
      findBestFiveLoop h (21 + extra) [0, 1, 2, 3, 4] best
        = allCombinations.foldlM (fun b i => (candidateAt h i).map (updateBest b)) best :=
    fun h extra best => findBestFiveLoop_eq h (21 + extra) [0, 1, 2, 3, 4] best allCombinations
      (combinationsFrom_mono 21 extra _ _ combinationsFrom_start)
  refine ⟨combinationsFrom_start, by decide, by decide, by decide, by decide, by decide,
    by decide, mem_allCombinations, by decide, hloop, ?_⟩
  intro h extra
  rw [hloop h extra, findBestFive, ← hloop h 0]

/-- C18, at the tuple `[1,3,4,5,6]`, which the loop visits, and at tuples it does not. -/
theorem C18_combination_loop_witness :
    [1, 3, 4, 5, 6] ∈ allCombinations ∧ [1, 3, 3, 5, 6] ∉ allCombinations
      ∧ [3, 4, 5, 6, 7] ∉ allCombinations
      ∧ nextCombination 7 5 [0, 1, 4, 5, 6] = some [0, 2, 3, 4, 5] :=
  ⟨(C18_combination_loop.2.2.2.2.2.2.2.1 [1, 3, 4, 5, 6]).mpr (by decide), by decide, by decide,
    by decide⟩

/-- C19: `NewCard` and `Card.String` are inverse of each other.  `NewCard` returns every
card on its string, a token that `NewCard` accepts is the string of the card returned, and
`Card.String` is injective.  There are 52 cards. -/
theorem C19_newCard_string_inverse :
    (∀ c : Card, NewCard c.String = .ok c)
      ∧ (∀ (s : String) (c : Card), NewCard s = .ok c → c.String = s)
      ∧ Function.Injective Card.String
      ∧ deck.length = 52 ∧ deck.Nodup ∧ ∀ c : Card, c ∈ deck := by
  have h1 : ∀ c : Card, NewCard c.String = .ok c := fun c =>
    (NewCard_ok_iff c.String c).mpr (Card_String_data c)
  refine ⟨h1, ?_, ?_, by decide, by decide, ?_⟩
  · intro s c hok
    have hd := (NewCard_ok_iff s c).mp hok
    exact String.ext ((Card_String_data c).trans hd.symm)
  · intro c c' hcc
    have hc := h1 c
    rw [hcc, h1 c'] at hc
    cases hc
    rfl
  · rintro ⟨suit, rank⟩
    cases suit <;> cases rank <;> decide

/-- C20: `Compare` is a total preorder on hands.  It returns on every pair of hands; of two
hands one compares at least 0 against the other; if `a.Compare(b) >= 0` and
`b.Compare(c) >= 0` then `a.Compare(c) >= 0`; and `a.Compare(b) == 0` holds exactly when
`Evaluate` returns the same category and the same kicker sequence for `a` and `b`. -/
theorem C20_compare_preorder (a b c : Hand) :
    ∃ x y z x', Compare a b = some x ∧ Compare b c = some y ∧ Compare a c = some z
      ∧ Compare b a = some x'
      ∧ (0 ≤ x → 0 ≤ y → 0 ≤ z)
      ∧ (0 ≤ x ∨ 0 ≤ x')
      ∧ (x = 0 ↔ Evaluate a = Evaluate b)
      ∧ Compare a a = some 0 := by
  obtain ⟨va, ka, ha⟩ := Evaluate_isSome a
  obtain ⟨vb, kb, hb⟩ := Evaluate_isSome b
  obtain ⟨vc, kc, hc⟩ := Evaluate_isSome c
  have key : ∀ (p q : Hand) (vp vq : HandVal) (kp kq : List Rank),
      Evaluate p = some (vp, kp) → Evaluate q = some (vq, kq) →
      ∃ r, Compare p q = some r
        ∧ (0 ≤ r ↔ vq.toNat < vp.toNat ∨ (vp = vq ∧ 0 ≤ compareKickers kp kq))
        ∧ (r = 0 ↔ vp = vq ∧ kp = kq) := by
    intro p q vp vq kp kq hp hq
    by_cases h1 : vp.toNat > vq.toNat
    · refine ⟨1, by simp [Compare, hp, hq, h1], ?_, ?_⟩
      · simp only [zero_le_one, true_iff]
        exact Or.inl h1
      · constructor
        · intro h0
          exact absurd h0 (by decide)
        · rintro ⟨rfl, -⟩
          omega
    · by_cases h2 : vp.toNat < vq.toNat
      · refine ⟨-1, by simp [Compare, hp, hq, h1, h2], ?_, ?_⟩
        · constructor
          · intro h0
            exact absurd h0 (by decide)
          · rintro (h | ⟨rfl, -⟩) <;> omega
        · constructor
          · intro h0
            exact absurd h0 (by decide)
          · rintro ⟨rfl, -⟩
            omega
      · have hv : vp = vq := handVal_toNat_injective (by omega)
        refine ⟨compareKickers kp kq, by simp [Compare, hp, hq, h1, h2], ?_, ?_⟩
        · constructor
          · intro h0
            exact Or.inr ⟨hv, h0⟩
          · rintro (h | ⟨-, h0⟩)
            · omega
            · exact h0
        · constructor
          · intro h0
            exact ⟨hv, compareKickers_eq_zero h0⟩
          · rintro ⟨-, rfl⟩
            exact compareKickers_self kp
  obtain ⟨x, hx, hx0, hxe⟩ := key a b va vb ka kb ha hb
  obtain ⟨y, hy, hy0, -⟩ := key b c vb vc kb kc hb hc
  obtain ⟨z, hz, hz0, -⟩ := key a c va vc ka kc ha hc
  obtain ⟨x', hx', hx0', -⟩ := key b a vb va kb ka hb ha
  obtain ⟨w, hw, -, hwe⟩ := key a a va va ka ka ha ha
  refine ⟨x, y, z, x', hx, hy, hz, hx', ?_, ?_, ?_, ?_⟩
  · intro h1 h2
    rw [hz0]
    rcases hx0.mp h1 with hab | ⟨rfl, hab⟩
    · rcases hy0.mp h2 with hbc | ⟨rfl, _⟩
      · exact Or.inl (Nat.lt_trans hbc hab)
      · exact Or.inl hab
    · rcases hy0.mp h2 with hbc | ⟨rfl, hbc⟩
      · exact Or.inl hbc
      · refine Or.inr ⟨rfl, ?_⟩
        have h3 : compareKickers kb ka ≤ 0 := by
          have := compareKickers_antisymm ka kb
          omega
        have h4 : compareKickers kc kb ≤ 0 := by
          have := compareKickers_antisymm kb kc
          omega
        have h5 := compareKickers_trans h4 h3
        have := compareKickers_antisymm ka kc
        omega
  · by_cases hlt : vb.toNat < va.toNat
    · exact Or.inl (hx0.mpr (Or.inl hlt))
    · by_cases hgt : va.toNat < vb.toNat
      · exact Or.inr (hx0'.mpr (Or.inl hgt))
      · have hv : va = vb := handVal_toNat_injective (by omega)
        have hanti := compareKickers_antisymm ka kb
        by_cases h0 : 0 ≤ compareKickers ka kb
        · exact Or.inl (hx0.mpr (Or.inr ⟨hv, h0⟩))
        · exact Or.inr (hx0'.mpr (Or.inr ⟨hv.symm, by omega⟩))
  · rw [hxe, ha, hb]
    simp
  · rw [hw]
    exact congrArg some (hwe.mpr ⟨rfl, rfl⟩)

/-- C20, at the hands with three of a kind and with four of a kind of the tests. -/
theorem C20_compare_preorder_witness :
    Compare exQuadEights exQuadSevens = some 1 ∧ Compare exQuadSevens exTripsEight = some 1
      ∧ Compare exQuadEights exTripsEight = some 1
      ∧ ∃ x y z x', Compare exQuadEights exQuadSevens = some x
          ∧ Compare exQuadSevens exTripsEight = some y
          ∧ Compare exQuadEights exTripsEight = some z
          ∧ Compare exQuadSevens exQuadEights = some x' ∧ (0 ≤ x → 0 ≤ y → 0 ≤ z) :=
  ⟨by decide, by decide, by decide,
    (C20_compare_preorder exQuadEights exQuadSevens exTripsEight).imp fun _ hx =>
      hx.imp fun _ hy => hy.imp fun _ hz => hz.imp fun _ hw =>
        ⟨hw.1, hw.2.1, hw.2.2.1, hw.2.2.2.1, hw.2.2.2.2.1⟩⟩

end Poker
